import Mathlib

/-!
# Key-value file store: a shallow embedding of `src/models/KeyValueStore.js`

The store engine keeps an in-memory mapping from string keys to entries
`{ value, expiry }` and mirrors it to one backing file.  The embedding follows
the JavaScript source operation by operation:

* JSON payloads are the type `JVal`; `stringify` is `JSON.stringify` and
  `byteLength` is `Buffer.byteLength(_, 'utf8')`.
* `this.data` is a plain object: its own properties are an association list
  in insertion order (`Store`), and behind them stands `Object.prototype`.
  The property read `data[key]` is `Store.lookup`: it finds the own property
  (`Store.get`) or else the member that every object inherits under one of
  the names `prototypeNames`.  Property assignment is `Store.set` and
  `delete` is `Store.del`; both touch own properties only.
* A thrown exception leaves the mutations made before the `throw` in place, so
  every operation returns an `Outcome`: the result (a value or the error that
  was thrown) together with the state the store is left in.
* `Date.now()` is an explicit argument, a natural number of milliseconds
  since the epoch.
* The backing file is its text: `saveData` writes `stringifyPretty`, and
  `loadData` reads the text back with `parseJSON`, a model of `JSON.parse`;
  a text longer than the longest string of the runtime (`maxStringLength`
  bytes) cannot be read.
* The periodic sweep is the method `removeExpiredKeys`; the timer that calls it
  and the mutex around the public operations are not modelled: every
  operation is one atomic step.

Scope of the model: keys are well-formed strings, numbers are integers printed
in plain decimal, every stored property is an entry object, and
`Object.prototype` is the one of a fresh runtime.  I/O faults of the file
system are not modelled; the only persist failure is the size check of
`saveData`, whose two serialisations are taken to fit into a string.
-/

set_option autoImplicit false

/-! ## JSON values and their serialisation -/

/-- JSON-compatible payloads. -/
inductive JVal where
  | null : JVal
  | bool (b : Bool) : JVal
  | num (n : Int) : JVal
  | str (s : String) : JVal
  | arr (xs : List JVal) : JVal
  | obj (kvs : List (String × JVal)) : JVal

/-- Lower-case hexadecimal digit of a number below 16. -/
def hexDigit (n : Nat) : Char :=
  if n < 10 then Char.ofNat (48 + n) else Char.ofNat (87 + n)

/-- Escape of one character inside a JSON string literal, as `JSON.stringify`
quotes it: the double quote and the backslash get a backslash, the control
characters below U+0020 get their short escape or a `\u00XX` escape, every
other character stands for itself. -/
def escapeChar (c : Char) : String :=
  if c.toNat = 34 then String.mk [Char.ofNat 92, Char.ofNat 34]
  else if c.toNat = 92 then String.mk [Char.ofNat 92, Char.ofNat 92]
  else if c.toNat = 8 then String.mk [Char.ofNat 92, 'b']
  else if c.toNat = 12 then String.mk [Char.ofNat 92, 'f']
  else if c.toNat = 10 then String.mk [Char.ofNat 92, 'n']
  else if c.toNat = 13 then String.mk [Char.ofNat 92, 'r']
  else if c.toNat = 9 then String.mk [Char.ofNat 92, 't']
  else if c.toNat < 32 then
    String.mk [Char.ofNat 92, 'u', '0', '0', hexDigit (c.toNat / 16), hexDigit (c.toNat % 16)]
  else String.singleton c

/-- The escapes of the characters of a string, one after the other. -/
def escapeChars : List Char → String
  | [] => ""
  | c :: r => escapeChar c ++ escapeChars r

/-- JSON string literal of a string: the escaped characters between quotes. -/
def quote (s : String) : String :=
  "\"" ++ escapeChars s.data ++ "\""

mutual
/-- Compact serialisation, `JSON.stringify(value)`. -/
def stringify : JVal → String
  | .null => "null"
  | .bool true => "true"
  | .bool false => "false"
  | .num n => toString n
  | .str s => quote s
  | .arr xs => "[" ++ stringifyElems xs ++ "]"
  | .obj kvs => "\x7b" ++ stringifyMembers kvs ++ "\x7d"
/-- Elements of an array, separated by commas. -/
def stringifyElems : List JVal → String
  | [] => ""
  | [x] => stringify x
  | x :: y :: r => stringify x ++ "," ++ stringifyElems (y :: r)
/-- Members of an object, `"key":value`, separated by commas. -/
def stringifyMembers : List (String × JVal) → String
  | [] => ""
  | [(k, v)] => quote k ++ ":" ++ stringify v
  | (k, v) :: y :: r => quote k ++ ":" ++ stringify v ++ "," ++ stringifyMembers (y :: r)
end

/-- Indentation of `n` spaces. -/
def spaces (n : Nat) : String := String.mk (List.replicate n ' ')

mutual
/-- Pretty serialisation with two-space indentation,
`JSON.stringify(value, null, 2)`, of a value sitting at indentation `ind`. -/
def stringifyPretty (ind : Nat) : JVal → String
  | .null => "null"
  | .bool true => "true"
  | .bool false => "false"
  | .num n => toString n
  | .str s => quote s
  | .arr [] => "[]"
  | .arr (x :: r) => "[\n" ++ prettyElems (ind + 2) (x :: r) ++ "\n" ++ spaces ind ++ "]"
  | .obj [] => "\x7b\x7d"
  | .obj (p :: r) => "\x7b\n" ++ prettyMembers (ind + 2) (p :: r) ++ "\n" ++ spaces ind ++ "\x7d"
/-- Elements of a pretty-printed array, one per line. -/
def prettyElems (ind : Nat) : List JVal → String
  | [] => ""
  | [x] => spaces ind ++ stringifyPretty ind x
  | x :: y :: r => spaces ind ++ stringifyPretty ind x ++ ",\n" ++ prettyElems ind (y :: r)
/-- Members of a pretty-printed object, one per line. -/
def prettyMembers (ind : Nat) : List (String × JVal) → String
  | [] => ""
  | [(k, v)] => spaces ind ++ quote k ++ ": " ++ stringifyPretty ind v
  | (k, v) :: y :: r =>
      spaces ind ++ quote k ++ ": " ++ stringifyPretty ind v ++ ",\n" ++ prettyMembers ind (y :: r)
end

/-- Number of bytes of the UTF-8 encoding, `Buffer.byteLength(s, 'utf8')`. -/
def byteLength (s : String) : Nat := s.utf8ByteSize

/-! ## Reading JSON text back -/

/-- JSON white space: space, line feed, carriage return and tab. -/
def isSpaceChar (c : Char) : Bool :=
  c.toNat = 32 || c.toNat = 10 || c.toNat = 13 || c.toNat = 9

/-- The text after its leading white space. -/
def skipSpace : List Char → List Char
  | [] => []
  | c :: r => if isSpaceChar c then skipSpace r else c :: r

/-- The number read from a run of decimal digits, continuing from `acc`, and
the text after the run. -/
def parseDigits (acc : Nat) : List Char → Nat × List Char
  | [] => (acc, [])
  | c :: r => if c.isDigit then parseDigits (acc * 10 + (c.toNat - 48)) r else (acc, c :: r)

/-- A natural number literal: the single digit `0`, or a run of digits that
does not start with `0`. -/
def parseNatural : List Char → Option (Nat × List Char)
  | [] => none
  | c :: r =>
    if c.toNat = 48 then
      match r with
      | [] => some (0, [])
      | d :: r1 => if d.isDigit then none else some (0, d :: r1)
    else if c.isDigit then some (parseDigits 0 (c :: r))
    else none

/-- An integer literal: an optional minus sign and a natural number literal. -/
def parseNumber : List Char → Option (Int × List Char)
  | [] => none
  | c :: r =>
    if c.toNat = 45 then
      match parseNatural r with
      | some (n, rest) => some (-(n : Int), rest)
      | none => none
    else
      match parseNatural (c :: r) with
      | some (n, rest) => some ((n : Int), rest)
      | none => none

/-- Value of a hexadecimal digit. -/
def hexValue (c : Char) : Option Nat :=
  if c.isDigit then some (c.toNat - 48)
  else if 97 ≤ c.toNat ∧ c.toNat ≤ 102 then some (c.toNat - 87)
  else if 65 ≤ c.toNat ∧ c.toNat ≤ 70 then some (c.toNat - 55)
  else none

/-- The rest of a string literal after its opening quote: the characters up to
the closing quote, with the escapes undone, and the text after the literal;
`acc` holds the characters read so far, last one first. -/
def parseChars (acc : List Char) : List Char → Option (String × List Char)
  | [] => none
  | c :: r =>
    if c.toNat = 34 then some (String.mk acc.reverse, r)
    else if c.toNat = 92 then
      match r with
      | [] => none
      | e :: r1 =>
        if e.toNat = 34 then parseChars (Char.ofNat 34 :: acc) r1
        else if e.toNat = 92 then parseChars (Char.ofNat 92 :: acc) r1
        else if e.toNat = 47 then parseChars (Char.ofNat 47 :: acc) r1
        else if e = 'b' then parseChars (Char.ofNat 8 :: acc) r1
        else if e = 'f' then parseChars (Char.ofNat 12 :: acc) r1
        else if e = 'n' then parseChars (Char.ofNat 10 :: acc) r1
        else if e = 'r' then parseChars (Char.ofNat 13 :: acc) r1
        else if e = 't' then parseChars (Char.ofNat 9 :: acc) r1
        else if e = 'u' then
          match r1 with
          | a :: b :: c1 :: d :: r2 =>
            match hexValue a, hexValue b, hexValue c1, hexValue d with
            | some x, some y, some z, some w =>
              if 55296 ≤ ((x * 16 + y) * 16 + z) * 16 + w ∧
                  ((x * 16 + y) * 16 + z) * 16 + w ≤ 57343 then none
              else parseChars (Char.ofNat (((x * 16 + y) * 16 + z) * 16 + w) :: acc) r2
            | _, _, _, _ => none
          | _ => none
        else none
    else if c.toNat < 32 then none
    else parseChars (c :: acc) r

/-- The literals `null`, `true` and `false` at the head of the text. -/
def parseLiteral (c : Char) (r : List Char) : Option (JVal × List Char) :=
  if c = 'n' then
    match r with
    | a :: b :: d :: rest =>
      if a = 'u' ∧ b = 'l' ∧ d = 'l' then some (.null, rest) else none
    | _ => none
  else if c = 't' then
    match r with
    | a :: b :: d :: rest =>
      if a = 'r' ∧ b = 'u' ∧ d = 'e' then some (.bool true, rest) else none
    | _ => none
  else if c = 'f' then
    match r with
    | a :: b :: d :: e :: rest =>
      if a = 'a' ∧ b = 'l' ∧ d = 's' ∧ e = 'e' then some (.bool false, rest) else none
    | _ => none
  else none

/-- A value that is not an array or an object, at the head of the text: a
number, a string literal or one of the three literals. -/
def parseScalar (c : Char) (r : List Char) : Option (JVal × List Char) :=
  if c.toNat = 45 || c.isDigit then
    match parseNumber (c :: r) with
    | some (n, rest) => some (.num n, rest)
    | none => none
  else if c.toNat = 34 then
    match parseChars [] r with
    | some (s, rest) => some (.str s, rest)
    | none => none
  else parseLiteral c r

mutual
/-- A JSON value at the head of the text, and the text after it; `fuel` bounds
the nesting and the number of elements still to be read. -/
def parseValue : Nat → List Char → Option (JVal × List Char)
  | 0, _ => none
  | _ + 1, [] => none
  | fuel + 1, c :: r =>
    if c.toNat = 91 then
      match skipSpace r with
      | [] => none
      | d :: rest =>
        if d.toNat = 93 then some (.arr [], rest)
        else
          match parseElems fuel (d :: rest) with
          | some (xs, rest1) => some (.arr xs, rest1)
          | none => none
    else if c.toNat = 123 then
      match skipSpace r with
      | [] => none
      | d :: rest =>
        if d.toNat = 125 then some (.obj [], rest)
        else
          match parseMembers fuel (d :: rest) with
          | some (kvs, rest1) => some (.obj kvs, rest1)
          | none => none
    else parseScalar c r
/-- The elements of an array up to its closing bracket; the text starts at the
first element. -/
def parseElems : Nat → List Char → Option (List JVal × List Char)
  | 0, _ => none
  | fuel + 1, cs =>
    match parseValue fuel cs with
    | none => none
    | some (v, rest) =>
      match skipSpace rest with
      | [] => none
      | d :: rest1 =>
        if d.toNat = 44 then
          match parseElems fuel (skipSpace rest1) with
          | some (vs, rest2) => some (v :: vs, rest2)
          | none => none
        else if d.toNat = 93 then some ([v], rest1)
        else none
/-- The members of an object up to its closing brace; the text starts at the
first key. -/
def parseMembers : Nat → List Char → Option (List (String × JVal) × List Char)
  | 0, _ => none
  | _ + 1, [] => none
  | fuel + 1, q :: r =>
    if q.toNat = 34 then
      match parseChars [] r with
      | none => none
      | some (k, rest) =>
        match skipSpace rest with
        | [] => none
        | colon :: rest0 =>
          if colon.toNat = 58 then
            match parseValue fuel (skipSpace rest0) with
            | none => none
            | some (v, rest1) =>
              match skipSpace rest1 with
              | [] => none
              | d :: rest2 =>
                if d.toNat = 44 then
                  match parseMembers fuel (skipSpace rest2) with
                  | some (kvs, rest3) => some ((k, v) :: kvs, rest3)
                  | none => none
                else if d.toNat = 125 then some ([(k, v)], rest2)
                else none
          else none
    else none
end

/-- The function `JSON.parse`: the value the text denotes, or `none` when the
text is not JSON (there `JSON.parse` throws a `SyntaxError`) or is outside the
model (a number with a fraction or an exponent, an escaped surrogate half).
The members of an object are returned as they are written. -/
def parseJSON (text : String) : Option JVal :=
  match parseValue (text.data.length + 1) (skipSpace text.data) with
  | some (v, rest) => if (skipSpace rest).isEmpty then some v else none
  | none => none

/-- The text does not go on with a digit. -/
def noDigitHead (rest : List Char) : Prop := ∀ c r, rest = c :: r → c.isDigit = false

/-! ## Entries and the in-memory mapping -/

/-- One stored entry: the payload and the expiry, `null` (here `none`) or an
absolute time in epoch milliseconds. -/
structure Entry where
  value : JVal
  expiry : Option Int

/-- The object `this.data`: own properties in insertion order. -/
abbrev Store := List (String × Entry)

/-- The property names of `Object.prototype`, which every plain object
inherits: eleven methods and the accessor `__proto__`. -/
def prototypeNames : List String :=
  ["constructor", "__defineGetter__", "__defineSetter__", "hasOwnProperty",
   "__lookupGetter__", "__lookupSetter__", "isPrototypeOf", "propertyIsEnumerable",
   "toString", "valueOf", "__proto__", "toLocaleString"]

/-- What a property read `data[key]` evaluates to: an entry that the object
owns, a member inherited from `Object.prototype` (a function, or the prototype
itself under `__proto__`), or `undefined`. -/
inductive Lookup where
  | entry (e : Entry) : Lookup
  | inherited : Lookup
  | undefined : Lookup

/-- Truthiness of what a property read gives: an entry and an inherited member
are objects, hence truthy; `undefined` is falsy. -/
def Lookup.truthy : Lookup → Bool
  | .entry _ => true
  | .inherited => true
  | .undefined => false

namespace Store

/-- The own property under `key`: the entry, or `none` when the object has no
own property of that name. -/
def get (s : Store) (key : String) : Option Entry :=
  match s with
  | [] => none
  | (k, e) :: r => if k = key then some e else get r key

/-- Property read `data[key]`: the own property when there is one, else the
inherited member when `key` names one, else `undefined`. -/
def lookup (s : Store) (key : String) : Lookup :=
  match get s key with
  | some e => .entry e
  | none => if key ∈ prototypeNames then .inherited else .undefined

/-- The test `if (data[key])`. -/
def holds (s : Store) (key : String) : Bool := (lookup s key).truthy

/-- Overwrite of an existing property, in place. -/
def replace (s : Store) (key : String) (e : Entry) : Store :=
  match s with
  | [] => []
  | (k, x) :: r => if k = key then (k, e) :: replace r key e else (k, x) :: replace r key e

/-- Property assignment `data[key] = e`: an existing property is overwritten
in place, a new one is appended.  The engine assigns only under keys for which
the test `data[key]` has just failed, so never under a name of
`prototypeNames`. -/
def set (s : Store) (key : String) (e : Entry) : Store :=
  match get s key with
  | some _ => replace s key e
  | none => s ++ [(key, e)]

/-- Property removal `delete data[key]`: the own property goes; an inherited
member stays where it is. -/
def del (s : Store) (key : String) : Store :=
  match s with
  | [] => []
  | (k, x) :: r => if k = key then del r key else (k, x) :: del r key

/-- The own property names, `Object.keys(data)`. -/
def keys (s : Store) : List String := s.map Prod.fst

/-- The entry as the JSON object `{"value": …, "expiry": …}`. -/
def entryJSON (e : Entry) : JVal :=
  .obj [("value", e.value),
        ("expiry", match e.expiry with
                   | none => .null
                   | some t => .num t)]

/-- The mapping as a JSON object. -/
def toJSON (s : Store) : JVal :=
  .obj (s.map fun p => (p.1, entryJSON p.2))

end Store

/-! ## The store engine -/

/-- The error classes of the module; `error` is a plain `Error` with its
message. -/
inductive StoreError where
  | keyAlreadyExists : StoreError
  | keyNotFound : StoreError
  | expiredKey : StoreError
  | fileSizeLimitExceeded : StoreError
  | error (message : String) : StoreError
  deriving DecidableEq

/-- State of the engine: the in-memory mapping and the content of the backing
file (`none` while the file does not exist). -/
structure KeyValueStore where
  data : Store
  file : Option String

/-- What a call leaves behind: the value it returned or the error it threw,
and the state of the store afterwards. -/
structure Outcome (α : Type) where
  result : Except StoreError α
  store : KeyValueStore

/-- An item of a batch, `{ key, value, ttl }`; `ttl` is `none` when the
property is absent or `null`. -/
structure Item where
  key : String
  value : JVal
  ttl : Option Int

namespace KeyValueStore

/-- The file size limit of `saveData`, 1 GiB. -/
def fileSizeLimit : Nat := 1073741824

/-- Truthiness of an optional number: `null`, `undefined` and `0` are falsy. -/
def truthy (n : Option Int) : Bool :=
  match n with
  | none => false
  | some t => t != 0

/-- The expression `ttl ? Date.now() + ttl * 1000 : null`. -/
def expiryFor (ttl : Option Int) (now : Nat) : Option Int :=
  match ttl with
  | none => none
  | some t => if t != 0 then some ((now : Int) + t * 1000) else none

/-- The test `item.expiry && Date.now() > item.expiry`. -/
def isExpired (e : Entry) (now : Nat) : Bool :=
  match e.expiry with
  | none => false
  | some t => t != 0 && decide ((now : Int) > t)

/-- Serialized size of the mapping, `Buffer.byteLength(JSON.stringify(data))`. -/
def dataSize (s : Store) : Nat := byteLength (stringify s.toJSON)

/-- The method `saveData`: throws when the serialized mapping is larger than
1 GiB, otherwise rewrites the backing file with the pretty-printed mapping. -/
def saveData (st : KeyValueStore) : Outcome Unit :=
  if dataSize st.data > fileSizeLimit then
    ⟨.error .fileSizeLimitExceeded, st⟩
  else
    ⟨.ok (), { st with file := some (stringifyPretty 0 st.data.toJSON) }⟩

/-- The method `create(key, value, ttl)` run at time `now`. -/
def create (st : KeyValueStore) (key : String) (value : JVal) (ttl : Option Int)
    (now : Nat) : Outcome Unit :=
  if st.data.holds key then
    ⟨.error .keyAlreadyExists, st⟩
  else if byteLength key > 32 then
    ⟨.error (.error "Key must be at most 32 characters."), st⟩
  else if byteLength (stringify value) > 16384 then
    ⟨.error (.error "Value size exceeds 16KB."), st⟩
  else
    saveData { st with data := st.data.set key ⟨value, expiryFor ttl now⟩ }

/-- The method `read(key)` run at time `now`.  The value returned is
`item.value`: the payload of an entry, or `undefined` (here `none`) when `item`
is an inherited member, which has neither `expiry` nor `value`. -/
def read (st : KeyValueStore) (key : String) (now : Nat) : Outcome (Option JVal) :=
  match st.data.lookup key with
  | .undefined => ⟨.error .keyNotFound, st⟩
  | .inherited => ⟨.ok none, st⟩
  | .entry item =>
    if isExpired item now then
      match saveData { st with data := st.data.del key } with
      | ⟨.error e, st1⟩ => ⟨.error e, st1⟩
      | ⟨.ok _, st1⟩ => ⟨.error .expiredKey, st1⟩
    else
      ⟨.ok (some item.value), st⟩

/-- The method `delete(key)`. -/
def delete (st : KeyValueStore) (key : String) : Outcome Unit :=
  if st.data.holds key then
    saveData { st with data := st.data.del key }
  else
    ⟨.error .keyNotFound, st⟩

/-- The three lists and the running size that the first loop of `batchCreate`
builds. -/
structure Scan where
  invalidKeys : List String
  alreadyExistsKeys : List String
  validItems : List Item
  fileSize : Nat

/-- The first loop of `batchCreate` over the items still to be looked at: each
item is pushed on one of the three lists, and the loop throws as soon as the
running size passes the limit. -/
def scanItems (data : Store) : List Item → Scan → Except StoreError Scan
  | [], acc => .ok acc
  | it :: rest, acc =>
    if byteLength it.key > 32 then
      scanItems data rest { acc with invalidKeys := acc.invalidKeys ++ [it.key] }
    else if data.holds it.key then
      scanItems data rest { acc with alreadyExistsKeys := acc.alreadyExistsKeys ++ [it.key] }
    else if byteLength (stringify it.value) > 16384 then
      scanItems data rest { acc with invalidKeys := acc.invalidKeys ++ [it.key] }
    else if acc.fileSize + byteLength (stringify it.value) > fileSizeLimit then
      .error .fileSizeLimitExceeded
    else
      scanItems data rest
        { acc with fileSize := acc.fileSize + byteLength (stringify it.value),
                   validItems := acc.validItems ++ [it] }

/-- The second loop of `batchCreate`: the valid items are assigned in order;
`clock i` is the value of `Date.now()` while item number `i` is assigned. -/
def commitItems (clock : Nat → Nat) : List Item → Nat → Store → Store
  | [], _, s => s
  | it :: rest, i, s =>
    commitItems clock rest (i + 1) (s.set it.key ⟨it.value, expiryFor it.ttl (clock i)⟩)

/-- The messages collected after the commit of a batch. -/
def batchErrors (scan : Scan) : List String :=
  (if scan.invalidKeys.length > 0 then
    ["Invalid keys: " ++ ", ".intercalate scan.invalidKeys] else []) ++
  (if scan.alreadyExistsKeys.length > 0 then
    ["Already existing keys: " ++ ", ".intercalate scan.alreadyExistsKeys] else [])

/-- The method `batchCreate(items)`; `clock` gives the readings of `Date.now()`
of the commit loop. -/
def batchCreate (st : KeyValueStore) (items : List Item) (clock : Nat → Nat) : Outcome Unit :=
  if items.length > 50 then
    ⟨.error (.error "Batch limit of 50 key-value pairs exceeded."), st⟩
  else
    match scanItems st.data items ⟨[], [], [], dataSize st.data⟩ with
    | .error e => ⟨.error e, st⟩
    | .ok scan =>
      match saveData { st with data := commitItems clock scan.validItems 0 st.data } with
      | ⟨.error e, st1⟩ => ⟨.error e, st1⟩
      | ⟨.ok _, st1⟩ =>
        if (batchErrors scan).length > 0 then
          ⟨.error (.error (". ".intercalate (batchErrors scan))), st1⟩
        else
          ⟨.ok (), st1⟩

end KeyValueStore

namespace KeyValueStore

/-- The loop of `removeExpiredKeys` over the keys still to be visited, the own
property names (the members of `Object.prototype` are not enumerable): an
entry that passes the test `expiry && now > expiry` is deleted and the flag
`modified` is raised.  A key whose property is gone is not visited. -/
def sweepKeys (now : Nat) : List String → Store → Bool → Store × Bool
  | [], s, modified => (s, modified)
  | key :: rest, s, modified =>
    match s.get key with
    | some item =>
      if isExpired item now then sweepKeys now rest (s.del key) true
      else sweepKeys now rest s modified
    | none => sweepKeys now rest s modified

/-- The method `removeExpiredKeys` run at time `now`: the loop over the keys of
the mapping, then `saveData` when something was deleted. -/
def removeExpiredKeys (st : KeyValueStore) (now : Nat) : Outcome Unit :=
  match sweepKeys now st.data.keys st.data false with
  | (data, true) => saveData { st with data := data }
  | (data, false) => ⟨.ok (), { st with data := data }⟩

end KeyValueStore

namespace Store

/-- The entry that a parsed JSON value denotes: an object with the two members
`value` and `expiry`, the second one `null` or a number.  Other shapes are
outside the model. -/
def entryOfJSON : JVal → Option Entry
  | .obj [(k1, v), (k2, x)] =>
    if k1 = "value" ∧ k2 = "expiry" then
      match x with
      | .null => some ⟨v, none⟩
      | .num t => some ⟨v, some t⟩
      | _ => none
    else none
  | _ => none

/-- The entries that the members of a parsed JSON object denote. -/
def entriesOfJSON : List (String × JVal) → Option Store
  | [] => some []
  | (k, j) :: r =>
    match entryOfJSON j, entriesOfJSON r with
    | some e, some s => some ((k, e) :: s)
    | _, _ => none

/-- The mapping that a parsed JSON value denotes: an object whose members are
entries. -/
def fromJSON : JVal → Option Store
  | .obj kvs => entriesOfJSON kvs
  | _ => none

end Store

namespace KeyValueStore

/-- The longest string of the runtime, `0x1fffffe8`: `fs.readFileSync(path,
'utf8')` throws on a file of more bytes. -/
def maxStringLength : Nat := 536870888

/-- The method `loadData` run at time `now`: when the backing file exists, the
mapping is replaced by the parsed content of the file and the expired keys are
removed.  A file too long to be read as one string makes the call fail, and so
does a file that `JSON.parse` rejects and, in the model, a file that does not
hold a mapping of entries. -/
def loadData (st : KeyValueStore) (now : Nat) : Outcome Unit :=
  match st.file with
  | none => ⟨.ok (), st⟩
  | some text =>
    if byteLength text > maxStringLength then
      ⟨.error (.error "Cannot create a string longer than 0x1fffffe8 characters"), st⟩
    else
      match (parseJSON text).bind Store.fromJSON with
      | some data => removeExpiredKeys { st with data := data } now
      | none => ⟨.error (.error "SyntaxError"), st⟩

/-- The constructor, run at time `now` on a backing file with the given
content (`none` when there is no file): the mapping starts empty and
`loadData` is called. -/
def construct (file : Option String) (now : Nat) : Outcome Unit :=
  loadData ⟨[], file⟩ now

end KeyValueStore

/-- The entry under a key passes the expiry test of the sweep at time `now`. -/
def expiredAt (s : Store) (now : Nat) (key : String) : Bool :=
  match s.get key with
  | some e => KeyValueStore.isExpired e now
  | none => false

/-! ## Vocabulary of the specification -/

/-- A validation error of `create`: one of its two plain `Error`s. -/
def isValidationError (r : Except StoreError Unit) : Prop :=
  r = .error (.error "Key must be at most 32 characters.") ∨
  r = .error (.error "Value size exceeds 16KB.")

/-- An item passes the three checks of the first loop of `batchCreate`: its
key has at most 32 bytes, the test `data[key]` fails and its serialized value
has at most 16384 bytes. -/
def Item.isValid (data : Store) (it : Item) : Bool :=
  decide (byteLength it.key ≤ 32) && !data.holds it.key &&
    decide (byteLength (stringify it.value) ≤ 16384)

/-- Serialized size of the value of an item. -/
def Item.valueSize (it : Item) : Nat := byteLength (stringify it.value)

/-- The running size check of a batch trips: starting from `total`, the
serialized value sizes of the valid items are added in input order, and at
some item the sum is larger than the file size limit. -/
def sizeCheckTrips (data : Store) (total : Nat) : List Item → Bool
  | [] => false
  | it :: rest =>
    if it.isValid data then
      decide (total + it.valueSize > KeyValueStore.fileSizeLimit) ||
        sizeCheckTrips data (total + it.valueSize) rest
    else sizeCheckTrips data total rest

/-- The keys a batch reports as invalid: those of the items whose key has more
than 32 bytes, and of the items whose key has at most 32 bytes and fails the
test `data[key]` while the serialized value has more than 16384 bytes. -/
def invalidKeysOf (data : Store) (items : List Item) : List String :=
  (items.filter fun it =>
    decide (byteLength it.key > 32) ||
      (!data.holds it.key && decide (it.valueSize > 16384))).map Item.key

/-- The keys a batch reports as already existing: those of the items whose key
has at most 32 bytes and passes the test `data[key]`. -/
def existingKeysOf (data : Store) (items : List Item) : List String :=
  (items.filter fun it =>
    decide (byteLength it.key ≤ 32) && data.holds it.key).map Item.key

/-- Sum of the serialized value sizes of the valid items of a batch. -/
def validSize (data : Store) (items : List Item) : Nat :=
  ((items.filter (Item.isValid data)).map Item.valueSize).sum

/-- The three classes of the items of a batch. -/
inductive ItemClass where
  | invalid : ItemClass
  | alreadyExists : ItemClass
  | valid : ItemClass
  deriving DecidableEq

/-- The class that the first loop of `batchCreate` gives an item: the key
length is looked at first, then the test `data[key]`, then the size of the
value. -/
def classify (data : Store) (it : Item) : ItemClass :=
  if byteLength it.key > 32 then .invalid
  else if data.holds it.key then .alreadyExists
  else if byteLength (stringify it.value) > 16384 then .invalid
  else .valid

/-- The message of the aggregate error of `batchCreate` for the two lists of
rejected keys. -/
def aggregateMessage (invalidKeys existingKeys : List String) : String :=
  ". ".intercalate (KeyValueStore.batchErrors ⟨invalidKeys, existingKeys, [], 0⟩)

/-- The characters that follow the first string when strings are joined with a
separator: each further string, preceded by the separator. -/
def joinedChars (sep : List Char) : List String → List Char
  | [] => []
  | x :: r => sep ++ x.data ++ joinedChars sep r

/-- A key without comma and without full stop, the two characters that the
aggregate message uses to separate keys and lists. -/
def isPlainKey (k : String) : Prop := ',' ∉ k.data ∧ '.' ∉ k.data

/-- The characters of a non-empty list of strings joined with `", "`. -/
def joinedKeys : List String → List Char
  | [] => []
  | a :: l => a.data ++ joinedChars [',', ' '] l

/-- The characters of the aggregate message, by cases on which of the two lists
are empty. -/
def messageChars (invalidKeys existingKeys : List String) : List Char :=
  match invalidKeys, existingKeys with
  | [], [] => []
  | _ :: _, [] => "Invalid keys: ".data ++ joinedKeys invalidKeys
  | [], _ :: _ => "Already existing keys: ".data ++ joinedKeys existingKeys
  | _ :: _, _ :: _ =>
    "Invalid keys: ".data ++ joinedKeys invalidKeys ++
      ('.' :: ' ' :: ("Already existing keys: ".data ++ joinedKeys existingKeys))

/-- One call on the store: a public operation with its arguments, or a run of
the periodic sweep. -/
inductive Op where
  | create (key : String) (value : JVal) (ttl : Option Int) (now : Nat) : Op
  | read (key : String) (now : Nat) : Op
  | delete (key : String) : Op
  | batchCreate (items : List Item) (clock : Nat → Nat) : Op
  | sweep (now : Nat) : Op

/-- The store after one call, whether the call succeeds or fails. -/
def step (st : KeyValueStore) : Op → KeyValueStore
  | .create key value ttl now => (KeyValueStore.create st key value ttl now).store
  | .read key now => (KeyValueStore.read st key now).store
  | .delete key => (KeyValueStore.delete st key).store
  | .batchCreate items clock => (KeyValueStore.batchCreate st items clock).store
  | .sweep now => (KeyValueStore.removeExpiredKeys st now).store

/-- The store after a sequence of calls. -/
def run (st : KeyValueStore) (ops : List Op) : KeyValueStore := ops.foldl step st

/-- Every entry of the mapping respects the size limits: its key has at most
32 bytes and its serialized value at most 16384 bytes. -/
def withinLimits (s : Store) : Prop :=
  ∀ p ∈ s, byteLength p.1 ≤ 32 ∧ byteLength (stringify p.2.value) ≤ 16384

/-- The empty store: no entry in memory, no backing file. -/
def emptyStore : KeyValueStore := ⟨[], none⟩

/-- The store whose backing file mirrors the mapping `data`, as after a start
on that file or after a successful `saveData`. -/
def mirrored (data : Store) : KeyValueStore := ⟨data, some (stringifyPretty 0 data.toJSON)⟩

/-! ## Concrete inputs used by the examples -/

/-- A key of 33 bytes. -/
def longKey : String := "abcdefghijklmnopqrstuvwxyz0123456"

/-- A value whose serialisation has 16387 bytes: a string of 16385 letters. -/
def bigValue : JVal := .str (String.mk (List.replicate 16385 'a'))

/-- A store that holds one entry under the key `k`. -/
def oneKeyStore : KeyValueStore := mirrored [("k", ⟨.num 1, none⟩)]

/-- A string of 400,000,000 copies of the three-byte character U+4E2D; its
serialisation has 1,200,000,002 bytes. -/
def hugeValue : JVal := .str (String.mk (List.replicate 400000000 (Char.ofNat 20013)))

/-- A mapping with the one entry `hugeValue`; its serialisation is larger than
the file size limit. -/
def hugeData : Store := [("big", ⟨hugeValue, none⟩)]

/-- A store whose in-memory mapping is `hugeData`. -/
def hugeStore : KeyValueStore := mirrored hugeData

/-- A string of 200,000,000 copies of the three-byte character U+4E2D; its
serialisation has 600,000,002 bytes. -/
def largeValue : JVal := .str (String.mk (List.replicate 200000000 (Char.ofNat 20013)))

/-- A mapping with the one entry `largeValue`: its serialisation fits the file
size limit, and the file written for it is longer than `maxStringLength`. -/
def largeData : Store := [("big", ⟨largeValue, none⟩)]

/-- A store, as loaded from a backing file, whose entry under `k` has the
expiry timestamp 0. -/
def zeroExpiryStore : KeyValueStore := mirrored [("k", ⟨.num 1, some 0⟩)]

/-- A batch of two items under the same new key. -/
def duplicateBatch : List Item := [⟨"a", .num 1, none⟩, ⟨"a", .num 2, none⟩]

/-- A batch of two items under the key `toString`, which no mapping holds
unless a backing file brought it in. -/
def toStringBatch : List Item := [⟨"toString", .num 1, none⟩, ⟨"toString", .num 2, none⟩]

/-- The batch of the specification's example: a key of 40 bytes, then `ok`. -/
def mixedBatch : List Item :=
  [⟨"aaaaaaaaaaaaaaaaaaaaaaaaaaaaaaaaaaaaaaaa", .num 1, none⟩, ⟨"ok", .num 2, none⟩]

/-- A store whose entry under `k` expired at time 5. -/
def expiredStore : KeyValueStore := mirrored [("k", ⟨.num 1, some 5⟩)]

/-- A batch of 51 items. -/
def oversizedBatch : List Item := List.replicate 51 ⟨"a", .num 1, none⟩

/-- A batch with one small item under a new key. -/
def smallBatch : List Item := [⟨"j", .num 2, none⟩]

/-- A batch whose only item has the key of `oneKeyStore` and a value larger
than 16384 bytes. -/
def existingBigBatch : List Item := [⟨"k", bigValue, none⟩]

/-- A batch with one item of each class for `oneKeyStore`: a key of 40 bytes,
the key `k` that the store holds, and the new key `ok`. -/
def threeClassBatch : List Item :=
  [⟨"aaaaaaaaaaaaaaaaaaaaaaaaaaaaaaaaaaaaaaaa", .num 1, none⟩, ⟨"k", .num 2, none⟩,
   ⟨"ok", .num 3, none⟩]

/-- A batch with one item whose key, of 82 bytes, contains `", "`. -/
def commaKeyBatch : List Item :=
  [⟨"aaaaaaaaaaaaaaaaaaaaaaaaaaaaaaaaaaaaaaaa, bbbbbbbbbbbbbbbbbbbbbbbbbbbbbbbbbbbbbbbb",
    .num 1, none⟩]

/-- A batch with two items whose keys, of 40 bytes each, are the two halves of
the key of `commaKeyBatch`. -/
def twoLongKeysBatch : List Item :=
  [⟨"aaaaaaaaaaaaaaaaaaaaaaaaaaaaaaaaaaaaaaaa", .num 1, none⟩,
   ⟨"bbbbbbbbbbbbbbbbbbbbbbbbbbbbbbbbbbbbbbbb", .num 1, none⟩]

/-- A sequence of calls that mixes successes and failures: two creates, one
with a key that is too long, a batch with rejected items, a read of an expired
key, a sweep and a delete of a key that is not there. -/
def sampleOps : List Op :=
  [.create "k" (.num 1) (some 1) 1000, .create longKey (.num 1) none 1000,
   .batchCreate threeClassBatch (fun _ => 1000), .read "k" 5000, .sweep 6000, .delete "zz"]

/-! ## Lemmas on the mapping -/

namespace Store

theorem get_isSome_iff (s : Store) (key : String) : (s.get key).isSome ↔ key ∈ s.keys := by
  induction s with
  | nil => simp [get, keys]
  | cons p r ih =>
    obtain ⟨k, e⟩ := p
    by_cases h : k = key
    · simp [get, keys, h]
    · have h2 : ¬ key = k := fun h3 => h h3.symm
      simpa [get, keys, h, h2] using ih

theorem get_eq_none_iff (s : Store) (key : String) : s.get key = none ↔ key ∉ s.keys := by
  rw [← get_isSome_iff]
  cases s.get key <;> simp

theorem lookup_of_get_some (s : Store) (key : String) (e : Entry) (h : s.get key = some e) :
    s.lookup key = .entry e := by
  simp [lookup, h]

theorem lookup_inherited (s : Store) (key : String) (h : s.get key = none)
    (hp : key ∈ prototypeNames) : s.lookup key = .inherited := by
  simp [lookup, h, hp]

theorem lookup_undefined (s : Store) (key : String) (h : s.get key = none)
    (hp : key ∉ prototypeNames) : s.lookup key = .undefined := by
  simp [lookup, h, hp]

/-- The test `data[key]` passes exactly for the own keys and the names that
`Object.prototype` defines. -/
theorem holds_iff (s : Store) (key : String) :
    s.holds key = true ↔ key ∈ s.keys ∨ key ∈ prototypeNames := by
  rw [← get_isSome_iff]
  unfold holds lookup
  cases hg : s.get key with
  | some e => simp [Lookup.truthy]
  | none =>
    by_cases hp : key ∈ prototypeNames
    · simp [hp, Lookup.truthy]
    · simp [hp, Lookup.truthy]

theorem holds_eq_false_iff (s : Store) (key : String) :
    s.holds key = false ↔ s.get key = none ∧ key ∉ prototypeNames := by
  rw [get_eq_none_iff]
  have h := holds_iff s key
  cases hh : s.holds key with
  | true =>
    have := h.1 hh
    simp only [Bool.true_eq_false, false_iff, not_and, not_not]
    intro hk
    exact this.resolve_left hk
  | false =>
    simp only [true_iff]
    exact ⟨fun hk => by simp [h.2 (Or.inl hk)] at hh, fun hp => by simp [h.2 (Or.inr hp)] at hh⟩

theorem holds_of_get_some (s : Store) (key : String) (e : Entry) (h : s.get key = some e) :
    s.holds key = true := by
  simp [holds, lookup_of_get_some s key e h, Lookup.truthy]

theorem holds_of_prototypeName (s : Store) (key : String) (hp : key ∈ prototypeNames) :
    s.holds key = true :=
  (holds_iff s key).2 (Or.inr hp)

/-- Away from the names of `Object.prototype` the test `data[key]` tells
whether the key is an own key. -/
theorem holds_eq_isSome (s : Store) (key : String) (hp : key ∉ prototypeNames) :
    s.holds key = (s.get key).isSome := by
  unfold holds lookup
  cases hg : s.get key with
  | some e => simp [Lookup.truthy]
  | none => simp [hp, Lookup.truthy]

theorem get_append_single (s : Store) (k key : String) (e : Entry) :
    get (s ++ [(k, e)]) key =
      match get s key with
      | some x => some x
      | none => if k = key then some e else none := by
  induction s with
  | nil => simp [get]
  | cons p r ih =>
    obtain ⟨k0, x⟩ := p
    by_cases h : k0 = key
    · simp [get, h]
    · simpa [get, h] using ih

theorem get_replace_self (s : Store) (key : String) (e x : Entry) (h : s.get key = some x) :
    get (s.replace key e) key = some e := by
  induction s with
  | nil => simp [get] at h
  | cons p r ih =>
    obtain ⟨k0, y⟩ := p
    by_cases hk : k0 = key
    · simp [replace, get, hk]
    · simp only [get, hk, if_false] at h
      simpa [replace, get, hk] using ih h

theorem get_replace_ne (s : Store) (key other : String) (e : Entry) (h : other ≠ key) :
    get (s.replace key e) other = get s other := by
  induction s with
  | nil => simp [replace]
  | cons p r ih =>
    obtain ⟨k0, y⟩ := p
    by_cases hk : k0 = key
    · have : ¬ key = other := fun h3 => h h3.symm
      simp [replace, get, hk, this, ih]
    · by_cases ho : k0 = other
      · subst ho
        simp [replace, get, hk]
      · simp [replace, get, hk, ho, ih]

theorem get_set_self (s : Store) (key : String) (e : Entry) : get (s.set key e) key = some e := by
  unfold set
  cases h : s.get key with
  | none => simp [get_append_single, h]
  | some x => simpa using get_replace_self s key e x h

theorem get_set_ne (s : Store) (key other : String) (e : Entry) (h : other ≠ key) :
    get (s.set key e) other = get s other := by
  unfold set
  cases hk : s.get key with
  | none =>
    have : ¬ key = other := fun h3 => h h3.symm
    simp only [get_append_single, this, if_false]
    cases s.get other <;> rfl
  | some x => simpa using get_replace_ne s key other e h

theorem set_of_get_none (s : Store) (key : String) (e : Entry) (h : s.get key = none) :
    s.set key e = s ++ [(key, e)] := by
  simp [set, h]

theorem get_del_self (s : Store) (key : String) : get (s.del key) key = none := by
  induction s with
  | nil => simp [del, get]
  | cons p r ih =>
    obtain ⟨k0, y⟩ := p
    by_cases hk : k0 = key
    · simpa [del, hk] using ih
    · simpa [del, get, hk] using ih

theorem get_del_ne (s : Store) (key other : String) (h : other ≠ key) :
    get (s.del key) other = get s other := by
  induction s with
  | nil => simp [del]
  | cons p r ih =>
    obtain ⟨k0, y⟩ := p
    by_cases hk : k0 = key
    · have : ¬ key = other := fun h3 => h h3.symm
      simp [del, get, hk, this, ih]
    · by_cases ho : k0 = other
      · subst ho
        simp [del, get, hk]
      · simp [del, get, hk, ho, ih]

theorem keys_append (s t : Store) : keys (s ++ t) = keys s ++ keys t := by
  simp [keys]

theorem get_append_of_not_mem (s t : Store) (key : String) (h : key ∉ s.keys) :
    get (s ++ t) key = get t key := by
  induction s with
  | nil => rfl
  | cons p r ih =>
    obtain ⟨k, e⟩ := p
    simp only [keys, List.map_cons, List.mem_cons, not_or] at h
    have hk : ¬ k = key := fun hc => h.1 hc.symm
    simp only [List.cons_append, get, hk, if_false]
    exact ih h.2

theorem del_of_not_mem (s : Store) (key : String) (h : key ∉ s.keys) : s.del key = s := by
  induction s with
  | nil => rfl
  | cons p r ih =>
    obtain ⟨k, e⟩ := p
    simp only [keys, List.map_cons, List.mem_cons, not_or] at h
    have hk : ¬ k = key := fun hc => h.1 hc.symm
    simp only [del, hk, if_false]
    rw [ih h.2]

theorem del_append (s t : Store) (key : String) : (s ++ t).del key = s.del key ++ t.del key := by
  induction s with
  | nil => rfl
  | cons p r ih =>
    obtain ⟨k, e⟩ := p
    by_cases hk : k = key
    · simp [del, hk, ih]
    · simp [del, hk, ih]

end Store

/-! ## Lemmas on reading JSON text -/

theorem skipSpace_of_head (c : Char) (r : List Char) (h : isSpaceChar c = false) :
    skipSpace (c :: r) = c :: r := by
  simp [skipSpace, h]

theorem skipSpace_newline (r : List Char) : skipSpace (Char.ofNat 10 :: r) = skipSpace r := by
  have : isSpaceChar (Char.ofNat 10) = true := by decide
  simp [skipSpace, this]

theorem skipSpace_space (r : List Char) : skipSpace (' ' :: r) = skipSpace r := by
  have : isSpaceChar ' ' = true := by decide
  simp [skipSpace, this]

theorem skipSpace_replicate (n : Nat) (r : List Char) :
    skipSpace (List.replicate n ' ' ++ r) = skipSpace r := by
  induction n with
  | zero => rfl
  | succ n ih => rw [List.replicate_succ, List.cons_append, skipSpace_space, ih]

theorem digitChar_isDigit (m : Nat) (h : m < 10) :
    (Nat.digitChar m).isDigit = true ∧ (Nat.digitChar m).toNat - 48 = m ∧
      ((Nat.digitChar m).toNat = 48 ↔ m = 0) := by
  interval_cases m <;> decide

/-- Reading back the digits that `Nat.toDigitsCore` writes: the digits of `n`
extend the number read so far. -/
theorem parseDigits_toDigitsCore (fuel n : Nat) (ds rest : List Char) (h : n < fuel) :
    ∃ k, ∀ acc, parseDigits acc (Nat.toDigitsCore 10 fuel n ds ++ rest) =
      parseDigits (acc * 10 ^ k + n) (ds ++ rest) := by
  induction fuel generalizing n ds with
  | zero => omega
  | succ fuel ih =>
    have hd := digitChar_isDigit (n % 10) (Nat.mod_lt _ (by decide))
    unfold Nat.toDigitsCore
    by_cases h0 : n / 10 = 0
    · refine ⟨1, fun acc => ?_⟩
      have hn : n % 10 = n := Nat.mod_eq_of_lt (by omega)
      simp only [h0, if_true, List.cons_append, parseDigits, hd.1, hd.2.1]
      rw [hn]
      simp
    · obtain ⟨k, hk⟩ := ih (n / 10) (Nat.digitChar (n % 10) :: ds) (by omega)
      refine ⟨k + 1, fun acc => ?_⟩
      simp only [h0, if_false]
      rw [hk acc]
      simp only [List.cons_append, parseDigits, hd.1, hd.2.1, if_true]
      congr 1
      have := Nat.div_add_mod n 10
      rw [Nat.pow_succ]
      nlinarith [Nat.div_add_mod n 10]


theorem toDigitsCore_head (fuel n : Nat) (ds : List Char) (h : n < fuel) :
    ∃ c t, Nat.toDigitsCore 10 fuel n ds = c :: t ∧ c.isDigit = true ∧
      (c.toNat = 48 → n = 0) := by
  induction fuel generalizing n ds with
  | zero => omega
  | succ fuel ih =>
    have hd := digitChar_isDigit (n % 10) (Nat.mod_lt _ (by decide))
    unfold Nat.toDigitsCore
    by_cases h0 : n / 10 = 0
    · have hn : n % 10 = n := Nat.mod_eq_of_lt (by omega)
      refine ⟨_, ds, by simp [h0], hd.1, ?_⟩
      intro hc
      rw [← hn]
      exact hd.2.2.1 hc
    · obtain ⟨c, t, e, hc, hz⟩ := ih (n / 10) (Nat.digitChar (n % 10) :: ds) (by omega)
      refine ⟨c, t, by simp [h0, e], hc, ?_⟩
      intro h48
      exact absurd (hz h48) h0

theorem parseDigits_of_noDigitHead (n : Nat) (rest : List Char) (h : noDigitHead rest) :
    parseDigits n rest = (n, rest) := by
  cases rest with
  | nil => rfl
  | cons c r => simp [parseDigits, h c r rfl]

theorem isDigit_toNat (c : Char) (h : c.isDigit = true) : 48 ≤ c.toNat ∧ c.toNat ≤ 57 := by
  simp only [Char.isDigit, Bool.and_eq_true, decide_eq_true_eq] at h
  exact h

/-- Reading back a natural number written in decimal. -/
theorem parseNatural_toDigits (n : Nat) (rest : List Char) (h : noDigitHead rest) :
    parseNatural (Nat.toDigits 10 n ++ rest) = some (n, rest) := by
  unfold Nat.toDigits
  obtain ⟨c, t, e, hc, hz⟩ := toDigitsCore_head (n + 1) n [] (by omega)
  obtain ⟨k, hk⟩ := parseDigits_toDigitsCore (n + 1) n [] rest (by omega)
  by_cases h0 : n = 0
  · subst h0
    have e0 : Nat.toDigitsCore 10 1 0 [] = ['0'] := by decide
    rw [e0]
    cases rest with
    | nil => rfl
    | cons d r =>
      have hd := h d r rfl
      simp [parseNatural, hd]
  · have h48 : ¬ c.toNat = 48 := fun hx => h0 (hz hx)
    have hp := hk 0
    rw [e] at hp ⊢
    simp only [List.cons_append, parseNatural, h48, if_false, hc, if_true]
    rw [List.cons_append] at hp
    rw [hp]
    simp only [Nat.zero_mul, Nat.zero_add, List.nil_append]
    rw [parseDigits_of_noDigitHead n rest h]

theorem toString_ofNat_data (m : Nat) : (toString (Int.ofNat m)).data = Nat.toDigits 10 m := rfl

theorem toString_negSucc_data (m : Nat) :
    (toString (Int.negSucc m)).data = '-' :: Nat.toDigits 10 (m + 1) := rfl

/-- The text of an integer starts with a minus sign or a digit. -/
theorem toString_int_head (n : Int) :
    ∃ c t, (toString n).data = c :: t ∧ (decide (c.toNat = 45) || c.isDigit) = true := by
  cases n with
  | ofNat m =>
    obtain ⟨c, t, e, hc, _⟩ := toDigitsCore_head (m + 1) m [] (by omega)
    exact ⟨c, t, by rw [toString_ofNat_data]; exact e, by simp [hc]⟩
  | negSucc m =>
    exact ⟨'-', _, toString_negSucc_data m, by decide⟩

/-- Reading back an integer written in decimal. -/
theorem parseNumber_toString (n : Int) (rest : List Char) (h : noDigitHead rest) :
    parseNumber ((toString n).data ++ rest) = some (n, rest) := by
  cases n with
  | ofNat m =>
    obtain ⟨c, t, e, hc, _⟩ := toDigitsCore_head (m + 1) m [] (by omega)
    have hnat := parseNatural_toDigits m rest h
    rw [toString_ofNat_data]
    have e' : Nat.toDigits 10 m = c :: t := e
    rw [e'] at hnat ⊢
    have h45 : ¬ c.toNat = 45 := by
      have := isDigit_toNat c hc
      omega
    rw [List.cons_append] at hnat ⊢
    simp only [parseNumber, h45, if_false, hnat]
    rfl
  | negSucc m =>
    rw [toString_negSucc_data]
    have hnat := parseNatural_toDigits (m + 1) rest h
    have h45 : ('-' : Char).toNat = 45 := by decide
    simp only [List.cons_append, parseNumber, h45, if_true, hnat]
    rfl


theorem hexValue_hexDigit (a : Nat) (h : a < 16) : hexValue (hexDigit a) = some a := by
  interval_cases a <;> decide

theorem parseChars_short_escape (acc t : List Char) :
    parseChars acc (Char.ofNat 92 :: Char.ofNat 34 :: t) = parseChars (Char.ofNat 34 :: acc) t ∧
    parseChars acc (Char.ofNat 92 :: Char.ofNat 92 :: t) = parseChars (Char.ofNat 92 :: acc) t ∧
    parseChars acc (Char.ofNat 92 :: 'b' :: t) = parseChars (Char.ofNat 8 :: acc) t ∧
    parseChars acc (Char.ofNat 92 :: 'f' :: t) = parseChars (Char.ofNat 12 :: acc) t ∧
    parseChars acc (Char.ofNat 92 :: 'n' :: t) = parseChars (Char.ofNat 10 :: acc) t ∧
    parseChars acc (Char.ofNat 92 :: 'r' :: t) = parseChars (Char.ofNat 13 :: acc) t ∧
    parseChars acc (Char.ofNat 92 :: 't' :: t) = parseChars (Char.ofNat 9 :: acc) t := by
  refine ⟨?_, ?_, ?_, ?_, ?_, ?_, ?_⟩ <;> (rw [parseChars.eq_def]; simp)

theorem parseChars_hex_escape (acc t : List Char) (n : Nat) (h : n < 32) :
    parseChars acc
        (Char.ofNat 92 :: 'u' :: '0' :: '0' :: hexDigit (n / 16) :: hexDigit (n % 16) :: t) =
      parseChars (Char.ofNat n :: acc) t := by
  rw [parseChars.eq_def]
  have hx := hexValue_hexDigit (n / 16) (by omega)
  have hy := hexValue_hexDigit (n % 16) (by omega)
  have hz : hexValue '0' = some 0 := by decide
  have hv : n / 16 * 16 + n % 16 = n := by omega
  have hs : ¬ (55296 ≤ n ∧ n ≤ 57343) := by omega
  simp [hx, hy, hz, hv, hs]

theorem parseChars_plain (acc t : List Char) (c : Char) (h34 : ¬ c.toNat = 34)
    (h92 : ¬ c.toNat = 92) (h32 : ¬ c.toNat < 32) :
    parseChars acc (c :: t) = parseChars (c :: acc) t := by
  rw [parseChars.eq_def]
  simp [h34, h92, h32]

/-- Reading back one escaped character. -/
theorem parseChars_escapeChar (c : Char) (acc t : List Char) :
    parseChars acc ((escapeChar c).data ++ t) = parseChars (c :: acc) t := by
  have hc := Char.ofNat_toNat c
  have hs := parseChars_short_escape acc t
  by_cases h34 : c.toNat = 34
  · have he : (escapeChar c).data = [Char.ofNat 92, Char.ofNat 34] := by
      simp [escapeChar, h34]
    rw [h34] at hc
    rw [he, List.cons_append, List.cons_append, List.nil_append, hs.1, hc]
  by_cases h92 : c.toNat = 92
  · have he : (escapeChar c).data = [Char.ofNat 92, Char.ofNat 92] := by
      simp [escapeChar, h92]
    rw [h92] at hc
    rw [he, List.cons_append, List.cons_append, List.nil_append, hs.2.1, hc]
  by_cases h8 : c.toNat = 8
  · have he : (escapeChar c).data = [Char.ofNat 92, 'b'] := by
      simp [escapeChar, h8]
    rw [h8] at hc
    rw [he, List.cons_append, List.cons_append, List.nil_append, hs.2.2.1, hc]
  by_cases h12 : c.toNat = 12
  · have he : (escapeChar c).data = [Char.ofNat 92, 'f'] := by
      simp [escapeChar, h12]
    rw [h12] at hc
    rw [he, List.cons_append, List.cons_append, List.nil_append, hs.2.2.2.1, hc]
  by_cases h10 : c.toNat = 10
  · have he : (escapeChar c).data = [Char.ofNat 92, 'n'] := by
      simp [escapeChar, h10]
    rw [h10] at hc
    rw [he, List.cons_append, List.cons_append, List.nil_append, hs.2.2.2.2.1, hc]
  by_cases h13 : c.toNat = 13
  · have he : (escapeChar c).data = [Char.ofNat 92, 'r'] := by
      simp [escapeChar, h13]
    rw [h13] at hc
    rw [he, List.cons_append, List.cons_append, List.nil_append, hs.2.2.2.2.2.1, hc]
  by_cases h9 : c.toNat = 9
  · have he : (escapeChar c).data = [Char.ofNat 92, 't'] := by
      simp [escapeChar, h9]
    rw [h9] at hc
    rw [he, List.cons_append, List.cons_append, List.nil_append, hs.2.2.2.2.2.2, hc]
  by_cases h32 : c.toNat < 32
  · have he : (escapeChar c).data =
        [Char.ofNat 92, 'u', '0', '0', hexDigit (c.toNat / 16), hexDigit (c.toNat % 16)] := by
      simp [escapeChar, h34, h92, h8, h12, h10, h13, h9, h32]
    rw [he]
    simp only [List.cons_append, List.nil_append]
    rw [parseChars_hex_escape acc t c.toNat h32, hc]
  · have he : (escapeChar c).data = [c] := by
      simp [escapeChar, h34, h92, h8, h12, h10, h13, h9, h32, String.singleton]
    rw [he]
    exact parseChars_plain acc t c h34 h92 h32

/-- Reading back the escaped characters of a string up to the closing quote. -/
theorem parseChars_escapeChars (l acc rest : List Char) :
    parseChars acc ((escapeChars l).data ++ Char.ofNat 34 :: rest) =
      some (String.mk (acc.reverse ++ l), rest) := by
  induction l generalizing acc with
  | nil =>
    simp only [escapeChars, List.append_nil]
    show parseChars acc (Char.ofNat 34 :: rest) = _
    rw [parseChars.eq_def]
    simp
  | cons c l ih =>
    simp only [escapeChars, String.data_append, List.append_assoc]
    rw [parseChars_escapeChar, ih]
    simp

/-- Reading back a string literal after its opening quote. -/
theorem parseChars_quote (s : String) (rest : List Char) :
    ∃ t, (quote s).data = Char.ofNat 34 :: t ∧
      parseChars [] (t ++ rest) = some (s, rest) := by
  refine ⟨(escapeChars s.data).data ++ [Char.ofNat 34], ?_, ?_⟩
  · simp only [quote, String.data_append]
    rfl
  · rw [List.append_assoc]
    have := parseChars_escapeChars s.data [] rest
    simpa using this

/-! ### One step of the value parser -/

theorem parseScalar_number (c : Char) (r : List Char)
    (h : (decide (c.toNat = 45) || c.isDigit) = true) :
    parseScalar c r =
      match parseNumber (c :: r) with
      | some (n, rest) => some (.num n, rest)
      | none => none := by
  simp only [parseScalar, h, if_true]

theorem parseScalar_string (r : List Char) :
    parseScalar (Char.ofNat 34) r =
      match parseChars [] r with
      | some (s, rest) => some (.str s, rest)
      | none => none := by
  simp [parseScalar]

theorem parseScalar_literals (rest : List Char) :
    parseScalar 'n' ('u' :: 'l' :: 'l' :: rest) = some (.null, rest) ∧
    parseScalar 't' ('r' :: 'u' :: 'e' :: rest) = some (.bool true, rest) ∧
    parseScalar 'f' ('a' :: 'l' :: 's' :: 'e' :: rest) = some (.bool false, rest) := by
  refine ⟨?_, ?_, ?_⟩ <;> simp [parseScalar, parseLiteral]

theorem parseValue_scalar (fuel : Nat) (c : Char) (r : List Char) (h1 : c.toNat ≠ 91)
    (h2 : c.toNat ≠ 123) : parseValue (fuel + 1) (c :: r) = parseScalar c r := by
  rw [parseValue]
  simp only [h1, h2, if_false]

theorem parseValue_array (fuel : Nat) (r : List Char) :
    parseValue (fuel + 1) (Char.ofNat 91 :: r) =
      match skipSpace r with
      | [] => none
      | d :: rest =>
        if d.toNat = 93 then some (.arr [], rest)
        else
          match parseElems fuel (d :: rest) with
          | some (xs, rest1) => some (.arr xs, rest1)
          | none => none := by
  rw [parseValue]
  simp

theorem parseValue_object (fuel : Nat) (r : List Char) :
    parseValue (fuel + 1) (Char.ofNat 123 :: r) =
      match skipSpace r with
      | [] => none
      | d :: rest =>
        if d.toNat = 125 then some (.obj [], rest)
        else
          match parseMembers fuel (d :: rest) with
          | some (kvs, rest1) => some (.obj kvs, rest1)
          | none => none := by
  rw [parseValue]
  simp

theorem parseElems_step (fuel : Nat) (cs : List Char) :
    parseElems (fuel + 1) cs =
      match parseValue fuel cs with
      | none => none
      | some (v, rest) =>
        match skipSpace rest with
        | [] => none
        | d :: rest1 =>
          if d.toNat = 44 then
            match parseElems fuel (skipSpace rest1) with
            | some (vs, rest2) => some (v :: vs, rest2)
            | none => none
          else if d.toNat = 93 then some ([v], rest1)
          else none := by
  rw [parseElems]

theorem parseMembers_step (fuel : Nat) (r : List Char) :
    parseMembers (fuel + 1) (Char.ofNat 34 :: r) =
      match parseChars [] r with
      | none => none
      | some (k, rest) =>
        match skipSpace rest with
        | [] => none
        | colon :: rest0 =>
          if colon.toNat = 58 then
            match parseValue fuel (skipSpace rest0) with
            | none => none
            | some (v, rest1) =>
              match skipSpace rest1 with
              | [] => none
              | d :: rest2 =>
                if d.toNat = 44 then
                  match parseMembers fuel (skipSpace rest2) with
                  | some (kvs, rest3) => some ((k, v) :: kvs, rest3)
                  | none => none
                else if d.toNat = 125 then some ([(k, v)], rest2)
                else none
          else none := by
  rw [parseMembers]
  simp

/-! ### The characters of pretty-printed text -/

theorem spaces_data (n : Nat) : (spaces n).data = List.replicate n ' ' := rfl

theorem pretty_arr_data (ind : Nat) (x : JVal) (r : List JVal) :
    (stringifyPretty ind (.arr (x :: r))).data =
      Char.ofNat 91 :: Char.ofNat 10 :: ((prettyElems (ind + 2) (x :: r)).data ++
        (Char.ofNat 10 :: (List.replicate ind ' ' ++ [Char.ofNat 93]))) := by
  simp only [stringifyPretty, String.data_append, spaces_data, List.append_assoc]
  rfl

theorem pretty_obj_data (ind : Nat) (p : String × JVal) (r : List (String × JVal)) :
    (stringifyPretty ind (.obj (p :: r))).data =
      Char.ofNat 123 :: Char.ofNat 10 :: ((prettyMembers (ind + 2) (p :: r)).data ++
        (Char.ofNat 10 :: (List.replicate ind ' ' ++ [Char.ofNat 125]))) := by
  simp only [stringifyPretty, String.data_append, spaces_data, List.append_assoc]
  rfl

theorem prettyElems_single_data (ind : Nat) (x : JVal) :
    (prettyElems ind [x]).data = List.replicate ind ' ' ++ (stringifyPretty ind x).data := by
  simp only [prettyElems, String.data_append, spaces_data]

theorem prettyElems_cons_data (ind : Nat) (x y : JVal) (r : List JVal) :
    (prettyElems ind (x :: y :: r)).data =
      List.replicate ind ' ' ++ ((stringifyPretty ind x).data ++
        (Char.ofNat 44 :: Char.ofNat 10 :: (prettyElems ind (y :: r)).data)) := by
  simp only [prettyElems, String.data_append, spaces_data, List.append_assoc]
  rfl

theorem prettyMembers_single_data (ind : Nat) (k : String) (v : JVal) :
    (prettyMembers ind [(k, v)]).data =
      List.replicate ind ' ' ++ ((quote k).data ++
        (Char.ofNat 58 :: ' ' :: (stringifyPretty ind v).data)) := by
  simp only [prettyMembers, String.data_append, spaces_data, List.append_assoc]
  rfl

theorem prettyMembers_cons_data (ind : Nat) (k : String) (v : JVal) (q : String × JVal)
    (r : List (String × JVal)) :
    (prettyMembers ind ((k, v) :: q :: r)).data =
      List.replicate ind ' ' ++ ((quote k).data ++
        (Char.ofNat 58 :: ' ' :: ((stringifyPretty ind v).data ++
          (Char.ofNat 44 :: Char.ofNat 10 :: (prettyMembers ind (q :: r)).data)))) := by
  simp only [prettyMembers, String.data_append, spaces_data, List.append_assoc]
  rfl

/-- Pretty-printed text of a value starts with a character that is neither
white space nor a closing bracket or brace. -/
theorem pretty_head (v : JVal) (ind : Nat) :
    ∃ h t, (stringifyPretty ind v).data = h :: t ∧ isSpaceChar h = false ∧
      h.toNat ≠ 93 ∧ h.toNat ≠ 125 := by
  cases v with
  | null => exact ⟨'n', _, by simp only [stringifyPretty]; rfl, by decide, by decide, by decide⟩
  | bool b =>
    cases b with
    | true => exact ⟨'t', _, by simp only [stringifyPretty]; rfl, by decide, by decide, by decide⟩
    | false => exact ⟨'f', _, by simp only [stringifyPretty]; rfl, by decide, by decide, by decide⟩
  | num n =>
    obtain ⟨c, t, e, hc⟩ := toString_int_head n
    refine ⟨c, t, by simp only [stringifyPretty]; exact e, ?_⟩
    simp only [Bool.or_eq_true, decide_eq_true_eq] at hc
    rcases hc with hc | hc
    · simp [isSpaceChar, hc]
    · have := isDigit_toNat c hc
      refine ⟨?_, by omega, by omega⟩
      simp only [isSpaceChar, Bool.or_eq_false_iff, decide_eq_false_iff_not]
      omega
  | str s =>
    obtain ⟨t, e, _⟩ := parseChars_quote s []
    exact ⟨_, t, by simp only [stringifyPretty]; exact e, by decide, by decide, by decide⟩
  | arr xs =>
    cases xs with
    | nil => exact ⟨Char.ofNat 91, _, by simp only [stringifyPretty]; rfl, by decide, by decide,
        by decide⟩
    | cons x r => exact ⟨_, _, pretty_arr_data ind x r, by decide, by decide, by decide⟩
  | obj kvs =>
    cases kvs with
    | nil => exact ⟨Char.ofNat 123, _, by simp only [stringifyPretty]; rfl, by decide, by decide,
        by decide⟩
    | cons p r => exact ⟨_, _, pretty_obj_data ind p r, by decide, by decide, by decide⟩

theorem skipSpace_pretty (v : JVal) (ind : Nat) (rest : List Char) :
    skipSpace ((stringifyPretty ind v).data ++ rest) = (stringifyPretty ind v).data ++ rest := by
  obtain ⟨h, t, e, hs, _⟩ := pretty_head v ind
  rw [e, List.cons_append, skipSpace_of_head _ _ hs]

theorem skipSpace_quote (k : String) (rest : List Char) :
    skipSpace ((quote k).data ++ rest) = (quote k).data ++ rest := by
  obtain ⟨t, e, _⟩ := parseChars_quote k []
  rw [e, List.cons_append, skipSpace_of_head _ _ (by decide)]

theorem noDigitHead_cons (c : Char) (r : List Char) (h : c.isDigit = false) :
    noDigitHead (c :: r) := by
  intro d t e
  simp only [List.cons.injEq] at e
  rw [← e.1]
  exact h

theorem length_fuel (n : Nat) (fuel : Nat) (h : n < fuel) : ∃ f, fuel = f + 1 ∧ n ≤ f :=
  ⟨fuel - 1, by omega, by omega⟩

mutual
/-- Reading back a pretty-printed value. -/
theorem parseValue_pretty : ∀ (v : JVal) (ind : Nat) (rest : List Char) (fuel : Nat),
    (stringifyPretty ind v).data.length < fuel → noDigitHead rest →
    parseValue fuel ((stringifyPretty ind v).data ++ rest) = some (v, rest)
  | .null, ind, rest, fuel, hf, hr => by
    obtain ⟨f, rfl, hle⟩ := length_fuel _ _ hf
    have e : (stringifyPretty ind .null).data = ['n', 'u', 'l', 'l'] := by
      simp only [stringifyPretty]
    rw [e]
    simp only [List.cons_append, List.nil_append]
    rw [parseValue_scalar _ _ _ (by decide) (by decide), (parseScalar_literals rest).1]
  | .bool true, ind, rest, fuel, hf, hr => by
    obtain ⟨f, rfl, hle⟩ := length_fuel _ _ hf
    have e : (stringifyPretty ind (.bool true)).data = ['t', 'r', 'u', 'e'] := by
      simp only [stringifyPretty]
    rw [e]
    simp only [List.cons_append, List.nil_append]
    rw [parseValue_scalar _ _ _ (by decide) (by decide), (parseScalar_literals rest).2.1]
  | .bool false, ind, rest, fuel, hf, hr => by
    obtain ⟨f, rfl, hle⟩ := length_fuel _ _ hf
    have e : (stringifyPretty ind (.bool false)).data = ['f', 'a', 'l', 's', 'e'] := by
      simp only [stringifyPretty]
    rw [e]
    simp only [List.cons_append, List.nil_append]
    rw [parseValue_scalar _ _ _ (by decide) (by decide), (parseScalar_literals rest).2.2]
  | .num n, ind, rest, fuel, hf, hr => by
    obtain ⟨f, rfl, hle⟩ := length_fuel _ _ hf
    have e : (stringifyPretty ind (.num n)).data = (toString n).data := by
      simp only [stringifyPretty]
    obtain ⟨c, t, ec, hc⟩ := toString_int_head n
    have hnum := parseNumber_toString n rest hr
    rw [e]
    rw [ec, List.cons_append] at hnum ⊢
    have h91 : c.toNat ≠ 91 ∧ c.toNat ≠ 123 := by
      simp only [Bool.or_eq_true, decide_eq_true_eq] at hc
      rcases hc with hc | hc
      · omega
      · have := isDigit_toNat c hc
        omega
    rw [parseValue_scalar _ _ _ h91.1 h91.2, parseScalar_number _ _ hc, hnum]
  | .str s, ind, rest, fuel, hf, hr => by
    obtain ⟨f, rfl, hle⟩ := length_fuel _ _ hf
    have e : (stringifyPretty ind (.str s)).data = (quote s).data := by
      simp only [stringifyPretty]
    obtain ⟨t, eq, hp⟩ := parseChars_quote s rest
    rw [e, eq, List.cons_append, parseValue_scalar _ _ _ (by decide) (by decide),
      parseScalar_string, hp]
  | .arr [], ind, rest, fuel, hf, hr => by
    obtain ⟨f, rfl, hle⟩ := length_fuel _ _ hf
    have e : (stringifyPretty ind (.arr [])).data = [Char.ofNat 91, Char.ofNat 93] := by
      simp only [stringifyPretty]
    rw [e]
    simp only [List.cons_append, List.nil_append]
    rw [parseValue_array, skipSpace_of_head _ _ (by decide)]
    simp
  | .arr (x :: r), ind, rest, fuel, hf, hr => by
    obtain ⟨f, rfl, hle⟩ := length_fuel _ _ hf
    rw [pretty_arr_data] at hle ⊢
    simp only [List.cons_append, List.append_assoc, List.nil_append]
    rw [parseValue_array, skipSpace_newline]
    have hE := parseElems_pretty x r (ind + 2) ind rest f (by
      simp only [List.length_cons, List.length_append] at hle
      omega)
    have hne : ∃ d t, skipSpace ((prettyElems (ind + 2) (x :: r)).data ++
        (Char.ofNat 10 :: (List.replicate ind ' ' ++ Char.ofNat 93 :: rest))) = d :: t ∧
        d.toNat ≠ 93 := by
      obtain ⟨h, t, eh, hs, h93, _⟩ := pretty_head x (ind + 2)
      cases r with
      | nil =>
        rw [prettyElems_single_data, List.append_assoc, skipSpace_replicate, eh,
          List.cons_append, skipSpace_of_head _ _ hs]
        exact ⟨_, _, rfl, h93⟩
      | cons y r' =>
        rw [prettyElems_cons_data, List.append_assoc, skipSpace_replicate, eh,
          List.cons_append, List.cons_append, skipSpace_of_head _ _ hs]
        exact ⟨_, _, rfl, h93⟩
    obtain ⟨d, t, ed, hd⟩ := hne
    rw [ed] at hE ⊢
    simp only [hd, if_false, hE]
  | .obj [], ind, rest, fuel, hf, hr => by
    obtain ⟨f, rfl, hle⟩ := length_fuel _ _ hf
    have e : (stringifyPretty ind (.obj [])).data = [Char.ofNat 123, Char.ofNat 125] := by
      simp only [stringifyPretty]
    rw [e]
    simp only [List.cons_append, List.nil_append]
    rw [parseValue_object, skipSpace_of_head _ _ (by decide)]
    simp
  | .obj (p :: r), ind, rest, fuel, hf, hr => by
    obtain ⟨f, rfl, hle⟩ := length_fuel _ _ hf
    rw [pretty_obj_data] at hle ⊢
    simp only [List.cons_append, List.append_assoc, List.nil_append]
    rw [parseValue_object, skipSpace_newline]
    have hE := parseMembers_pretty p r (ind + 2) ind rest f (by
      simp only [List.length_cons, List.length_append] at hle
      omega)
    have hne : ∃ d t, skipSpace ((prettyMembers (ind + 2) (p :: r)).data ++
        (Char.ofNat 10 :: (List.replicate ind ' ' ++ Char.ofNat 125 :: rest))) = d :: t ∧
        d.toNat ≠ 125 := by
      obtain ⟨k, v⟩ := p
      obtain ⟨t, eq, _⟩ := parseChars_quote k []
      cases r with
      | nil =>
        rw [prettyMembers_single_data, List.append_assoc, skipSpace_replicate, eq,
          List.cons_append, List.cons_append, skipSpace_of_head _ _ (by decide)]
        exact ⟨_, _, rfl, by decide⟩
      | cons q r' =>
        rw [prettyMembers_cons_data, List.append_assoc, skipSpace_replicate, eq,
          List.cons_append, List.cons_append, skipSpace_of_head _ _ (by decide)]
        exact ⟨_, _, rfl, by decide⟩
    obtain ⟨d, t, ed, hd⟩ := hne
    rw [ed] at hE ⊢
    simp only [hd, if_false, hE]
termination_by v => sizeOf v
decreasing_by
  all_goals simp_wf
  all_goals omega
/-- Reading back the pretty-printed elements of an array. -/
theorem parseElems_pretty : ∀ (x : JVal) (r : List JVal) (ind k : Nat) (rest : List Char)
    (fuel : Nat), (prettyElems ind (x :: r)).data.length + 1 < fuel →
    parseElems fuel (skipSpace ((prettyElems ind (x :: r)).data ++
      (Char.ofNat 10 :: (List.replicate k ' ' ++ Char.ofNat 93 :: rest)))) =
      some (x :: r, rest)
  | x, [], ind, k, rest, fuel, hf => by
    obtain ⟨f, rfl, hle⟩ := length_fuel _ _ hf
    rw [prettyElems_single_data] at hle ⊢
    rw [List.append_assoc, skipSpace_replicate, skipSpace_pretty, parseElems_step]
    have hV := parseValue_pretty x ind
      (Char.ofNat 10 :: (List.replicate k ' ' ++ Char.ofNat 93 :: rest)) f (by
        simp only [List.length_append] at hle
        omega) (noDigitHead_cons _ _ (by decide))
    rw [hV]
    simp only
    rw [skipSpace_newline, skipSpace_replicate, skipSpace_of_head _ _ (by decide)]
    simp
  | x, y :: r', ind, k, rest, fuel, hf => by
    obtain ⟨f, rfl, hle⟩ := length_fuel _ _ hf
    rw [prettyElems_cons_data] at hle ⊢
    rw [List.append_assoc, skipSpace_replicate, List.append_assoc, skipSpace_pretty,
      parseElems_step]
    have hV := parseValue_pretty x ind
      (Char.ofNat 44 :: Char.ofNat 10 :: (prettyElems ind (y :: r')).data ++
        (Char.ofNat 10 :: (List.replicate k ' ' ++ Char.ofNat 93 :: rest))) f (by
        simp only [List.length_append, List.length_cons] at hle
        omega) (noDigitHead_cons _ _ (by decide))
    have hE := parseElems_pretty y r' ind k rest f (by
        simp only [List.length_append, List.length_cons] at hle
        omega)
    simp only [List.cons_append] at hV ⊢
    rw [hV]
    simp only
    rw [skipSpace_of_head _ _ (by decide)]
    simp only [show (Char.ofNat 44).toNat = 44 by decide, if_true]
    rw [skipSpace_newline, hE]
termination_by x r => sizeOf x + sizeOf r
decreasing_by
  all_goals simp_wf
  all_goals omega
/-- Reading back the pretty-printed members of an object. -/
theorem parseMembers_pretty : ∀ (p : String × JVal) (r : List (String × JVal)) (ind k : Nat)
    (rest : List Char) (fuel : Nat),
    (prettyMembers ind (p :: r)).data.length + 1 < fuel →
    parseMembers fuel (skipSpace ((prettyMembers ind (p :: r)).data ++
      (Char.ofNat 10 :: (List.replicate k ' ' ++ Char.ofNat 125 :: rest)))) =
      some (p :: r, rest)
  | (key, v), [], ind, k, rest, fuel, hf => by
    obtain ⟨f, rfl, hle⟩ := length_fuel _ _ hf
    rw [prettyMembers_single_data] at hle ⊢
    rw [List.append_assoc, skipSpace_replicate, List.append_assoc, skipSpace_quote]
    obtain ⟨t, eq, hp⟩ := parseChars_quote key
      (Char.ofNat 58 :: ' ' :: (stringifyPretty ind v).data ++
        (Char.ofNat 10 :: (List.replicate k ' ' ++ Char.ofNat 125 :: rest)))
    have hV := parseValue_pretty v ind
      (Char.ofNat 10 :: (List.replicate k ' ' ++ Char.ofNat 125 :: rest)) f (by
        simp only [List.length_append, List.length_cons] at hle
        omega) (noDigitHead_cons _ _ (by decide))
    rw [eq]
    simp only [List.cons_append] at hp ⊢
    rw [parseMembers_step, hp]
    simp only
    rw [skipSpace_of_head _ _ (by decide)]
    simp only [show (Char.ofNat 58).toNat = 58 by decide, if_true]
    rw [skipSpace_space, skipSpace_pretty, hV]
    simp only
    rw [skipSpace_newline, skipSpace_replicate, skipSpace_of_head _ _ (by decide)]
    simp
  | (key, v), q :: r', ind, k, rest, fuel, hf => by
    obtain ⟨f, rfl, hle⟩ := length_fuel _ _ hf
    rw [prettyMembers_cons_data] at hle ⊢
    rw [List.append_assoc, skipSpace_replicate, List.append_assoc, skipSpace_quote]
    obtain ⟨t, eq, hp⟩ := parseChars_quote key
      (Char.ofNat 58 :: ' ' :: ((stringifyPretty ind v).data ++
        (Char.ofNat 44 :: Char.ofNat 10 :: (prettyMembers ind (q :: r')).data)) ++
        (Char.ofNat 10 :: (List.replicate k ' ' ++ Char.ofNat 125 :: rest)))
    have hV := parseValue_pretty v ind
      (Char.ofNat 44 :: Char.ofNat 10 :: (prettyMembers ind (q :: r')).data ++
        (Char.ofNat 10 :: (List.replicate k ' ' ++ Char.ofNat 125 :: rest))) f (by
        simp only [List.length_append, List.length_cons] at hle
        omega) (noDigitHead_cons _ _ (by decide))
    have hE := parseMembers_pretty q r' ind k rest f (by
        simp only [List.length_append, List.length_cons] at hle
        omega)
    rw [eq]
    simp only [List.cons_append, List.append_assoc] at hp hV ⊢
    rw [parseMembers_step, hp]
    simp only
    rw [skipSpace_of_head _ _ (by decide)]
    simp only [show (Char.ofNat 58).toNat = 58 by decide, if_true]
    rw [skipSpace_space, skipSpace_pretty, hV]
    simp only
    rw [skipSpace_of_head _ _ (by decide)]
    simp only [show (Char.ofNat 44).toNat = 44 by decide, if_true]
    rw [skipSpace_newline, hE]
termination_by p r => sizeOf p + sizeOf r
decreasing_by
  all_goals simp_wf
  all_goals omega
end

/-- The function `parseJSON` reads back what `stringifyPretty` writes. -/
theorem parseJSON_stringifyPretty (v : JVal) : parseJSON (stringifyPretty 0 v) = some v := by
  have h := parseValue_pretty v 0 [] ((stringifyPretty 0 v).data.length + 1) (by omega)
    (fun c r e => by cases e)
  have hs := skipSpace_pretty v 0 []
  rw [List.append_nil] at h hs
  unfold parseJSON
  rw [hs, h]
  rfl

/-! ## Lemmas on serialized sizes -/

/-- Every name of `Object.prototype` has at most 32 bytes. -/
theorem byteLength_prototypeName (key : String) (h : key ∈ prototypeNames) :
    byteLength key ≤ 32 := by
  simp only [prototypeNames, List.mem_cons, List.mem_singleton, List.not_mem_nil, or_false] at h
  rcases h with h | h | h | h | h | h | h | h | h | h | h | h <;> subst h <;> decide

theorem byteLength_eq (s : String) : byteLength s = String.utf8Len s.data := by
  cases s
  rfl

theorem byteLength_append (a b : String) :
    byteLength (a ++ b) = byteLength a + byteLength b := by
  simp only [byteLength_eq, String.data_append, String.utf8Len_append]

theorem byteLength_quote (s : String) :
    byteLength (quote s) = byteLength (escapeChars s.data) + 2 := by
  have h : byteLength "\"" = 1 := by decide
  simp only [quote, byteLength_append, h]
  omega

theorem byteLength_escapeChars_replicate (n : Nat) (c : Char)
    (h : escapeChar c = String.singleton c) :
    byteLength (escapeChars (List.replicate n c)) = n * c.utf8Size := by
  induction n with
  | zero => simp [escapeChars, byteLength_eq]
  | succ n ih =>
    have hs : byteLength (String.singleton c) = c.utf8Size := by
      simp [byteLength_eq, String.singleton]
    simp only [List.replicate_succ, escapeChars, byteLength_append, ih, h, hs]
    ring

/-- Serialized size of a string value made of `n` copies of a character that
needs no escape. -/
theorem byteLength_stringify_str_replicate (n : Nat) (c : Char)
    (h : escapeChar c = String.singleton c) :
    byteLength (stringify (.str (String.mk (List.replicate n c)))) = n * c.utf8Size + 2 := by
  simp only [stringify, byteLength_quote, byteLength_escapeChars_replicate n c h]

theorem byteLength_stringifyMembers_cons (p : String × JVal) (l : List (String × JVal)) :
    byteLength (stringifyMembers (p :: l)) =
      byteLength (quote p.1) + 1 + byteLength (stringify p.2) +
        (if l.isEmpty then 0 else 1 + byteLength (stringifyMembers l)) := by
  have h1 : byteLength ":" = 1 := by decide
  have h2 : byteLength "," = 1 := by decide
  obtain ⟨k, v⟩ := p
  cases l with
  | nil => simp [stringifyMembers, byteLength_append, h1]
  | cons y r =>
    simp only [stringifyMembers, byteLength_append, h1, h2]
    simp
    omega

theorem byteLength_stringify_obj (kvs : List (String × JVal)) :
    byteLength (stringify (.obj kvs)) = byteLength (stringifyMembers kvs) + 2 := by
  have h1 : byteLength "\x7b" = 1 := by decide
  have h2 : byteLength "\x7d" = 1 := by decide
  simp only [stringify, byteLength_append, h1, h2]
  omega

theorem byteLength_stringifyMembers_tail (p : String × JVal) (l : List (String × JVal)) :
    byteLength (stringifyMembers l) ≤ byteLength (stringifyMembers (p :: l)) := by
  cases l with
  | nil => simp [stringifyMembers, byteLength_eq]
  | cons y r =>
    rw [byteLength_stringifyMembers_cons p (y :: r), List.isEmpty_cons]
    simp only [Bool.false_eq_true, if_false]
    omega

/-- Serialized size of `bigValue`. -/
theorem byteLength_bigValue : byteLength (stringify bigValue) = 16387 := by
  have hc : Char.utf8Size 'a' = 1 := by decide
  unfold bigValue
  rw [byteLength_stringify_str_replicate 16385 'a' (by decide), hc]

/-- Serialized size of `hugeValue`. -/
theorem byteLength_hugeValue : byteLength (stringify hugeValue) = 1200000002 := by
  have hc : Char.utf8Size (Char.ofNat 20013) = 3 := by decide
  unfold hugeValue
  rw [byteLength_stringify_str_replicate 400000000 (Char.ofNat 20013) (by decide), hc]

namespace KeyValueStore

/-- Serialized size of the members of the mapping. -/
theorem dataSize_eq (s : Store) :
    dataSize s = byteLength (stringifyMembers (s.map fun p => (p.1, Store.entryJSON p.2))) + 2 := by
  simp only [dataSize, Store.toJSON, byteLength_stringify_obj]

/-- Removing a property never enlarges the serialized mapping. -/
theorem dataSize_del_le (s : Store) (key : String) : dataSize (s.del key) ≤ dataSize s := by
  simp only [dataSize_eq]
  apply Nat.add_le_add_right
  induction s with
  | nil => simp [Store.del]
  | cons p r ih =>
    obtain ⟨k, e⟩ := p
    by_cases hk : k = key
    · simp only [Store.del, hk, if_true, List.map_cons]
      exact Nat.le_trans ih (byteLength_stringifyMembers_tail _ _)
    · simp only [Store.del, hk, if_false, List.map_cons, byteLength_stringifyMembers_cons]
      by_cases hr : r = []
      · subst hr
        simp [Store.del]
      · have hr2 : (List.map (fun p : String × Entry => (p.1, Store.entryJSON p.2)) r).isEmpty
            = false := by
          simpa using hr
        rw [hr2]
        split
        · simp
        · simp only [Bool.false_eq_true, if_false]
          omega

/-- The serialized mapping is at least as large as any serialized value in it. -/
theorem value_le_dataSize (s : Store) (key : String) (e : Entry) (h : s.get key = some e) :
    byteLength (stringify e.value) ≤ dataSize s := by
  simp only [dataSize_eq]
  induction s with
  | nil => simp [Store.get] at h
  | cons p r ih =>
    obtain ⟨k, x⟩ := p
    by_cases hk : k = key
    · simp only [Store.get, hk, if_true, Option.some.injEq] at h
      subst h
      simp only [List.map_cons, byteLength_stringifyMembers_cons, Store.entryJSON,
        byteLength_stringify_obj]
      split <;> omega
    · simp only [Store.get, hk, if_false] at h
      have := ih h
      have := byteLength_stringifyMembers_tail (k, Store.entryJSON x)
        (List.map (fun p : String × Entry => (p.1, Store.entryJSON p.2)) r)
      simp only [List.map_cons]
      omega

end KeyValueStore

/-! ## Lemmas on the operations -/

namespace KeyValueStore

theorem saveData_data (st : KeyValueStore) : (saveData st).store.data = st.data := by
  unfold saveData
  split <;> rfl

theorem saveData_result (st : KeyValueStore) :
    (saveData st).result =
      if dataSize st.data > fileSizeLimit then .error .fileSizeLimitExceeded else .ok () := by
  unfold saveData
  split <;> rfl

theorem saveData_ok_iff (st : KeyValueStore) :
    (saveData st).result = .ok () ↔ dataSize st.data ≤ fileSizeLimit := by
  rw [saveData_result]
  split <;> simp_all

/-- The state in which `create` leaves the store once the three checks have
passed: the entry is assigned, whatever `saveData` does next. -/
theorem create_data_of_checks (st : KeyValueStore) (k : String) (v : JVal) (ttl : Option Int)
    (now : Nat) (h1 : st.data.holds k = false) (h2 : byteLength k ≤ 32)
    (h3 : byteLength (stringify v) ≤ 16384) :
    (create st k v ttl now).store.data = st.data ++ [(k, ⟨v, expiryFor ttl now⟩)] ∧
    (create st k v ttl now).result =
      if dataSize (st.data ++ [(k, ⟨v, expiryFor ttl now⟩)]) > fileSizeLimit
      then .error .fileSizeLimitExceeded else .ok () := by
  have e2 : ¬ byteLength k > 32 := by omega
  have e3 : ¬ byteLength (stringify v) > 16384 := by omega
  have g1 : st.data.get k = none := ((Store.holds_eq_false_iff _ _).1 h1).1
  unfold create
  simp only [h1, Bool.false_eq_true, if_false, e2, e3]
  rw [saveData_data, saveData_result, Store.set_of_get_none _ _ _ g1]
  exact ⟨rfl, rfl⟩

/-- Success of `create` characterised: the test `data[key]` fails, key and
value pass the size checks and the enlarged mapping fits the file size limit. -/
theorem create_ok_iff (st : KeyValueStore) (k : String) (v : JVal) (ttl : Option Int)
    (now : Nat) :
    (create st k v ttl now).result = .ok () ↔
      st.data.holds k = false ∧ byteLength k ≤ 32 ∧ byteLength (stringify v) ≤ 16384 ∧
        dataSize (st.data ++ [(k, ⟨v, expiryFor ttl now⟩)]) ≤ fileSizeLimit := by
  constructor
  · intro h
    by_cases h1 : st.data.holds k = true
    · simp [create, h1] at h
    · by_cases h2 : byteLength k > 32
      · simp [create, h1, h2] at h
      · by_cases h3 : byteLength (stringify v) > 16384
        · simp [create, h1, h2, h3] at h
        · have g1 : st.data.holds k = false := by simpa using h1
          have hr := (create_data_of_checks st k v ttl now g1 (by omega) (by omega)).2
          rw [hr] at h
          refine ⟨g1, by omega, by omega, ?_⟩
          by_contra hc
          rw [if_pos (by omega)] at h
          cases h
  · rintro ⟨h1, h2, h3, h4⟩
    rw [(create_data_of_checks st k v ttl now h1 h2 h3).2, if_neg (by omega)]

/-- A key under which `create` succeeds is not in the mapping and names no
member of `Object.prototype`. -/
theorem create_ok_key (st : KeyValueStore) (k : String) (v : JVal) (ttl : Option Int)
    (now : Nat) (h : (create st k v ttl now).result = .ok ()) :
    st.data.get k = none ∧ k ∉ prototypeNames :=
  (Store.holds_eq_false_iff _ _).1 ((create_ok_iff st k v ttl now).1 h).1

theorem isExpired_expiryFor_false (v : JVal) (ttl : Option Int) (now later : Nat)
    (hl : truthy ttl = false ∨ ∃ t, ttl = some t ∧ (later : Int) ≤ (now : Int) + t * 1000) :
    isExpired ⟨v, expiryFor ttl now⟩ later = false := by
  cases ttl with
  | none => rfl
  | some t =>
    by_cases ht : t = 0
    · subst ht
      rfl
    · rcases hl with h | ⟨t1, h1, h2⟩
      · simp [truthy, ht] at h
      · cases h1
        simp only [isExpired, expiryFor, bne_iff_ne, ne_eq, ht, not_false_eq_true, if_true]
        simp only [Bool.and_eq_false_imp, decide_eq_false_iff_not]
        intro _
        omega

/-- What `read` does on an expired entry: the entry is removed and the call
fails, with `ExpiredKeyError` when `saveData` accepts the remaining mapping and
with `FileSizeLimitExceededError` otherwise. -/
theorem read_of_expired (st : KeyValueStore) (k : String) (e : Entry) (now : Nat)
    (hg : st.data.get k = some e) (he : isExpired e now = true) :
    (KeyValueStore.read st k now).store.data = st.data.del k ∧
    (KeyValueStore.read st k now).result =
      if dataSize (st.data.del k) > fileSizeLimit then .error .fileSizeLimitExceeded
      else .error .expiredKey := by
  have hl := Store.lookup_of_get_some _ _ _ hg
  by_cases hs : dataSize (st.data.del k) > fileSizeLimit
  · simp [KeyValueStore.read, hl, he, saveData, hs]
  · simp [KeyValueStore.read, hl, he, saveData, hs]

/-- A `read` of a key that is not in the mapping and names no member of
`Object.prototype` fails with `KeyNotFoundError` and changes nothing. -/
theorem read_of_absent (st : KeyValueStore) (k : String) (now : Nat)
    (hg : st.data.get k = none) (hp : k ∉ prototypeNames) :
    KeyValueStore.read st k now = ⟨.error .keyNotFound, st⟩ := by
  simp [KeyValueStore.read, Store.lookup_undefined _ _ hg hp]

/-- A `read` of a name of `Object.prototype` that is not an own key finds the
inherited member and returns `undefined`; nothing changes. -/
theorem read_of_inherited (st : KeyValueStore) (k : String) (now : Nat)
    (hg : st.data.get k = none) (hp : k ∈ prototypeNames) :
    KeyValueStore.read st k now = ⟨.ok none, st⟩ := by
  simp [KeyValueStore.read, Store.lookup_inherited _ _ hg hp]

/-- A `read` of an entry that is not expired returns its value and changes
nothing. -/
theorem read_of_live (st : KeyValueStore) (k : String) (e : Entry) (now : Nat)
    (hg : st.data.get k = some e) (he : isExpired e now = false) :
    KeyValueStore.read st k now = ⟨.ok (some e.value), st⟩ := by
  simp [KeyValueStore.read, Store.lookup_of_get_some _ _ _ hg, he]

/-- The first loop of `batchCreate`, in closed form: it throws exactly when the
running size check trips, and otherwise sorts the keys and items of the batch
into the three lists. -/
theorem scanItems_eq (data : Store) (items : List Item) (acc : Scan) :
    scanItems data items acc =
      if sizeCheckTrips data acc.fileSize items then .error .fileSizeLimitExceeded
      else .ok ⟨acc.invalidKeys ++ invalidKeysOf data items,
                acc.alreadyExistsKeys ++ existingKeysOf data items,
                acc.validItems ++ items.filter (Item.isValid data),
                acc.fileSize + validSize data items⟩ := by
  induction items generalizing acc with
  | nil => simp [scanItems, sizeCheckTrips, invalidKeysOf, existingKeysOf, validSize]
  | cons it rest ih =>
    unfold scanItems
    by_cases h1 : byteLength it.key > 32
    · have hv : it.isValid data = false := by
        simp [Item.isValid]
        intro h
        omega
      simp [h1, ih, sizeCheckTrips, hv, invalidKeysOf, existingKeysOf, validSize]
    · have h1' : byteLength it.key ≤ 32 := by omega
      cases hg : data.holds it.key with
      | true =>
        have hv : it.isValid data = false := by simp [Item.isValid, hg]
        simp [h1, h1', hg, ih, sizeCheckTrips, hv, invalidKeysOf, existingKeysOf, validSize]
      | false =>
        by_cases h3 : byteLength (stringify it.value) > 16384
        · have hv : it.isValid data = false := by
            simp [Item.isValid, hg, h1']
            omega
          simp [h1, h1', hg, h3, ih, sizeCheckTrips, hv, invalidKeysOf, existingKeysOf,
            validSize, Item.valueSize]
        · have h3' : byteLength (stringify it.value) ≤ 16384 := by omega
          have hv : it.isValid data = true := by simp [Item.isValid, hg, h1', h3']
          by_cases h4 : acc.fileSize + byteLength (stringify it.value) > fileSizeLimit
          · simp [h1, hg, h3, h4, sizeCheckTrips, hv, Item.valueSize]
          · simp [h1, h1', hg, h3, h4, ih, sizeCheckTrips, hv, invalidKeysOf, existingKeysOf,
              validSize, Item.valueSize, Nat.add_assoc]

theorem commitItems_append (clock : Nat → Nat) (a b : List Item) (i : Nat) (s : Store) :
    commitItems clock (a ++ b) i s = commitItems clock b (i + a.length) (commitItems clock a i s) := by
  induction a generalizing i s with
  | nil => simp [commitItems]
  | cons it rest ih =>
    have e : i + 1 + rest.length = i + (rest.length + 1) := by omega
    show commitItems clock (rest ++ b) (i + 1) _ = _
    rw [ih, e]
    rfl

/-- The commit loop leaves alone every key that is not the key of an item. -/
theorem commitItems_get_of_not_mem (clock : Nat → Nat) (l : List Item) (i : Nat) (s : Store)
    (key : String) (h : ∀ it ∈ l, it.key ≠ key) :
    (commitItems clock l i s).get key = s.get key := by
  induction l generalizing i s with
  | nil => rfl
  | cons it rest ih =>
    simp only [commitItems]
    rw [ih _ _ (fun j hj => h j (List.mem_cons_of_mem _ hj))]
    exact Store.get_set_ne _ _ _ _ (fun hc => h it (List.mem_cons_self _ _) hc.symm)

/-- After the commit loop, a key holds the entry of the last item that carries
it. -/
theorem commitItems_get_last (clock : Nat → Nat) (pre post : List Item) (it : Item) (i : Nat)
    (s : Store) (h : ∀ j ∈ post, j.key ≠ it.key) :
    (commitItems clock (pre ++ it :: post) i s).get it.key =
      some ⟨it.value, expiryFor it.ttl (clock (i + pre.length))⟩ := by
  rw [commitItems_append]
  simp only [commitItems]
  rw [commitItems_get_of_not_mem _ _ _ _ _ h]
  exact Store.get_set_self _ _ _

/-- The mapping after `batchCreate`, when the batch has at most 50 items and
the running size check does not trip: the valid items are committed in order,
whatever `saveData` and the error report do next. -/
theorem batchCreate_data (st : KeyValueStore) (items : List Item) (clock : Nat → Nat)
    (hlen : items.length ≤ 50) (hsize : sizeCheckTrips st.data (dataSize st.data) items = false) :
    (batchCreate st items clock).store.data =
      commitItems clock (items.filter (Item.isValid st.data)) 0 st.data := by
  have hl : ¬ items.length > 50 := by omega
  unfold batchCreate
  simp only [hl, if_false, scanItems_eq, hsize, Bool.false_eq_true, List.nil_append]
  by_cases hs : dataSize (commitItems clock (items.filter (Item.isValid st.data)) 0 st.data)
      > fileSizeLimit
  · simp [saveData, hs]
  · simp only [saveData, hs, if_false]
    split <;> rfl

theorem intercalate_go_data (sep acc : String) (l : List String) :
    (String.intercalate.go acc sep l).data = acc.data ++ joinedChars sep.data l := by
  induction l generalizing acc with
  | nil => simp [String.intercalate.go, joinedChars]
  | cons x r ih =>
    simp only [String.intercalate.go, ih, String.data_append, joinedChars, List.append_assoc]

/-- Joining strings with a separator, character by character. -/
theorem intercalate_cons_data (sep a : String) (l : List String) :
    (sep.intercalate (a :: l)).data = a.data ++ joinedChars sep.data l := by
  simp only [String.intercalate, intercalate_go_data]

/-- A batch on which the running size check trips fails with
`FileSizeLimitExceededError` and leaves the store as it was. -/
theorem batchCreate_of_trips (st : KeyValueStore) (items : List Item) (clock : Nat → Nat)
    (hlen : items.length ≤ 50) (htrip : sizeCheckTrips st.data (dataSize st.data) items = true) :
    batchCreate st items clock = ⟨.error .fileSizeLimitExceeded, st⟩ := by
  have hl : ¬ items.length > 50 := by omega
  unfold batchCreate
  simp only [hl, if_false, scanItems_eq, htrip, if_true]

/-- The result of `batchCreate` on a batch of at most 50 items on which the
running size check does not trip. -/
theorem batchCreate_result (st : KeyValueStore) (items : List Item) (clock : Nat → Nat)
    (hlen : items.length ≤ 50)
    (hsize : sizeCheckTrips st.data (dataSize st.data) items = false) :
    (batchCreate st items clock).result =
      if dataSize (commitItems clock (items.filter (Item.isValid st.data)) 0 st.data)
          > fileSizeLimit then .error .fileSizeLimitExceeded
      else if (batchErrors ⟨invalidKeysOf st.data items, existingKeysOf st.data items, [], 0⟩).length
          > 0 then
        .error (.error (aggregateMessage (invalidKeysOf st.data items)
          (existingKeysOf st.data items)))
      else .ok () := by
  have hl : ¬ items.length > 50 := by omega
  unfold batchCreate
  simp only [hl, if_false, scanItems_eq, hsize, Bool.false_eq_true, List.nil_append]
  by_cases hs : dataSize (commitItems clock (items.filter (Item.isValid st.data)) 0 st.data)
      > fileSizeLimit
  · simp [saveData, hs]
  · have hb : batchErrors ⟨invalidKeysOf st.data items, existingKeysOf st.data items,
        items.filter (Item.isValid st.data), dataSize st.data + validSize st.data items⟩ =
        batchErrors ⟨invalidKeysOf st.data items, existingKeysOf st.data items, [], 0⟩ := rfl
    simp only [saveData, hs, if_false, hb, aggregateMessage]
    split <;> rfl

/-- Every message collected by `batchErrors` starts with the letter `I` or the
letter `A`. -/
theorem aggregateMessage_head (inv ex : List String)
    (h : (batchErrors ⟨inv, ex, [], 0⟩).length > 0) :
    (aggregateMessage inv ex).data.head? = some 'I' ∨
    (aggregateMessage inv ex).data.head? = some 'A' := by
  unfold aggregateMessage
  by_cases hi : inv.length > 0
  · left
    simp only [batchErrors, hi, if_true, List.singleton_append, intercalate_cons_data,
      String.data_append]
    rfl
  · right
    have he : ex.length > 0 := by
      by_contra hc
      simp [batchErrors, hi, hc] at h
    simp only [batchErrors, hi, he, if_true, if_false, List.nil_append, intercalate_cons_data,
      String.data_append]
    rfl

/-- On `hugeStore` the running size check trips at the first valid item. -/
theorem sizeCheckTrips_hugeStore :
    sizeCheckTrips hugeStore.data (dataSize hugeStore.data) smallBatch = true := by
  have hg : hugeStore.data.get "big" = some ⟨hugeValue, none⟩ := by
    simp [hugeStore, mirrored, hugeData, Store.get]
  have hle := value_le_dataSize _ _ _ hg
  rw [byteLength_hugeValue] at hle
  have h1 : hugeStore.data.holds "j" = false := by
    rw [Store.holds_eq_false_iff]
    exact ⟨by simp [hugeStore, mirrored, hugeData, Store.get], by decide⟩
  have h2 : byteLength "j" ≤ 32 := by decide
  have h3 : byteLength (stringify (.num 2)) ≤ 16384 := by decide
  have hv : Item.isValid hugeStore.data ⟨"j", .num 2, none⟩ = true := by
    simp [Item.isValid, h1, h2, h3]
  simp only [smallBatch, sizeCheckTrips, hv, if_true, Bool.or_eq_true, decide_eq_true_eq,
    fileSizeLimit]
  left
  omega

/-- The class of an item, spelled out: it is invalid when its key is too long,
or the test `data[key]` fails and its value is too large; it is already
existing when its key has at most 32 bytes and the test `data[key]` passes; it
is valid otherwise. -/
theorem classify_iff (data : Store) (it : Item) :
    (classify data it = .invalid ↔
      byteLength it.key > 32 ∨
        (data.holds it.key = false ∧ byteLength (stringify it.value) > 16384)) ∧
    (classify data it = .alreadyExists ↔ byteLength it.key ≤ 32 ∧ data.holds it.key = true) ∧
    (classify data it = .valid ↔ it.isValid data = true) := by
  unfold classify Item.isValid
  by_cases h1 : byteLength it.key > 32
  · have h1' : ¬ byteLength it.key ≤ 32 := by omega
    simp [h1, h1']
  · have h1' : byteLength it.key ≤ 32 := by omega
    cases hg : data.holds it.key with
    | true =>
      simp [h1, h1']
    | false =>
      by_cases h3 : byteLength (stringify it.value) > 16384
      · have h3' : ¬ byteLength (stringify it.value) ≤ 16384 := by omega
        simp [h1, h1', h3, h3']
      · have h3' : byteLength (stringify it.value) ≤ 16384 := by omega
        simp [h1, h1', h3, h3']

/-- The three checks of a valid item, spelled out: the key has at most 32
bytes, is not an own key of the mapping and names no member of
`Object.prototype`, and the serialized value has at most 16384 bytes. -/
theorem Item.isValid_iff (data : Store) (it : Item) :
    it.isValid data = true ↔
      byteLength it.key ≤ 32 ∧ it.key ∉ data.keys ∧ it.key ∉ prototypeNames ∧
        byteLength (stringify it.value) ≤ 16384 := by
  have h := Store.holds_eq_false_iff data it.key
  rw [Store.get_eq_none_iff] at h
  simp only [Item.isValid, Bool.and_eq_true, decide_eq_true_eq, Bool.not_eq_true', h]
  tauto

theorem invalidKeysOf_eq_classify (data : Store) (items : List Item) :
    invalidKeysOf data items =
      (items.filter fun it => decide (classify data it = .invalid)).map Item.key := by
  unfold invalidKeysOf
  congr 1
  apply List.filter_congr
  intro it _
  have h := (classify_iff data it).1
  by_cases hc : classify data it = .invalid
  · have := h.1 hc
    simp only [hc, decide_True]
    rcases this with h1 | ⟨h2, h3⟩
    · simp [h1]
    · simp [h2, Item.valueSize, h3]
  · simp only [hc, decide_False]
    have hn : ¬ (byteLength it.key > 32 ∨
        (data.holds it.key = false ∧ byteLength (stringify it.value) > 16384)) :=
      fun hx => hc (h.2 hx)
    push_neg at hn
    have h1 : ¬ byteLength it.key > 32 := by omega
    cases hg : data.holds it.key with
    | true => simp [h1]
    | false =>
      have := hn.2 hg
      simp [h1, Item.valueSize]
      omega

theorem existingKeysOf_eq_classify (data : Store) (items : List Item) :
    existingKeysOf data items =
      (items.filter fun it => decide (classify data it = .alreadyExists)).map Item.key := by
  unfold existingKeysOf
  congr 1
  apply List.filter_congr
  intro it _
  have h := (classify_iff data it).2.1
  by_cases hc : classify data it = .alreadyExists
  · obtain ⟨h1, h2⟩ := h.1 hc
    simp [hc, h1, h2]
  · simp only [hc, decide_False]
    by_cases h1 : byteLength it.key ≤ 32
    · have : data.holds it.key = false := by
        cases hh : data.holds it.key with
        | false => rfl
        | true => exact absurd (h.2 ⟨h1, hh⟩) hc
      simp [this]
    · simp [h1]

theorem validItems_eq_classify (data : Store) (items : List Item) :
    items.filter (Item.isValid data) =
      items.filter fun it => decide (classify data it = .valid) := by
  apply List.filter_congr
  intro it _
  have h := (classify_iff data it).2.2
  by_cases hc : classify data it = .valid
  · simp [hc, h.1 hc]
  · have : it.isValid data = false := by
      cases hv : it.isValid data with
      | false => rfl
      | true => exact absurd (h.2 hv) hc
    simp [hc, this]

theorem batchErrors_length_pos_iff (inv ex : List String) :
    (batchErrors ⟨inv, ex, [], 0⟩).length > 0 ↔ inv ≠ [] ∨ ex ≠ [] := by
  cases inv <;> cases ex <;> simp [batchErrors]

/-- Some message is collected exactly when some item of the batch is not
valid. -/
theorem batchErrors_pos_iff_rejected (data : Store) (items : List Item) :
    (batchErrors ⟨invalidKeysOf data items, existingKeysOf data items, [], 0⟩).length > 0 ↔
      ∃ it ∈ items, classify data it ≠ .valid := by
  rw [batchErrors_length_pos_iff, invalidKeysOf_eq_classify, existingKeysOf_eq_classify]
  constructor
  · rintro (h | h)
    · obtain ⟨k, hk⟩ := List.exists_mem_of_ne_nil _ h
      obtain ⟨it, hit, _⟩ := List.mem_map.1 hk
      have hc := (List.mem_filter.1 hit).2
      simp only [decide_eq_true_eq] at hc
      exact ⟨it, (List.mem_filter.1 hit).1, by rw [hc]; decide⟩
    · obtain ⟨k, hk⟩ := List.exists_mem_of_ne_nil _ h
      obtain ⟨it, hit, _⟩ := List.mem_map.1 hk
      have hc := (List.mem_filter.1 hit).2
      simp only [decide_eq_true_eq] at hc
      exact ⟨it, (List.mem_filter.1 hit).1, by rw [hc]; decide⟩
  · rintro ⟨it, hit, hc⟩
    cases hcl : classify data it with
    | valid => exact absurd hcl hc
    | invalid =>
      left
      apply List.ne_nil_of_mem (a := it.key)
      exact List.mem_map.2 ⟨it, List.mem_filter.2 ⟨hit, by simp [hcl]⟩, rfl⟩
    | alreadyExists =>
      right
      apply List.ne_nil_of_mem (a := it.key)
      exact List.mem_map.2 ⟨it, List.mem_filter.2 ⟨hit, by simp [hcl]⟩, rfl⟩

/-- After a batch that reaches its commit loop, a key carried by a valid item
holds the entry of the last valid item that carries it. -/
theorem batchCreate_get_last (st : KeyValueStore) (items : List Item) (clock : Nat → Nat)
    (hlen : items.length ≤ 50)
    (hsize : sizeCheckTrips st.data (dataSize st.data) items = false)
    (pre post : List Item) (it : Item) (hitems : items = pre ++ it :: post)
    (hv : it.isValid st.data = true)
    (hlast : ∀ j ∈ post, j.isValid st.data = true → j.key ≠ it.key) :
    (batchCreate st items clock).store.data.get it.key =
      some ⟨it.value, expiryFor it.ttl (clock (pre.filter (Item.isValid st.data)).length)⟩ := by
  rw [batchCreate_data st items clock hlen hsize, hitems, List.filter_append,
    List.filter_cons_of_pos hv]
  have h := commitItems_get_last clock (pre.filter (Item.isValid st.data))
    (post.filter (Item.isValid st.data)) it 0 st.data
    (fun j hj => hlast j (List.mem_filter.1 hj).1 (List.mem_filter.1 hj).2)
  simpa using h

/-- What a successful first loop of `batchCreate` returns. -/
theorem scanItems_ok (data : Store) (items : List Item) (n : Nat) (scan : Scan)
    (h : scanItems data items ⟨[], [], [], n⟩ = .ok scan) :
    sizeCheckTrips data n items = false ∧
    scan.invalidKeys = invalidKeysOf data items ∧
    scan.alreadyExistsKeys = existingKeysOf data items ∧
    scan.validItems = items.filter (Item.isValid data) := by
  rw [scanItems_eq] at h
  cases ht : sizeCheckTrips data n items with
  | true =>
    simp [ht] at h
  | false =>
    simp only [ht, Bool.false_eq_true, if_false, List.nil_append, Except.ok.injEq] at h
    subst h
    exact ⟨rfl, rfl, rfl, rfl⟩

theorem expiredAt_del_self (s : Store) (now : Nat) (key : String) :
    expiredAt (s.del key) now key = false := by
  simp [expiredAt, Store.get_del_self]

theorem expiredAt_del_ne (s : Store) (now : Nat) (key other : String) (h : other ≠ key) :
    expiredAt (s.del key) now other = expiredAt s now other := by
  simp [expiredAt, Store.get_del_ne _ _ _ h]

/-- What the loop of the sweep leaves under each key: nothing under a visited
key whose entry was expired, the old entry under every other key. -/
theorem sweepKeys_get (now : Nat) (ks : List String) (s : Store) (m : Bool) (k : String) :
    (sweepKeys now ks s m).1.get k =
      if k ∈ ks ∧ expiredAt s now k = true then none else s.get k := by
  induction ks generalizing s m with
  | nil => simp [sweepKeys]
  | cons key rest ih =>
    unfold sweepKeys
    cases hg : s.get key with
    | none =>
      have hx : expiredAt s now key = false := by simp [expiredAt, hg]
      simp only [ih]
      by_cases hk : k = key
      · subst hk
        simp [hx, hg]
      · simp [hk]
    | some item =>
      by_cases he : isExpired item now = true
      · have hx : expiredAt s now key = true := by simp [expiredAt, hg, he]
        simp only [he, if_true, ih]
        by_cases hk : k = key
        · subst hk
          simp [hx, expiredAt_del_self, Store.get_del_self]
        · simp [hk, expiredAt_del_ne _ _ _ _ hk, Store.get_del_ne _ _ _ hk]
      · have hx : expiredAt s now key = false := by simp [expiredAt, hg, he]
        simp only [he, if_false, ih, Bool.false_eq_true]
        by_cases hk : k = key
        · subst hk
          simp [hx]
        · simp [hk]

/-- The flag of the sweep is raised exactly when a visited key is expired. -/
theorem sweepKeys_modified (now : Nat) (ks : List String) (s : Store) (m : Bool) :
    (sweepKeys now ks s m).2 = (m || ks.any fun k => expiredAt s now k) := by
  induction ks generalizing s m with
  | nil => simp [sweepKeys]
  | cons key rest ih =>
    unfold sweepKeys
    cases hg : s.get key with
    | none =>
      have hx : expiredAt s now key = false := by simp [expiredAt, hg]
      simp [ih, hx]
    | some item =>
      by_cases he : isExpired item now = true
      · have hx : expiredAt s now key = true := by simp [expiredAt, hg, he]
        simp [he, ih, hx]
      · have hx : expiredAt s now key = false := by simp [expiredAt, hg, he]
        simp [he, ih, hx]

/-- A sweep over a mapping without expired entry changes nothing. -/
theorem sweepKeys_of_none_expired (now : Nat) (ks : List String) (s : Store) (m : Bool)
    (h : ∀ k ∈ ks, expiredAt s now k = false) : sweepKeys now ks s m = (s, m) := by
  induction ks generalizing m with
  | nil => rfl
  | cons key rest ih =>
    have hk := h key (List.mem_cons_self _ _)
    have hr := ih (m := m) (fun k hk => h k (List.mem_cons_of_mem _ hk))
    unfold sweepKeys
    cases hg : s.get key with
    | none => simpa using hr
    | some item =>
      have he : isExpired item now = false := by simpa [expiredAt, hg] using hk
      simpa [he] using hr

/-- The mapping after `removeExpiredKeys` is the one the loop leaves, whatever
`saveData` does. -/
theorem removeExpiredKeys_data (st : KeyValueStore) (now : Nat) :
    (removeExpiredKeys st now).store.data = (sweepKeys now st.data.keys st.data false).1 := by
  unfold removeExpiredKeys
  split
  · rename_i data h
    rw [saveData_data, h]
  · rename_i data h
    rw [h]

theorem removeExpiredKeys_get (st : KeyValueStore) (now : Nat) (k : String) :
    (removeExpiredKeys st now).store.data.get k =
      if expiredAt st.data now k = true then none else st.data.get k := by
  rw [removeExpiredKeys_data, sweepKeys_get]
  by_cases hx : expiredAt st.data now k = true
  · have hk : k ∈ st.data.keys := by
      apply (Store.get_isSome_iff _ _).1
      unfold expiredAt at hx
      cases hg : st.data.get k with
      | none => simp [hg] at hx
      | some e => rfl
    simp [hx, hk]
  · simp [hx]

/-- After a sweep no entry of the mapping passes the expiry test. -/
theorem removeExpiredKeys_none_expired (st : KeyValueStore) (now : Nat) (k : String) :
    expiredAt (removeExpiredKeys st now).store.data now k = false := by
  unfold expiredAt
  rw [removeExpiredKeys_get]
  by_cases hx : expiredAt st.data now k = true
  · simp [hx]
  · simp only [hx, if_false, Bool.false_eq_true]
    simpa [expiredAt] using hx

/-- The loop of the sweep never enlarges the serialized mapping. -/
theorem sweepKeys_dataSize_le (now : Nat) (ks : List String) (s : Store) (m : Bool) :
    dataSize (sweepKeys now ks s m).1 ≤ dataSize s := by
  induction ks generalizing s m with
  | nil => exact Nat.le_refl _
  | cons key rest ih =>
    unfold sweepKeys
    cases hg : s.get key with
    | none => exact ih s m
    | some item =>
      by_cases he : isExpired item now = true
      · simp only [he, if_true]
        exact Nat.le_trans (ih _ _) (dataSize_del_le _ _)
      · simp only [he, if_false, Bool.false_eq_true]
        exact ih s m

/-- On a mapping with distinct keys the loop of the sweep is a filter: the
entries that pass the expiry test go, the others stay in place. -/
theorem sweepKeys_eq_filter (now : Nat) (pre suf : Store) (m : Bool)
    (hnd : (pre ++ suf).keys.Nodup) :
    (sweepKeys now suf.keys (pre ++ suf) m).1 =
      pre ++ suf.filter (fun p => !isExpired p.2 now) := by
  induction suf generalizing pre m with
  | nil => simp [Store.keys, sweepKeys]
  | cons p r ih =>
    obtain ⟨k, e⟩ := p
    rw [Store.keys_append] at hnd
    have hdis := List.nodup_append.1 hnd
    have hkpre : k ∉ pre.keys := fun hm =>
      hdis.2.2 hm (by simp [Store.keys])
    have hkr : k ∉ Store.keys r := by
      have := hdis.2.1
      simp only [Store.keys, List.map_cons, List.nodup_cons] at this
      exact this.1
    have hg : Store.get (pre ++ (k, e) :: r) k = some e := by
      rw [Store.get_append_of_not_mem _ _ _ hkpre]
      simp [Store.get]
    simp only [Store.keys, List.map_cons]
    unfold sweepKeys
    simp only [hg]
    by_cases he : isExpired e now = true
    · have hdel : Store.del (pre ++ (k, e) :: r) k = pre ++ r := by
        rw [Store.del_append, Store.del_of_not_mem _ _ hkpre]
        simp [Store.del, Store.del_of_not_mem _ _ hkr]
      simp only [he, if_true, hdel]
      have hnd' : (pre ++ r).keys.Nodup := by
        rw [Store.keys_append]
        apply List.nodup_append.2
        refine ⟨hdis.1, ?_, ?_⟩
        · have := hdis.2.1
          simp only [Store.keys, List.map_cons, List.nodup_cons] at this
          exact this.2
        · intro a ha hb
          exact hdis.2.2 ha (by simp only [Store.keys, List.map_cons]; exact List.mem_cons_of_mem _ hb)
      have := ih pre true hnd'
      simp only [Store.keys] at this
      rw [this]
      simp [he]
    · simp only [he, if_false, Bool.false_eq_true]
      have hnd' : ((pre ++ [(k, e)]) ++ r).keys.Nodup := by
        simpa [Store.keys] using hnd
      have := ih (pre ++ [(k, e)]) m hnd'
      simp only [Store.keys, List.append_assoc, List.singleton_append] at this
      rw [this]
      simp [he]

/-- The expiry test spelled out: the expiry is a number other than 0 that is
smaller than `now`. -/
theorem isExpired_iff (e : Entry) (now : Nat) :
    isExpired e now = true ↔ ∃ t : Int, e.expiry = some t ∧ t ≠ 0 ∧ t < (now : Int) := by
  unfold isExpired
  cases hx : e.expiry with
  | none => simp
  | some t => simp

/-- A sweep on a mapping without expired entry does nothing at all. -/
theorem removeExpiredKeys_of_none_expired (st : KeyValueStore) (now : Nat)
    (h : ∀ k, expiredAt st.data now k = false) :
    removeExpiredKeys st now = ⟨.ok (), st⟩ := by
  unfold removeExpiredKeys
  rw [sweepKeys_of_none_expired now st.data.keys st.data false (fun k _ => h k)]

/-- A sweep that finds an expired entry calls `saveData` on what is left. -/
theorem removeExpiredKeys_of_expired (st : KeyValueStore) (now : Nat) (k : String)
    (h : expiredAt st.data now k = true) :
    removeExpiredKeys st now =
      saveData { st with data := (sweepKeys now st.data.keys st.data false).1 } := by
  have hk : k ∈ st.data.keys := by
    apply (Store.get_isSome_iff _ _).1
    unfold expiredAt at h
    cases hg : st.data.get k with
    | none => simp [hg] at h
    | some e => rfl
  have hm : (sweepKeys now st.data.keys st.data false).2 = true := by
    rw [sweepKeys_modified]
    simp only [Bool.false_or, List.any_eq_true]
    exact ⟨k, hk, h⟩
  unfold removeExpiredKeys
  split
  · rename_i data heq
    rw [heq]
  · rename_i data heq
    rw [heq] at hm
    cases hm

theorem entryOfJSON_entryJSON (e : Entry) : Store.entryOfJSON (Store.entryJSON e) = some e := by
  obtain ⟨v, x⟩ := e
  cases x with
  | none => simp [Store.entryOfJSON, Store.entryJSON]
  | some t => simp [Store.entryOfJSON, Store.entryJSON]

theorem entriesOfJSON_map (s : Store) :
    Store.entriesOfJSON (s.map fun p => (p.1, Store.entryJSON p.2)) = some s := by
  induction s with
  | nil => rfl
  | cons p r ih =>
    obtain ⟨k, e⟩ := p
    simp only [List.map_cons, Store.entriesOfJSON, entryOfJSON_entryJSON, ih]

/-- A mapping is read back from its JSON value. -/
theorem fromJSON_toJSON (s : Store) : Store.fromJSON s.toJSON = some s := by
  simp only [Store.toJSON, Store.fromJSON, entriesOfJSON_map]

/-- Loading a file that `saveData` wrote for the mapping `data` is a sweep of
`data`. -/
theorem loadData_of_saved (d0 data : Store) (now : Nat)
    (hlen : byteLength (stringifyPretty 0 data.toJSON) ≤ maxStringLength) :
    loadData ⟨d0, some (stringifyPretty 0 data.toJSON)⟩ now =
      removeExpiredKeys ⟨data, some (stringifyPretty 0 data.toJSON)⟩ now := by
  have hl : ¬ byteLength (stringifyPretty 0 data.toJSON) > maxStringLength := by omega
  simp only [loadData, hl, if_false, parseJSON_stringifyPretty, Option.some_bind,
    fromJSON_toJSON]

/-- A backing file of more than `maxStringLength` bytes cannot be loaded: the
call fails and the store is left as it was. -/
theorem loadData_too_long (st : KeyValueStore) (text : String) (now : Nat)
    (hf : st.file = some text) (hlen : byteLength text > maxStringLength) :
    loadData st now =
      ⟨.error (.error "Cannot create a string longer than 0x1fffffe8 characters"), st⟩ := by
  simp only [loadData, hf, hlen, if_true]

/-- A sweep of a mapping that fits the file size limit succeeds. -/
theorem removeExpiredKeys_result_ok (st : KeyValueStore) (now : Nat)
    (h : dataSize st.data ≤ fileSizeLimit) : (removeExpiredKeys st now).result = .ok () := by
  have hle := sweepKeys_dataSize_le now st.data.keys st.data false
  unfold removeExpiredKeys
  split
  · rename_i data heq
    rw [heq] at hle
    rw [saveData_result, if_neg]
    simp only at hle ⊢
    omega
  · rfl

end KeyValueStore

/-! ## Lemmas on the aggregate message -/

theorem intercalate_data_eq_joinedKeys (l : List String) :
    (", ".intercalate l).data = joinedKeys l := by
  cases l with
  | nil => rfl
  | cons a r => rw [KeyValueStore.intercalate_cons_data]; rfl

/-- The message of the aggregate error, character by character. -/
theorem aggregateMessage_data (inv ex : List String) :
    (aggregateMessage inv ex).data = messageChars inv ex := by
  unfold aggregateMessage messageChars
  cases inv with
  | nil =>
    cases ex with
    | nil => rfl
    | cons b m =>
      simp only [KeyValueStore.batchErrors, List.length_nil, List.length_cons, gt_iff_lt,
        Nat.lt_irrefl, if_false, Nat.zero_lt_succ, if_true, List.nil_append,
        KeyValueStore.intercalate_cons_data, String.data_append, joinedChars,
        intercalate_data_eq_joinedKeys, List.append_nil]
      rfl
  | cons a l =>
    cases ex with
    | nil =>
      simp only [KeyValueStore.batchErrors, List.length_nil, List.length_cons, gt_iff_lt,
        Nat.lt_irrefl, if_false, Nat.zero_lt_succ, if_true, List.append_nil,
        KeyValueStore.intercalate_cons_data, String.data_append, joinedChars,
        intercalate_data_eq_joinedKeys]
      rfl
    | cons b m =>
      simp only [KeyValueStore.batchErrors, List.length_cons, gt_iff_lt,
        Nat.zero_lt_succ, if_true, List.singleton_append,
        KeyValueStore.intercalate_cons_data, String.data_append, joinedChars,
        intercalate_data_eq_joinedKeys, List.append_nil]
      rfl

theorem append_cons_unique (c : Char) (x y r r' : List Char) (hx : c ∉ x) (hy : c ∉ y)
    (h : x ++ c :: r = y ++ c :: r') : x = y ∧ r = r' := by
  induction x generalizing y with
  | nil =>
    cases y with
    | nil => simpa using h
    | cons d y' =>
      simp only [List.nil_append, List.cons_append, List.cons.injEq] at h
      exact absurd (by simp [h.1]) hy
  | cons e x' ih =>
    cases y with
    | nil =>
      simp only [List.nil_append, List.cons_append, List.cons.injEq] at h
      exact absurd (by simp [h.1]) hx
    | cons d y' =>
      simp only [List.cons_append, List.cons.injEq] at h
      have hx' : c ∉ x' := fun hm => hx (List.mem_cons_of_mem _ hm)
      have hy' : c ∉ y' := fun hm => hy (List.mem_cons_of_mem _ hm)
      obtain ⟨e1, e2⟩ := ih y' hx' hy' h.2
      exact ⟨by rw [h.1, e1], e2⟩

theorem not_eq_append_cons (c : Char) (x y r : List Char) (hx : c ∉ x) :
    x ≠ y ++ c :: r := by
  intro h
  apply hx
  rw [h]
  simp

theorem joinedChars_period_free (l : List String) (h : ∀ k ∈ l, isPlainKey k) :
    '.' ∉ joinedChars [',', ' '] l := by
  induction l with
  | nil => simp [joinedChars]
  | cons a r ih =>
    have ha := (h a (List.mem_cons_self _ _)).2
    have hr := ih (fun k hk => h k (List.mem_cons_of_mem _ hk))
    simp only [joinedChars, List.cons_append, List.nil_append, List.mem_cons, List.mem_append,
      not_or]
    exact ⟨by decide, by decide, ha, hr⟩

theorem joinedKeys_period_free (l : List String) (h : ∀ k ∈ l, isPlainKey k) :
    '.' ∉ joinedKeys l := by
  cases l with
  | nil => simp [joinedKeys]
  | cons a r =>
    simp only [joinedKeys, List.mem_append, not_or]
    exact ⟨(h a (List.mem_cons_self _ _)).2,
      joinedChars_period_free r (fun k hk => h k (List.mem_cons_of_mem _ hk))⟩

theorem string_eq_of_data (a b : String) (h : a.data = b.data) : a = b := by
  cases a
  cases b
  simp only at h
  rw [h]

/-- Joining with `", "` loses nothing as long as no key contains a comma. -/
theorem joined_inj (l l' : List String) (a b : String) (ha : isPlainKey a) (hb : isPlainKey b)
    (hl : ∀ k ∈ l, isPlainKey k) (hl' : ∀ k ∈ l', isPlainKey k)
    (h : a.data ++ joinedChars [',', ' '] l = b.data ++ joinedChars [',', ' '] l') :
    a = b ∧ l = l' := by
  induction l generalizing a b l' with
  | nil =>
    cases l' with
    | nil =>
      simp only [joinedChars, List.append_nil] at h
      exact ⟨string_eq_of_data _ _ h, rfl⟩
    | cons y r' =>
      simp only [joinedChars, List.append_nil, List.cons_append, List.nil_append] at h
      exact absurd h (not_eq_append_cons ',' _ _ _ ha.1)
  | cons x r ih =>
    cases l' with
    | nil =>
      simp only [joinedChars, List.append_nil, List.cons_append, List.nil_append] at h
      exact absurd h.symm (not_eq_append_cons ',' _ _ _ hb.1)
    | cons y r' =>
      simp only [joinedChars, List.cons_append, List.nil_append] at h
      obtain ⟨e1, e2⟩ := append_cons_unique ',' _ _ _ _ ha.1 hb.1 h
      simp only [List.cons.injEq, true_and] at e2
      obtain ⟨e3, e4⟩ := ih r' x y (hl x (List.mem_cons_self _ _))
        (hl' y (List.mem_cons_self _ _))
        (fun k hk => hl k (List.mem_cons_of_mem _ hk))
        (fun k hk => hl' k (List.mem_cons_of_mem _ hk)) e2
      exact ⟨string_eq_of_data _ _ e1, by rw [e3, e4]⟩

theorem joinedKeys_inj (a b : String) (l l' : List String)
    (hl : ∀ k ∈ a :: l, isPlainKey k) (hl' : ∀ k ∈ b :: l', isPlainKey k)
    (h : joinedKeys (a :: l) = joinedKeys (b :: l')) : a :: l = b :: l' := by
  obtain ⟨e1, e2⟩ := joined_inj l l' a b (hl a (List.mem_cons_self _ _))
    (hl' b (List.mem_cons_self _ _)) (fun k hk => hl k (List.mem_cons_of_mem _ hk))
    (fun k hk => hl' k (List.mem_cons_of_mem _ hk)) h
  rw [e1, e2]

/-- The two lists of keys can be read off the characters of the aggregate
message when no key contains a comma or a full stop. -/
theorem messageChars_inj (inv ex inv' ex' : List String)
    (hi : ∀ k ∈ inv, isPlainKey k) (he : ∀ k ∈ ex, isPlainKey k)
    (hi' : ∀ k ∈ inv', isPlainKey k) (he' : ∀ k ∈ ex', isPlainKey k)
    (h : messageChars inv ex = messageChars inv' ex') : inv = inv' ∧ ex = ex' := by
  have hP : ∀ t : List Char, "Invalid keys: ".data ++ t ≠ [] := by
    intro t ht
    have := congrArg List.length ht
    simp at this
  have hQ : ∀ t : List Char, "Already existing keys: ".data ++ t ≠ [] := by
    intro t ht
    have := congrArg List.length ht
    simp at this
  have hPQ : ∀ t u : List Char,
      "Invalid keys: ".data ++ t ≠ "Already existing keys: ".data ++ u := by
    intro t u ht
    have := congrArg List.head? ht
    simp at this
  have key1 : ∀ (a : String) (l : List String) (b : String) (l' : List String) (t : List Char),
      (∀ k ∈ a :: l, isPlainKey k) →
      "Invalid keys: ".data ++ joinedKeys (a :: l) ≠
        "Invalid keys: ".data ++ joinedKeys (b :: l') ++ ('.' :: t) := by
    intro a l b l' t hl ht
    rw [List.append_assoc] at ht
    exact not_eq_append_cons '.' _ _ _ (joinedKeys_period_free _ hl) (List.append_cancel_left ht)
  cases inv with
  | nil =>
    cases ex with
    | nil =>
      cases inv' with
      | nil =>
        cases ex' with
        | nil => exact ⟨rfl, rfl⟩
        | cons b' m' => exact absurd h.symm (hQ _)
      | cons a' l' =>
        cases ex' with
        | nil => exact absurd h.symm (hP _)
        | cons b' m' =>
          simp only [messageChars, List.append_assoc] at h
          exact absurd h.symm (hP _)
    | cons b m =>
      cases inv' with
      | nil =>
        cases ex' with
        | nil => exact absurd h (hQ _)
        | cons b' m' =>
          simp only [messageChars] at h
          exact ⟨rfl, joinedKeys_inj _ _ _ _ he he' (List.append_cancel_left h)⟩
      | cons a' l' =>
        cases ex' with
        | nil => exact absurd h.symm (hPQ _ _)
        | cons b' m' =>
          simp only [messageChars, List.append_assoc] at h
          exact absurd h.symm (hPQ _ _)
  | cons a l =>
    cases ex with
    | nil =>
      cases inv' with
      | nil =>
        cases ex' with
        | nil => exact absurd h (hP _)
        | cons b' m' => exact absurd h (hPQ _ _)
      | cons a' l' =>
        cases ex' with
        | nil =>
          simp only [messageChars] at h
          exact ⟨joinedKeys_inj _ _ _ _ hi hi' (List.append_cancel_left h), rfl⟩
        | cons b' m' =>
          simp only [messageChars] at h
          exact absurd h (key1 _ _ _ _ _ hi)
    | cons b m =>
      cases inv' with
      | nil =>
        cases ex' with
        | nil =>
          simp only [messageChars, List.append_assoc] at h
          exact absurd h (hP _)
        | cons b' m' =>
          simp only [messageChars, List.append_assoc] at h
          exact absurd h (hPQ _ _)
      | cons a' l' =>
        cases ex' with
        | nil =>
          simp only [messageChars] at h
          exact absurd h.symm (key1 _ _ _ _ _ hi')
        | cons b' m' =>
          simp only [messageChars, List.append_assoc] at h
          have h1 := List.append_cancel_left h
          obtain ⟨e1, e2⟩ := append_cons_unique '.' _ _ _ _ (joinedKeys_period_free _ hi)
            (joinedKeys_period_free _ hi') h1
          simp only [List.cons.injEq, true_and] at e2
          exact ⟨joinedKeys_inj _ _ _ _ hi hi' e1,
            joinedKeys_inj _ _ _ _ he he' (List.append_cancel_left e2)⟩

/-- The message of the aggregate error determines the two lists of keys when
no key contains a comma or a full stop. -/
theorem aggregateMessage_inj (inv ex inv' ex' : List String)
    (hi : ∀ k ∈ inv, isPlainKey k) (he : ∀ k ∈ ex, isPlainKey k)
    (hi' : ∀ k ∈ inv', isPlainKey k) (he' : ∀ k ∈ ex', isPlainKey k)
    (h : aggregateMessage inv ex = aggregateMessage inv' ex') : inv = inv' ∧ ex = ex' := by
  apply messageChars_inj inv ex inv' ex' hi he hi' he'
  rw [← aggregateMessage_data, ← aggregateMessage_data, h]

/-! ## Lemmas on the size limits of stored entries -/

theorem mem_del (s : Store) (key : String) (p : String × Entry) (h : p ∈ s.del key) : p ∈ s := by
  induction s with
  | nil => simp [Store.del] at h
  | cons q r ih =>
    obtain ⟨k, e⟩ := q
    by_cases hk : k = key
    · simp only [Store.del, hk, if_true] at h
      exact List.mem_cons_of_mem _ (ih h)
    · simp only [Store.del, hk, if_false, List.mem_cons] at h
      rcases h with h | h
      · rw [h]
        exact List.mem_cons_self _ _
      · exact List.mem_cons_of_mem _ (ih h)

theorem withinLimits_del (s : Store) (key : String) (h : withinLimits s) :
    withinLimits (s.del key) :=
  fun p hp => h p (mem_del s key p hp)

theorem withinLimits_replace (s : Store) (key : String) (e : Entry) (h : withinLimits s)
    (hv : byteLength (stringify e.value) ≤ 16384) : withinLimits (s.replace key e) := by
  induction s with
  | nil => simp [Store.replace, withinLimits]
  | cons q r ih =>
    obtain ⟨k, x⟩ := q
    have hq := h (k, x) (List.mem_cons_self _ _)
    have hr : withinLimits r := fun p hp => h p (List.mem_cons_of_mem _ hp)
    intro p hp
    by_cases hk : k = key
    · simp only [Store.replace, hk, if_true, List.mem_cons] at hp
      rcases hp with hp | hp
      · rw [hp]
        exact ⟨by rw [← hk]; exact hq.1, hv⟩
      · exact ih hr p hp
    · simp only [Store.replace, hk, if_false, List.mem_cons] at hp
      rcases hp with hp | hp
      · rw [hp]
        exact hq
      · exact ih hr p hp

theorem withinLimits_set (s : Store) (key : String) (e : Entry) (h : withinLimits s)
    (hk : byteLength key ≤ 32) (hv : byteLength (stringify e.value) ≤ 16384) :
    withinLimits (s.set key e) := by
  unfold Store.set
  cases s.get key with
  | some x => exact withinLimits_replace s key e h hv
  | none =>
    intro p hp
    simp only [List.mem_append, List.mem_singleton] at hp
    rcases hp with hp | hp
    · exact h p hp
    · rw [hp]
      exact ⟨hk, hv⟩

theorem withinLimits_sweepKeys (now : Nat) (ks : List String) (s : Store) (m : Bool)
    (h : withinLimits s) : withinLimits (KeyValueStore.sweepKeys now ks s m).1 := by
  induction ks generalizing s m with
  | nil => exact h
  | cons key rest ih =>
    unfold KeyValueStore.sweepKeys
    cases hg : s.get key with
    | none => exact ih s m h
    | some item =>
      by_cases he : KeyValueStore.isExpired item now = true
      · simp only [he, if_true]
        exact ih _ _ (withinLimits_del s key h)
      · simp only [he, if_false, Bool.false_eq_true]
        exact ih s m h

theorem withinLimits_commitItems (clock : Nat → Nat) (l : List Item) (i : Nat) (s : Store)
    (h : withinLimits s)
    (hl : ∀ it ∈ l, byteLength it.key ≤ 32 ∧ byteLength (stringify it.value) ≤ 16384) :
    withinLimits (KeyValueStore.commitItems clock l i s) := by
  induction l generalizing i s with
  | nil => exact h
  | cons it rest ih =>
    have hit := hl it (List.mem_cons_self _ _)
    simp only [KeyValueStore.commitItems]
    exact ih _ _ (withinLimits_set s it.key _ h hit.1 hit.2)
      (fun j hj => hl j (List.mem_cons_of_mem _ hj))

/-- Every call keeps the size limits of the stored entries. -/
theorem withinLimits_step (st : KeyValueStore) (op : Op) (h : withinLimits st.data) :
    withinLimits (step st op).data := by
  cases op with
  | create key value ttl now =>
    simp only [step]
    by_cases h1 : st.data.holds key = true
    · simpa [KeyValueStore.create, h1] using h
    · by_cases h2 : byteLength key > 32
      · simpa [KeyValueStore.create, h1, h2] using h
      · by_cases h3 : byteLength (stringify value) > 16384
        · simpa [KeyValueStore.create, h1, h2, h3] using h
        · simp only [KeyValueStore.create, h1, h2, h3, if_false, Bool.false_eq_true,
            KeyValueStore.saveData_data]
          exact withinLimits_set _ _ _ h (by omega) (by simp only; omega)
  | read key now =>
    simp only [step]
    cases hg : st.data.get key with
    | none =>
      by_cases hp : key ∈ prototypeNames
      · simpa [KeyValueStore.read_of_inherited _ _ _ hg hp] using h
      · simpa [KeyValueStore.read_of_absent _ _ _ hg hp] using h
    | some e =>
      by_cases he : KeyValueStore.isExpired e now = true
      · rw [(KeyValueStore.read_of_expired st key e now hg he).1]
        exact withinLimits_del _ _ h
      · have he' : KeyValueStore.isExpired e now = false := by simpa using he
        simpa [KeyValueStore.read_of_live _ _ _ _ hg he'] using h
  | delete key =>
    simp only [step]
    by_cases h1 : st.data.holds key = true
    · simp only [KeyValueStore.delete, h1, if_true, KeyValueStore.saveData_data]
      exact withinLimits_del _ _ h
    · simpa [KeyValueStore.delete, h1] using h
  | batchCreate items clock =>
    simp only [step]
    by_cases hlen : items.length ≤ 50
    · cases ht : sizeCheckTrips st.data (KeyValueStore.dataSize st.data) items with
      | true =>
        rw [KeyValueStore.batchCreate_of_trips st items clock hlen ht]
        exact h
      | false =>
        rw [KeyValueStore.batchCreate_data st items clock hlen ht]
        apply withinLimits_commitItems _ _ _ _ h
        intro it hit
        have hv := (List.mem_filter.1 hit).2
        simp only [Item.isValid, Bool.and_eq_true, decide_eq_true_eq] at hv
        exact ⟨hv.1.1, hv.2⟩
    · have hl : items.length > 50 := by omega
      simpa [KeyValueStore.batchCreate, hl] using h
  | sweep now =>
    simp only [step]
    rw [KeyValueStore.removeExpiredKeys_data]
    exact withinLimits_sweepKeys _ _ _ _ h

theorem withinLimits_run (st : KeyValueStore) (ops : List Op) (h : withinLimits st.data) :
    withinLimits (run st ops).data := by
  induction ops generalizing st with
  | nil => exact h
  | cons op rest ih =>
    simp only [run, List.foldl_cons]
    exact ih _ (withinLimits_step st op h)

/-! ## Lemmas on the checks, the expiry test and the reload -/

open KeyValueStore

/-- The checks of `create` in their order: the call fails with
`KeyAlreadyExistsError` exactly when the test `data[key]` passes, that is for
the keys of the mapping and for the names of `Object.prototype`; for any other
key it fails with a validation error exactly when the key has more than 32
bytes or the serialized value more than 16384 bytes, the key check coming
before the value check. -/
theorem create_check_order (st : KeyValueStore) (k : String) (v : JVal) (ttl : Option Int)
    (now : Nat) :
    ((create st k v ttl now).result = .error .keyAlreadyExists ↔
      k ∈ st.data.keys ∨ k ∈ prototypeNames) ∧
    (k ∉ st.data.keys → k ∉ prototypeNames →
      (isValidationError (create st k v ttl now).result ↔
        (byteLength k > 32 ∨ byteLength (stringify v) > 16384))) ∧
    (k ∉ st.data.keys → k ∉ prototypeNames → byteLength k > 32 →
      (create st k v ttl now).result = .error (.error "Key must be at most 32 characters.")) ∧
    (k ∉ st.data.keys → k ∉ prototypeNames → byteLength k ≤ 32 →
      byteLength (stringify v) > 16384 →
      (create st k v ttl now).result = .error (.error "Value size exceeds 16KB.")) := by
  have hfalse : k ∉ st.data.keys → k ∉ prototypeNames → st.data.holds k = false :=
    fun hk hp => (Store.holds_eq_false_iff _ _).2 ⟨(Store.get_eq_none_iff _ _).2 hk, hp⟩
  have key_msg : k ∉ st.data.keys → k ∉ prototypeNames → byteLength k > 32 →
      (create st k v ttl now).result = .error (.error "Key must be at most 32 characters.") := by
    intro hk hp h2
    simp [create, hfalse hk hp, h2]
  have val_msg : k ∉ st.data.keys → k ∉ prototypeNames → byteLength k ≤ 32 →
      byteLength (stringify v) > 16384 →
      (create st k v ttl now).result = .error (.error "Value size exceeds 16KB.") := by
    intro hk hp h2 h3
    have e2 : ¬ byteLength k > 32 := by omega
    simp [create, hfalse hk hp, e2, h3]
  refine ⟨?_, ?_, key_msg, val_msg⟩
  · rw [← Store.holds_iff]
    constructor
    · intro h
      by_contra hh
      have h1 : st.data.holds k = false := by simpa using hh
      obtain ⟨g, hp⟩ := (Store.holds_eq_false_iff _ _).1 h1
      have hk := (Store.get_eq_none_iff _ _).1 g
      by_cases h2 : byteLength k > 32
      · rw [key_msg hk hp h2] at h
        cases h
      · by_cases h3 : byteLength (stringify v) > 16384
        · rw [val_msg hk hp (by omega) h3] at h
          cases h
        · rw [(create_data_of_checks st k v ttl now h1 (by omega) (by omega)).2] at h
          split at h <;> cases h
    · intro hh
      simp [create, hh]
  · intro hk hp
    constructor
    · intro h
      by_contra hc
      rw [isValidationError,
        (create_data_of_checks st k v ttl now (hfalse hk hp) (by omega) (by omega)).2] at h
      split at h <;> rcases h with h | h <;> cases h
    · intro h
      by_cases h2 : byteLength k > 32
      · exact Or.inl (key_msg hk hp h2)
      · rcases h with h | h
        · exact absurd h h2
        · exact Or.inr (val_msg hk hp (by omega) h)

/-- When the entry under `k` has an expiry timestamp other than 0 that is
earlier than `now`, `read(k)` returns no value: it removes the entry, leaving
every other key as it was, and fails; the failure is `ExpiredKeyError` whenever
the remaining mapping serialises to at most 1 GiB. -/
theorem read_expired_never_returns (st : KeyValueStore) (k : String) (e : Entry) (t : Int)
    (now : Nat) (hg : st.data.get k = some e) (hx : e.expiry = some t) (h0 : t ≠ 0)
    (hpast : t < (now : Int)) :
    (∀ v, (KeyValueStore.read st k now).result ≠ .ok v) ∧
    (dataSize (st.data.del k) ≤ fileSizeLimit →
      (KeyValueStore.read st k now).result = .error .expiredKey) ∧
    k ∉ (KeyValueStore.read st k now).store.data.keys ∧
    (∀ other, other ≠ k →
      (KeyValueStore.read st k now).store.data.get other = st.data.get other) := by
  have he : isExpired e now = true := by
    simp only [isExpired, hx, bne_iff_ne, ne_eq, h0, not_false_eq_true, Bool.and_eq_true,
      decide_eq_true_eq]
    constructor
    · trivial
    · omega
  obtain ⟨rd, rr⟩ := read_of_expired st k e now hg he
  refine ⟨?_, ?_, ?_, ?_⟩
  · intro v hv
    rw [rr] at hv
    split at hv <;> cases hv
  · intro hs
    rw [rr, if_neg (by omega)]
  · rw [rd]
    exact (Store.get_eq_none_iff _ _).1 (Store.get_del_self _ _)
  · intro other ho
    rw [rd]
    exact Store.get_del_ne _ _ _ ho

/-- Away from the names of `Object.prototype`: `delete(k)` on a key that is not
in the mapping fails with `KeyNotFoundError` and leaves the store as it was; on
a key that is in the mapping it removes that key and no other, and a following
`read(k)`, at any time, fails with `KeyNotFoundError`. -/
theorem delete_effect (st : KeyValueStore) (k : String) (hp : k ∉ prototypeNames) :
    (k ∉ st.data.keys →
      (delete st k).result = .error .keyNotFound ∧ (delete st k).store = st) ∧
    (k ∈ st.data.keys →
      (delete st k).store.data = st.data.del k ∧
      k ∉ (delete st k).store.data.keys ∧
      (∀ other, other ≠ k → (delete st k).store.data.get other = st.data.get other) ∧
      (∀ now, (KeyValueStore.read (delete st k).store k now).result = .error .keyNotFound)) := by
  constructor
  · intro hk
    have h1 : st.data.holds k = false :=
      (Store.holds_eq_false_iff _ _).2 ⟨(Store.get_eq_none_iff _ _).2 hk, hp⟩
    simp [delete, h1]
  · intro hk
    have h1 : st.data.holds k = true := (Store.holds_iff _ _).2 (Or.inl hk)
    have hd : (delete st k).store.data = st.data.del k := by
      simp only [delete, h1, if_true, saveData_data]
    have hg : (delete st k).store.data.get k = none := by
      rw [hd]
      exact Store.get_del_self _ _
    refine ⟨hd, (Store.get_eq_none_iff _ _).1 hg, ?_, ?_⟩
    · intro other ho
      rw [hd]
      exact Store.get_del_ne _ _ _ ho
    · intro now
      rw [read_of_absent _ _ _ hg hp]

/-- The sweep at time `now` removes exactly the entries whose
expiry is a number other than 0 that is earlier than `now`: these are gone
afterwards, every other entry is kept unchanged (on a mapping with distinct
keys the result is the old mapping filtered, in the old order), and no entry
with such an expiry is left.  When no entry is removed the store, its file
included, is left untouched; when an entry is removed and what is left
serialises to at most 1 GiB, the call succeeds and the file is rewritten with
the new mapping. -/
theorem removeExpiredKeys_effect (st : KeyValueStore) (now : Nat) :
    (∀ e : Entry, isExpired e now = true ↔
      ∃ t : Int, e.expiry = some t ∧ t ≠ 0 ∧ t < (now : Int)) ∧
    (∀ k e, st.data.get k = some e → isExpired e now = true →
      (removeExpiredKeys st now).store.data.get k = none) ∧
    (∀ k e, st.data.get k = some e → isExpired e now = false →
      (removeExpiredKeys st now).store.data.get k = some e) ∧
    (∀ k, st.data.get k = none → (removeExpiredKeys st now).store.data.get k = none) ∧
    (∀ k e, (removeExpiredKeys st now).store.data.get k = some e → isExpired e now = false) ∧
    (st.data.keys.Nodup →
      (removeExpiredKeys st now).store.data =
        st.data.filter (fun p => !isExpired p.2 now)) ∧
    ((∀ k e, st.data.get k = some e → isExpired e now = false) →
      removeExpiredKeys st now = ⟨.ok (), st⟩) ∧
    ((∃ k e, st.data.get k = some e ∧ isExpired e now = true) →
      dataSize (removeExpiredKeys st now).store.data ≤ fileSizeLimit →
      (removeExpiredKeys st now).result = .ok () ∧
      (removeExpiredKeys st now).store.file =
        some (stringifyPretty 0 (removeExpiredKeys st now).store.data.toJSON)) := by
  refine ⟨fun e => isExpired_iff e now, ?_, ?_, ?_, ?_, ?_, ?_, ?_⟩
  · intro k e hg he
    rw [removeExpiredKeys_get]
    simp [expiredAt, hg, he]
  · intro k e hg he
    rw [removeExpiredKeys_get]
    simp [expiredAt, hg, he]
  · intro k hg
    rw [removeExpiredKeys_get]
    simp [expiredAt, hg]
  · intro k e hg
    have := removeExpiredKeys_none_expired st now k
    simpa [expiredAt, hg] using this
  · intro hnd
    rw [removeExpiredKeys_data]
    have := sweepKeys_eq_filter now [] st.data false (by simpa using hnd)
    simpa using this
  · intro h
    apply removeExpiredKeys_of_none_expired
    intro k
    unfold expiredAt
    cases hg : st.data.get k with
    | none => rfl
    | some e => exact h k e hg
  · rintro ⟨k, e, hg, he⟩ hsize
    have hx : expiredAt st.data now k = true := by simp [expiredAt, hg, he]
    have heq := removeExpiredKeys_of_expired st now k hx
    rw [removeExpiredKeys_data] at hsize
    rw [heq]
    have hs : ¬ dataSize (sweepKeys now st.data.keys st.data false).1 > fileSizeLimit := by
      omega
    simp [saveData, hs]

/-- For every mapping whose serialisation has at most 1,073,741,824 bytes,
`saveData` succeeds and writes the pretty-printed mapping, and when that file
has at most `maxStringLength` bytes, so that it can be read back as one string,
a start on it at time `now` succeeds with the original mapping
minus exactly the entries whose expiry is a number other than 0 that is
earlier than `now`: these are gone, every other entry is unchanged (for a
mapping with distinct keys the result is the old mapping filtered, in the old
order).  A start without backing file succeeds with the empty mapping. -/
theorem save_then_load (data : Store) (file : Option String) (now : Nat)
    (hsize : dataSize data ≤ fileSizeLimit)
    (hlen : byteLength (stringifyPretty 0 data.toJSON) ≤ maxStringLength) :
    (saveData ⟨data, file⟩).result = .ok () ∧
    (saveData ⟨data, file⟩).store.file = some (stringifyPretty 0 data.toJSON) ∧
    (construct (saveData ⟨data, file⟩).store.file now).result = .ok () ∧
    (∀ e : Entry, isExpired e now = true ↔
      ∃ t : Int, e.expiry = some t ∧ t ≠ 0 ∧ t < (now : Int)) ∧
    (∀ k e, data.get k = some e → isExpired e now = true →
      (construct (saveData ⟨data, file⟩).store.file now).store.data.get k = none) ∧
    (∀ k e, data.get k = some e → isExpired e now = false →
      (construct (saveData ⟨data, file⟩).store.file now).store.data.get k = some e) ∧
    (∀ k, data.get k = none →
      (construct (saveData ⟨data, file⟩).store.file now).store.data.get k = none) ∧
    (data.keys.Nodup →
      (construct (saveData ⟨data, file⟩).store.file now).store.data =
        data.filter (fun p => !isExpired p.2 now)) ∧
    construct none now = ⟨.ok (), ⟨[], none⟩⟩ := by
  have hs : ¬ dataSize data > fileSizeLimit := by omega
  have hfile : (saveData ⟨data, file⟩).store.file = some (stringifyPretty 0 data.toJSON) := by
    simp [saveData, hs]
  have hload : construct (saveData ⟨data, file⟩).store.file now =
      removeExpiredKeys ⟨data, some (stringifyPretty 0 data.toJSON)⟩ now := by
    rw [hfile]
    exact loadData_of_saved [] data now hlen
  refine ⟨by simp [saveData, hs], hfile, ?_, fun e => isExpired_iff e now, ?_, ?_, ?_, ?_, rfl⟩
  · rw [hload]
    exact removeExpiredKeys_result_ok _ _ hsize
  · intro k e hg he
    rw [hload, removeExpiredKeys_get]
    simp [expiredAt, hg, he]
  · intro k e hg he
    rw [hload, removeExpiredKeys_get]
    simp [expiredAt, hg, he]
  · intro k hg
    rw [hload, removeExpiredKeys_get]
    simp [expiredAt, hg]
  · intro hnd
    rw [hload, removeExpiredKeys_data]
    have := sweepKeys_eq_filter now [] data false (by simpa using hnd)
    simpa using this

/-- Serialized size of `largeValue`. -/
theorem byteLength_largeValue : byteLength (stringify largeValue) = 600000002 := by
  have hc : Char.utf8Size (Char.ofNat 20013) = 3 := by decide
  unfold largeValue
  rw [byteLength_stringify_str_replicate 200000000 (Char.ofNat 20013) (by decide), hc]

/-- Serialized size of a mapping with one entry without expiry. -/
theorem dataSize_single (k : String) (v : JVal) :
    dataSize [(k, ⟨v, none⟩)] = byteLength (quote k) + byteLength (stringify v) + 27 := by
  have h1 : byteLength (quote "value") = 7 := by decide
  have h2 : byteLength (quote "expiry") = 8 := by decide
  have h3 : byteLength (stringify .null) = 4 := by decide
  simp only [dataSize_eq, List.map, Store.entryJSON, byteLength_stringifyMembers_cons,
    byteLength_stringify_obj, List.isEmpty_nil, List.isEmpty_cons, if_true, h1, h2, h3]
  simp
  omega

/-- The file written for a mapping with one string entry is at least as long as
the serialized string. -/
theorem byteLength_pretty_single (k : String) (s : String) :
    byteLength (stringify (.str s)) ≤
      byteLength (stringifyPretty 0 (Store.toJSON [(k, ⟨.str s, none⟩)])) := by
  simp only [Store.toJSON, Store.entryJSON, List.map, stringifyPretty, prettyMembers, stringify,
    byteLength_append]
  omega

theorem byteLength_pretty_largeData :
    byteLength (stringifyPretty 0 largeData.toJSON) > maxStringLength := by
  have h := byteLength_pretty_single "big" (String.mk (List.replicate 200000000 (Char.ofNat 20013)))
  have hv := byteLength_largeValue
  unfold largeValue at hv
  rw [hv] at h
  unfold largeData largeValue
  simp only [maxStringLength]
  omega

theorem dataSize_largeData : dataSize largeData ≤ fileSizeLimit := by
  have hq : byteLength (quote "big") = 5 := by decide
  unfold largeData
  rw [dataSize_single, byteLength_largeValue, hq]
  simp only [fileSizeLimit]
  omega

/-- A mapping that `saveData` accepts and that cannot be loaded again: the
serialisation of `largeData` has less than 1 GiB, so the file is written, and
the file has more than `maxStringLength` bytes, so a start on it fails. -/
theorem reload_large_file_fails :
    dataSize largeData ≤ fileSizeLimit ∧
    (saveData ⟨largeData, none⟩).result = .ok () ∧
    (construct (saveData ⟨largeData, none⟩).store.file 0).result =
      .error (.error "Cannot create a string longer than 0x1fffffe8 characters") := by
  have hs : ¬ dataSize largeData > fileSizeLimit := by
    have := dataSize_largeData
    omega
  have hfile : (saveData ⟨largeData, none⟩).store.file =
      some (stringifyPretty 0 largeData.toJSON) := by
    simp only [saveData, hs, if_false]
  refine ⟨dataSize_largeData, by simp only [saveData, hs, if_false], ?_⟩
  rw [hfile]
  unfold construct
  rw [loadData_too_long _ _ 0 rfl byteLength_pretty_largeData]

/-- On a batch of at most 50 items on which the running size check does not
trip, when a key that is not in the mapping and names no member of
`Object.prototype` is carried by two items `a`
and `b` (in this order) that both pass the key-length and value-size checks,
and `b` is the last valid item with that key, then the first loop succeeds,
the key is not among the reported already-existing keys, both items are among
the staged valid items, and after the call the mapping holds the key with the
value of `b` and the expiry computed from the TTL of `b` when `b` is committed. -/
theorem batchCreate_duplicate_key (st : KeyValueStore) (items : List Item) (clock : Nat → Nat)
    (pre mid post : List Item) (a b : Item)
    (hlen : items.length ≤ 50)
    (hsize : sizeCheckTrips st.data (dataSize st.data) items = false)
    (hitems : items = pre ++ a :: (mid ++ b :: post))
    (hkey : a.key = b.key) (hnew : a.key ∉ st.data.keys) (hproto : a.key ∉ prototypeNames)
    (hlenk : byteLength a.key ≤ 32)
    (ha : byteLength (stringify a.value) ≤ 16384)
    (hb : byteLength (stringify b.value) ≤ 16384)
    (hlast : ∀ j ∈ post, j.isValid st.data = true → j.key ≠ b.key) :
    (∃ scan, scanItems st.data items ⟨[], [], [], dataSize st.data⟩ = .ok scan ∧
      a.key ∉ scan.alreadyExistsKeys ∧ a ∈ scan.validItems ∧ b ∈ scan.validItems) ∧
    (batchCreate st items clock).store.data.get a.key =
      some ⟨b.value,
        expiryFor b.ttl
          (clock ((pre ++ a :: mid).filter (Item.isValid st.data)).length)⟩ := by
  have hga : st.data.holds a.key = false :=
    (Store.holds_eq_false_iff _ _).2 ⟨(Store.get_eq_none_iff _ _).2 hnew, hproto⟩
  have hva : a.isValid st.data = true := by
    simp [Item.isValid, hga, hlenk, ha]
  have hvb : b.isValid st.data = true := by
    simp [Item.isValid, ← hkey, hga, hlenk, hb]
  constructor
  · refine ⟨_, by rw [scanItems_eq, hsize]; rfl, ?_, ?_, ?_⟩
    · simp only [List.nil_append, existingKeysOf, List.mem_map, List.mem_filter, not_exists,
        not_and]
      rintro j ⟨_, hj⟩ hk
      simp only [Bool.and_eq_true, decide_eq_true_eq] at hj
      rw [hk, hga] at hj
      simp at hj
    · simp only [List.nil_append, List.mem_filter, hitems]
      exact ⟨by simp, hva⟩
    · simp only [List.nil_append, List.mem_filter, hitems]
      exact ⟨by simp, hvb⟩
  · have hi : items = (pre ++ a :: mid) ++ b :: post := by
      rw [hitems]
      simp
    rw [hkey]
    exact batchCreate_get_last st items clock hlen hsize (pre ++ a :: mid) post b hi hvb hlast

/-! ## Properties of the store engine -/

/-- C1: when `create(k, v, ttl)` succeeds at time `now`, a `read(k)` at a time
`later` at which the TTL has not elapsed (or after a create without TTL)
returns exactly `v` and leaves the store as it is. -/
theorem create_then_read (st : KeyValueStore) (k : String) (v : JVal) (ttl : Option Int)
    (now later : Nat)
    (hc : (create st k v ttl now).result = .ok ())
    (hl : truthy ttl = false ∨ ∃ t, ttl = some t ∧ (later : Int) ≤ (now : Int) + t * 1000) :
    KeyValueStore.read (create st k v ttl now).store k later =
      ⟨.ok (some v), (create st k v ttl now).store⟩ := by
  obtain ⟨h1, h2, h3, _⟩ := (create_ok_iff st k v ttl now).1 hc
  have g1 := (create_ok_key st k v ttl now hc).1
  have hd := (create_data_of_checks st k v ttl now h1 h2 h3).1
  have hg : (create st k v ttl now).store.data.get k = some ⟨v, expiryFor ttl now⟩ := by
    rw [hd, Store.get_append_single, g1]
    simp
  exact read_of_live _ k ⟨v, expiryFor ttl now⟩ later hg
    (isExpired_expiryFor_false v ttl now later hl)

/-- Witness of C1 on the empty store: a value created with a TTL of five
seconds at time 1000 is read back at time 6000. -/
theorem create_then_read_witness :
    KeyValueStore.read (create emptyStore "k" (.num 1) (some 5) 1000).store "k" 6000 =
      ⟨.ok (some (.num 1)), (create emptyStore "k" (.num 1) (some 5) 1000).store⟩ :=
  create_then_read emptyStore "k" (.num 1) (some 5) 1000 6000 rfl
    (Or.inr ⟨5, rfl, by decide⟩)

/-- C2 (what the code does): under a key that names a member of
`Object.prototype`, such as `constructor`, `create` fails with
`KeyAlreadyExistsError` whether or not the key is in the mapping, whatever the
sizes of key and value, and leaves the store as it was. -/
theorem create_prototype_name (st : KeyValueStore) (k : String) (v : JVal) (ttl : Option Int)
    (now : Nat) (hp : k ∈ prototypeNames) :
    create st k v ttl now = ⟨.error .keyAlreadyExists, st⟩ := by
  simp [create, Store.holds_of_prototypeName _ _ hp]

/-- C2 at the failing input: the empty store does not hold `constructor`, and
`create("constructor", 1)` fails with `KeyAlreadyExistsError`. -/
theorem create_prototype_name_witness :
    "constructor" ∉ emptyStore.data.keys ∧
    create emptyStore "constructor" (.num 1) none 0 = ⟨.error .keyAlreadyExists, emptyStore⟩ :=
  ⟨by decide, create_prototype_name emptyStore "constructor" (.num 1) none 0 (by decide)⟩

/-- C3: on a store whose entries respect the size limits, `create` under a key
of more than 32 bytes fails with the key-length validation error, whatever the
value and the TTL, and leaves the store, its mapping included, exactly as it
was. -/
theorem create_long_key (st : KeyValueStore) (k : String) (v : JVal) (ttl : Option Int)
    (now : Nat) (hlen : byteLength k > 32) (hst : withinLimits st.data) :
    (create st k v ttl now).result = .error (.error "Key must be at most 32 characters.") ∧
    isValidationError (create st k v ttl now).result ∧
    (create st k v ttl now).store.data = st.data ∧
    (create st k v ttl now).store = st := by
  have hk : k ∉ st.data.keys := by
    intro hm
    obtain ⟨p, hp, hpk⟩ := List.mem_map.1 hm
    have := (hst p hp).1
    rw [hpk] at this
    omega
  have hp : k ∉ prototypeNames := by
    intro hm
    have := byteLength_prototypeName k hm
    omega
  have h1 : st.data.holds k = false :=
    (Store.holds_eq_false_iff _ _).2 ⟨(Store.get_eq_none_iff _ _).2 hk, hp⟩
  have hr : create st k v ttl now =
      ⟨.error (.error "Key must be at most 32 characters."), st⟩ := by
    simp [create, h1, hlen]
  rw [hr]
  exact ⟨rfl, Or.inl rfl, rfl, rfl⟩

/-- Witness of C3: the 33-byte key on a store that holds one entry. -/
theorem create_long_key_witness :
    (create oneKeyStore longKey bigValue (some 5) 0).result =
        .error (.error "Key must be at most 32 characters.") ∧
    isValidationError (create oneKeyStore longKey bigValue (some 5) 0).result ∧
    (create oneKeyStore longKey bigValue (some 5) 0).store.data = oneKeyStore.data ∧
    (create oneKeyStore longKey bigValue (some 5) 0).store = oneKeyStore :=
  create_long_key oneKeyStore longKey bigValue (some 5) 0 (by decide)
    (by
      intro p hp
      simp only [oneKeyStore, mirrored, List.mem_singleton] at hp
      subst hp
      exact ⟨by decide, by decide⟩)

/-- Counterexample to C4 as stated: the value is larger than 16384 bytes, yet
`create` under a key that is already in the mapping fails with
`KeyAlreadyExistsError`, which is not a validation error. -/
theorem create_big_value_existing :
    byteLength (stringify bigValue) > 16384 ∧
    "k" ∈ oneKeyStore.data.keys ∧
    (create oneKeyStore "k" bigValue none 0).result = .error .keyAlreadyExists ∧
    ¬ isValidationError (create oneKeyStore "k" bigValue none 0).result := by
  have hr : (create oneKeyStore "k" bigValue none 0).result = .error .keyAlreadyExists := by
    have hh : oneKeyStore.data.holds "k" = true :=
      Store.holds_of_get_some _ _ ⟨.num 1, none⟩ rfl
    simp [create, hh]
  refine ⟨by rw [byteLength_bigValue]; decide, by decide, hr, ?_⟩
  rw [isValidationError, hr]
  simp

/-- C4 (amended): for a value whose serialisation has more than 16384 bytes and
a key that is not in the mapping (and names no member of `Object.prototype`),
`create` fails with a validation error (the key-length one when the key is too
long as well, else the value-size one) and leaves the store, its mapping
included, exactly as it was. -/
theorem create_big_value (st : KeyValueStore) (k : String) (v : JVal) (ttl : Option Int)
    (now : Nat) (hsize : byteLength (stringify v) > 16384) (hnew : k ∉ st.data.keys)
    (hproto : k ∉ prototypeNames) :
    isValidationError (create st k v ttl now).result ∧
    (byteLength k ≤ 32 →
      (create st k v ttl now).result = .error (.error "Value size exceeds 16KB.")) ∧
    (create st k v ttl now).store.data = st.data ∧
    (create st k v ttl now).store = st := by
  have h1 : st.data.holds k = false :=
    (Store.holds_eq_false_iff _ _).2 ⟨(Store.get_eq_none_iff _ _).2 hnew, hproto⟩
  by_cases h2 : byteLength k > 32
  · have hr : create st k v ttl now =
        ⟨.error (.error "Key must be at most 32 characters."), st⟩ := by
      simp [create, h1, h2]
    rw [hr]
    exact ⟨Or.inl rfl, fun h => absurd h2 (by omega), rfl, rfl⟩
  · have hr : create st k v ttl now = ⟨.error (.error "Value size exceeds 16KB."), st⟩ := by
      simp [create, h1, h2, hsize]
    rw [hr]
    exact ⟨Or.inr rfl, fun _ => rfl, rfl, rfl⟩

/-- Witness of the amended C4: `bigValue` under a new key of a store that holds
another key. -/
theorem create_big_value_witness :
    isValidationError (create oneKeyStore "j" bigValue none 0).result ∧
    (byteLength "j" ≤ 32 →
      (create oneKeyStore "j" bigValue none 0).result = .error (.error "Value size exceeds 16KB.")) ∧
    (create oneKeyStore "j" bigValue none 0).store.data = oneKeyStore.data ∧
    (create oneKeyStore "j" bigValue none 0).store = oneKeyStore :=
  create_big_value oneKeyStore "j" bigValue none 0 (by rw [byteLength_bigValue]; decide)
    (by decide) (by decide)

/-- C5 (what the code does): when `create` passes its three checks and
`saveData` then throws `FileSizeLimitExceededError`, nothing is rolled back:
the key was not in the mapping before the call and is in it afterwards, with
the new entry, while the backing file is left as it was. -/
theorem create_size_failure_keeps_entry (st : KeyValueStore) (k : String) (v : JVal)
    (ttl : Option Int) (now : Nat)
    (hf : (create st k v ttl now).result = .error .fileSizeLimitExceeded) :
    k ∉ st.data.keys ∧
    (create st k v ttl now).store.data = st.data ++ [(k, ⟨v, expiryFor ttl now⟩)] ∧
    k ∈ (create st k v ttl now).store.data.keys ∧
    (create st k v ttl now).store.data ≠ st.data ∧
    (create st k v ttl now).store.file = st.file := by
  by_cases h1 : st.data.holds k = true
  · simp [create, h1] at hf
  · by_cases h2 : byteLength k > 32
    · simp [create, h1, h2] at hf
    · by_cases h3 : byteLength (stringify v) > 16384
      · simp [create, h1, h2, h3] at hf
      · have g1 : st.data.holds k = false := by simpa using h1
        have hd := (create_data_of_checks st k v ttl now g1 (by omega) (by omega)).1
        refine ⟨(Store.get_eq_none_iff _ _).1 ((Store.holds_eq_false_iff _ _).1 g1).1, hd,
          ?_, ?_, ?_⟩
        · rw [hd]
          simp [Store.keys]
        · rw [hd]
          intro h
          have := congrArg List.length h
          simp at this
        · have hs : dataSize (st.data.set k ⟨v, expiryFor ttl now⟩) > fileSizeLimit := by
            by_contra hc
            simp [create, h1, h2, h3, saveData, hc] at hf
          simp [create, h1, h2, h3, saveData, hs]

/-- On `hugeStore`, `create("k", 1)` passes the checks and fails in `saveData`. -/
theorem create_hugeStore_result :
    (create hugeStore "k" (.num 1) none 0).result = .error .fileSizeLimitExceeded := by
  have h1 : hugeStore.data.holds "k" = false := by
    rw [Store.holds_eq_false_iff]
    exact ⟨by simp [hugeStore, mirrored, hugeData, Store.get], by decide⟩
  rw [(create_data_of_checks hugeStore "k" (.num 1) none 0 h1 (by decide) (by decide)).2]
  have hg : Store.get (hugeStore.data ++ [("k", ⟨.num 1, expiryFor none 0⟩)]) "big" =
      some ⟨hugeValue, none⟩ := by
    simp [hugeStore, hugeData, Store.get]
  have hle := value_le_dataSize _ _ _ hg
  rw [byteLength_hugeValue] at hle
  rw [if_pos]
  simp only [fileSizeLimit]
  omega

/-- Witness of C5 at the failing input: `create("k", 1)` on `hugeStore` throws
`FileSizeLimitExceededError` and leaves `k` in the mapping. -/
theorem create_size_failure_keeps_entry_witness :
    (create hugeStore "k" (.num 1) none 0).result = .error .fileSizeLimitExceeded ∧
    "k" ∉ hugeStore.data.keys ∧
    (create hugeStore "k" (.num 1) none 0).store.data =
      hugeStore.data ++ [("k", ⟨.num 1, expiryFor none 0⟩)] ∧
    "k" ∈ (create hugeStore "k" (.num 1) none 0).store.data.keys ∧
    (create hugeStore "k" (.num 1) none 0).store.data ≠ hugeStore.data ∧
    (create hugeStore "k" (.num 1) none 0).store.file = hugeStore.file :=
  ⟨create_hugeStore_result,
    create_size_failure_keeps_entry hugeStore "k" (.num 1) none 0 create_hugeStore_result⟩

/-- Counterexample to C6 as stated: a key created at time 1000 with a TTL of
one second is still returned by a read at time 2000, exactly one second later. -/
theorem read_at_exact_ttl :
    (create emptyStore "k" (.num 1) (some 1) 1000).result = .ok () ∧
    (KeyValueStore.read (create emptyStore "k" (.num 1) (some 1) 1000).store "k" 2000).result
      = .ok (some (.num 1)) :=
  ⟨rfl, rfl⟩

/-- C6 (amended): when `create(k, v, ttl)` with a positive `ttl` succeeds at
time `now`, a `read(k)` at a time `later` with `later - now` strictly greater
than `ttl` seconds fails with `ExpiredKeyError` and removes `k` from the
mapping, leaving every other key as it was, and a following `read(k)`, at any
time, fails with `KeyNotFoundError`. -/
theorem read_after_ttl (st : KeyValueStore) (k : String) (v : JVal) (t : Int)
    (now later : Nat) (ht : 0 < t)
    (hc : (create st k v (some t) now).result = .ok ())
    (hl : (later : Int) > (now : Int) + t * 1000) :
    (KeyValueStore.read (create st k v (some t) now).store k later).result
      = .error .expiredKey ∧
    k ∉ (KeyValueStore.read (create st k v (some t) now).store k later).store.data.keys ∧
    (∀ other, other ≠ k →
      (KeyValueStore.read (create st k v (some t) now).store k later).store.data.get other
        = st.data.get other) ∧
    (∀ later2,
      (KeyValueStore.read
        (KeyValueStore.read (create st k v (some t) now).store k later).store k later2).result
        = .error .keyNotFound) := by
  obtain ⟨h1, h2, h3, h4⟩ := (create_ok_iff st k v (some t) now).1 hc
  obtain ⟨g1, hp⟩ := create_ok_key st k v (some t) now hc
  have hd := (create_data_of_checks st k v (some t) now h1 h2 h3).1
  have hg : (create st k v (some t) now).store.data.get k
      = some ⟨v, expiryFor (some t) now⟩ := by
    rw [hd, Store.get_append_single, g1]
    simp
  have ht0 : t ≠ 0 := by omega
  have he : isExpired ⟨v, expiryFor (some t) now⟩ later = true := by
    simp only [isExpired, expiryFor, bne_iff_ne, ne_eq, ht0, not_false_eq_true, if_true,
      Bool.and_eq_true, decide_eq_true_eq]
    constructor <;> omega
  obtain ⟨rd, rr⟩ := read_of_expired _ k _ later hg he
  have hsz : dataSize ((create st k v (some t) now).store.data.del k) ≤ fileSizeLimit := by
    rw [hd]
    exact Nat.le_trans (dataSize_del_le _ _) h4
  have hnone :
      (KeyValueStore.read (create st k v (some t) now).store k later).store.data.get k = none := by
    rw [rd]
    exact Store.get_del_self _ _
  refine ⟨?_, (Store.get_eq_none_iff _ _).1 hnone, ?_, ?_⟩
  · rw [rr, if_neg (by omega)]
  · intro other ho
    have hne : ¬ k = other := fun h => ho h.symm
    rw [rd, Store.get_del_ne _ _ _ ho, hd, Store.get_append_single]
    simp only [hne, if_false]
    cases st.data.get other <;> rfl
  · intro later2
    rw [read_of_absent _ _ _ hnone hp]

/-- Witness of the amended C6: created at time 1000 with a TTL of one second,
read at time 2001. -/
theorem read_after_ttl_witness :
    (KeyValueStore.read (create emptyStore "k" (.num 1) (some 1) 1000).store "k" 2001).result
      = .error .expiredKey ∧
    "k" ∉ (KeyValueStore.read
      (create emptyStore "k" (.num 1) (some 1) 1000).store "k" 2001).store.data.keys ∧
    (∀ other, other ≠ "k" →
      (KeyValueStore.read
        (create emptyStore "k" (.num 1) (some 1) 1000).store "k" 2001).store.data.get other
        = emptyStore.data.get other) ∧
    (∀ later2,
      (KeyValueStore.read
        (KeyValueStore.read
          (create emptyStore "k" (.num 1) (some 1) 1000).store "k" 2001).store "k" later2).result
        = .error .keyNotFound) :=
  read_after_ttl emptyStore "k" (.num 1) 1 1000 2001 (by decide) rfl (by decide)

/-- C7 (what the code does): an entry whose expiry timestamp is 0 never
expires: at every time `now`, also when 0 is earlier than `now`, `read`
returns its value, fails with no error and removes nothing. -/
theorem read_zero_expiry (st : KeyValueStore) (k : String) (e : Entry) (now : Nat)
    (hg : st.data.get k = some e) (h0 : e.expiry = some 0) :
    KeyValueStore.read st k now = ⟨.ok (some e.value), st⟩ := by
  apply read_of_live st k e now hg
  simp [isExpired, h0]

/-- C7 at the failing input: the entry under `k` of `zeroExpiryStore` has the
expiry timestamp 0, which is earlier than the time 1 of the read, and `read`
returns the value 1. -/
theorem read_zero_expiry_witness :
    zeroExpiryStore.data.get "k" = some ⟨.num 1, some 0⟩ ∧
    (0 : Int) < ((1 : Nat) : Int) ∧
    KeyValueStore.read zeroExpiryStore "k" 1 = ⟨.ok (some (.num 1)), zeroExpiryStore⟩ :=
  ⟨rfl, by decide, read_zero_expiry zeroExpiryStore "k" ⟨.num 1, some 0⟩ 1 rfl rfl⟩

/-- C8: a successful `create(k, v, ttl)` at time `now` appends exactly one
entry, under `k`, with value `v`; its expiry is `now + ttl * 1000` when `ttl`
is a non-zero number and `null` when `ttl` is absent, `null` or `0`; every
other key reads as before. -/
theorem create_success_effect (st : KeyValueStore) (k : String) (v : JVal) (ttl : Option Int)
    (now : Nat) (hc : (create st k v ttl now).result = .ok ()) :
    (create st k v ttl now).store.data = st.data ++ [(k, ⟨v, expiryFor ttl now⟩)] ∧
    k ∉ st.data.keys ∧
    (create st k v ttl now).store.data.get k = some ⟨v, expiryFor ttl now⟩ ∧
    (∀ t : Int, ttl = some t → t ≠ 0 → expiryFor ttl now = some ((now : Int) + t * 1000)) ∧
    (ttl = none ∨ ttl = some 0 → expiryFor ttl now = none) ∧
    (∀ other, other ≠ k →
      (create st k v ttl now).store.data.get other = st.data.get other) := by
  obtain ⟨h1, h2, h3, _⟩ := (create_ok_iff st k v ttl now).1 hc
  have g1 := (create_ok_key st k v ttl now hc).1
  have hd := (create_data_of_checks st k v ttl now h1 h2 h3).1
  refine ⟨hd, (Store.get_eq_none_iff _ _).1 g1, ?_, ?_, ?_, ?_⟩
  · rw [hd, Store.get_append_single, g1]
    simp
  · intro t ht h0
    subst ht
    simp [expiryFor, h0]
  · rintro (h | h) <;> subst h <;> rfl
  · intro other ho
    have : ¬ k = other := fun h => ho h.symm
    rw [hd, Store.get_append_single]
    simp only [this, if_false]
    cases st.data.get other <;> rfl

/-- Witness of C8: a create with a TTL of five seconds at time 1000 on a store
that holds another key. -/
theorem create_success_effect_witness :
    (create oneKeyStore "j" (.num 2) (some 5) 1000).store.data =
        oneKeyStore.data ++ [("j", ⟨.num 2, expiryFor (some 5) 1000⟩)] ∧
    "j" ∉ oneKeyStore.data.keys ∧
    (create oneKeyStore "j" (.num 2) (some 5) 1000).store.data.get "j" =
        some ⟨.num 2, expiryFor (some 5) 1000⟩ ∧
    (∀ t : Int, some 5 = some t → t ≠ 0 →
        expiryFor (some 5) 1000 = some (((1000 : Nat) : Int) + t * 1000)) ∧
    ((some 5 : Option Int) = none ∨ (some 5 : Option Int) = some 0 →
        expiryFor (some 5) 1000 = none) ∧
    (∀ other, other ≠ "j" →
      (create oneKeyStore "j" (.num 2) (some 5) 1000).store.data.get other =
        oneKeyStore.data.get other) :=
  create_success_effect oneKeyStore "j" (.num 2) (some 5) 1000 rfl

/-- C9 (what the code does): under a key that names a member of
`Object.prototype`, such as `toString`, `delete` never fails with
`KeyNotFoundError`: when the key is not in the mapping the call is the plain
`saveData` of the unchanged mapping, which rewrites the backing file; and
whether the key was in the mapping or not, a following `read` of the key, at
any time, does not fail with `KeyNotFoundError` either but returns
`undefined`. -/
theorem delete_prototype_name (st : KeyValueStore) (k : String) (hp : k ∈ prototypeNames) :
    (delete st k).result ≠ .error .keyNotFound ∧
    (k ∉ st.data.keys → delete st k = saveData st) ∧
    (∀ now, KeyValueStore.read (delete st k).store k now = ⟨.ok none, (delete st k).store⟩) := by
  have hd : delete st k = saveData { st with data := st.data.del k } := by
    simp [delete, Store.holds_of_prototypeName _ _ hp]
  refine ⟨?_, ?_, ?_⟩
  · rw [hd, saveData_result]
    split <;> simp
  · intro hk
    rw [hd, Store.del_of_not_mem _ _ hk]
  · intro now
    apply read_of_inherited _ _ _ _ hp
    rw [hd, saveData_data]
    exact Store.get_del_self _ _

/-- C9 at the failing input: the empty store does not hold `toString`, and
`delete("toString")` succeeds and writes the backing file. -/
theorem delete_prototype_name_witness :
    "toString" ∉ emptyStore.data.keys ∧
    delete emptyStore "toString" = ⟨.ok (), ⟨[], some "\x7b\x7d"⟩⟩ ∧
    (∀ now, (KeyValueStore.read (delete emptyStore "toString").store "toString" now).result =
      .ok none) :=
  ⟨by decide,
   ((delete_prototype_name emptyStore "toString" (by decide)).2.1 (by decide)).trans rfl,
   fun now => by rw [(delete_prototype_name emptyStore "toString" (by decide)).2.2 now]⟩

/-- Counterexample to C10 as stated: both items of `duplicateBatch` are valid
(the key `a` has one byte and is not in the mapping, the values are small) and
the size check does not trip, yet after the call the key holds the value of the
second item, so the first item is not stored with its value. -/
theorem batchCreate_duplicate_overwritten :
    duplicateBatch.length ≤ 50 ∧
    sizeCheckTrips emptyStore.data (dataSize emptyStore.data) duplicateBatch = false ∧
    duplicateBatch.head? = some ⟨"a", .num 1, none⟩ ∧
    (byteLength "a" ≤ 32 ∧ "a" ∉ emptyStore.data.keys ∧
      byteLength (stringify (.num 1)) ≤ 16384) ∧
    Item.isValid emptyStore.data ⟨"a", .num 1, none⟩ = true ∧
    (batchCreate emptyStore duplicateBatch (fun _ => 0)).store.data.get "a"
      = some ⟨.num 2, none⟩ ∧
    (KeyValueStore.read (batchCreate emptyStore duplicateBatch (fun _ => 0)).store "a" 0).result
      = .ok (some (.num 2)) ∧
    JVal.num 2 ≠ JVal.num 1 :=
  ⟨by decide, rfl, rfl, ⟨by decide, by decide, by decide⟩, rfl, rfl, rfl, by intro h; cases h⟩

/-- C10 (amended): for a batch of at most 50 items on which the running size
check does not trip, every valid item (key of at most 32 bytes that is not in
the mapping and names no member of `Object.prototype`, serialized value of at
most 16384 bytes) whose key is not the key of a later valid item of the batch
is stored under its key with its value, and a `read` of that key at any time
at which the new entry is not expired returns the value; every entry that was
in the mapping before the call is unchanged.  This holds whatever the call
reports. -/
theorem batchCreate_partial_success (st : KeyValueStore) (items : List Item)
    (clock : Nat → Nat) (hlen : items.length ≤ 50)
    (hsize : sizeCheckTrips st.data (dataSize st.data) items = false) :
    (∀ pre it post, items = pre ++ it :: post →
      byteLength it.key ≤ 32 → it.key ∉ st.data.keys → it.key ∉ prototypeNames →
      byteLength (stringify it.value) ≤ 16384 →
      (∀ j ∈ post, j.isValid st.data = true → j.key ≠ it.key) →
      (batchCreate st items clock).store.data.get it.key =
          some ⟨it.value,
            expiryFor it.ttl (clock (pre.filter (Item.isValid st.data)).length)⟩ ∧
      (∀ now,
        isExpired ⟨it.value,
            expiryFor it.ttl (clock (pre.filter (Item.isValid st.data)).length)⟩ now = false →
        KeyValueStore.read (batchCreate st items clock).store it.key now =
          ⟨.ok (some it.value), (batchCreate st items clock).store⟩)) ∧
    (∀ key e, st.data.get key = some e →
      (batchCreate st items clock).store.data.get key = some e) := by
  have hd := batchCreate_data st items clock hlen hsize
  constructor
  · intro pre it post hitems hk hnew hproto hval hlast
    have hv : it.isValid st.data = true := (Item.isValid_iff _ _).2 ⟨hk, hnew, hproto, hval⟩
    have hget := batchCreate_get_last st items clock hlen hsize pre post it hitems hv hlast
    exact ⟨hget, fun now he => read_of_live _ _ _ now hget he⟩
  · intro key e hg
    rw [hd, commitItems_get_of_not_mem _ _ _ _ _ _, hg]
    intro it hit hk
    have hv := (Item.isValid_iff _ _).1 (List.mem_filter.1 hit).2
    rw [hk] at hv
    exact hv.2.1 ((Store.get_isSome_iff _ _).1 (by simp [hg]))

/-- Witness of the amended C10, the example of the specification: the batch
with a key of 40 bytes and the key `ok` on the empty store.  The call reports
the long key, and `ok` is stored and readable. -/
theorem batchCreate_partial_success_witness :
    (batchCreate emptyStore mixedBatch (fun _ => 0)).result =
      .error (.error "Invalid keys: aaaaaaaaaaaaaaaaaaaaaaaaaaaaaaaaaaaaaaaa") ∧
    (batchCreate emptyStore mixedBatch (fun _ => 0)).store.data.get "ok"
      = some ⟨.num 2, none⟩ ∧
    (∀ now, KeyValueStore.read (batchCreate emptyStore mixedBatch (fun _ => 0)).store "ok" now =
      ⟨.ok (some (.num 2)), (batchCreate emptyStore mixedBatch (fun _ => 0)).store⟩) :=
  have h := (batchCreate_partial_success emptyStore mixedBatch (fun _ => 0) (by decide) rfl).1
    [⟨"aaaaaaaaaaaaaaaaaaaaaaaaaaaaaaaaaaaaaaaa", .num 1, none⟩] ⟨"ok", .num 2, none⟩ [] rfl
    (by decide) (by decide) (by decide) (by decide)
    (fun _ hj => absurd hj (List.not_mem_nil _))
  ⟨rfl, h.1, fun now => h.2 now rfl⟩

/-- Counterexample to C11 as stated: the only item of `existingBigBatch` has a
serialized value larger than 16384 bytes, so the claim counts it as invalid,
yet on `oneKeyStore`, which holds its key, `batchCreate` reports the key as
already existing and reports no invalid key. -/
theorem batchCreate_existing_big_value :
    existingBigBatch = [⟨"k", bigValue, none⟩] ∧
    byteLength (stringify bigValue) > 16384 ∧
    "k" ∈ oneKeyStore.data.keys ∧
    sizeCheckTrips oneKeyStore.data (dataSize oneKeyStore.data) existingBigBatch = false ∧
    (batchCreate oneKeyStore existingBigBatch (fun _ => 0)).result
      = .error (.error "Already existing keys: k") := by
  have hh : oneKeyStore.data.holds "k" = true :=
    Store.holds_of_get_some _ _ ⟨.num 1, none⟩ rfl
  refine ⟨rfl, by rw [byteLength_bigValue]; decide, by decide, ?_, ?_⟩
  · simp [existingBigBatch, sizeCheckTrips, Item.isValid, hh]
  · rfl

/-- C11 (amended): on a batch of at most 50 items, none of which has a key
that names a member of `Object.prototype`, and on which the running size check
does not trip, the first loop of `batchCreate` puts every item, in input
order, in exactly one class: invalid when its key has more than 32 bytes, or
when its key is not in the mapping and its serialized value has more than
16384 bytes; already existing when its key has at most 32 bytes and is in the
mapping (whatever the size of its value); valid otherwise.  When the persist
after the commit succeeds, the call succeeds exactly when every item is valid,
and otherwise fails with the aggregate `Error` whose message is built from the
keys of the invalid items and the keys of the already existing items. -/
theorem batchCreate_report (st : KeyValueStore) (items : List Item) (clock : Nat → Nat)
    (hlen : items.length ≤ 50)
    (hproto : ∀ it ∈ items, it.key ∉ prototypeNames)
    (hsize : sizeCheckTrips st.data (dataSize st.data) items = false)
    (hsave : dataSize (commitItems clock (items.filter (Item.isValid st.data)) 0 st.data)
      ≤ fileSizeLimit) :
    (∀ it ∈ items,
      (classify st.data it = .invalid ↔
        byteLength it.key > 32 ∨
          (it.key ∉ st.data.keys ∧ byteLength (stringify it.value) > 16384)) ∧
      (classify st.data it = .alreadyExists ↔
        byteLength it.key ≤ 32 ∧ it.key ∈ st.data.keys) ∧
      (classify st.data it = .valid ↔
        byteLength it.key ≤ 32 ∧ it.key ∉ st.data.keys ∧
          byteLength (stringify it.value) ≤ 16384)) ∧
    (∃ scan, scanItems st.data items ⟨[], [], [], dataSize st.data⟩ = .ok scan ∧
      scan.invalidKeys =
        (items.filter fun it => decide (classify st.data it = .invalid)).map Item.key ∧
      scan.alreadyExistsKeys =
        (items.filter fun it => decide (classify st.data it = .alreadyExists)).map Item.key ∧
      scan.validItems = (items.filter fun it => decide (classify st.data it = .valid)) ∧
      ((batchCreate st items clock).result = .ok () ↔
        ∀ it ∈ items, classify st.data it = .valid) ∧
      ((batchCreate st items clock).result =
          .error (.error (aggregateMessage scan.invalidKeys scan.alreadyExistsKeys)) ↔
        ∃ it ∈ items, classify st.data it ≠ .valid)) := by
  refine ⟨fun it hit => ?_, ?_⟩
  · have hp := hproto it hit
    have hh : st.data.holds it.key = true ↔ it.key ∈ st.data.keys := by
      rw [Store.holds_iff]
      exact ⟨fun h => h.resolve_right hp, Or.inl⟩
    have hf : st.data.holds it.key = false ↔ it.key ∉ st.data.keys := by
      rw [← hh]
      simp
    obtain ⟨c1, c2, c3⟩ := classify_iff st.data it
    rw [hf] at c1
    rw [hh] at c2
    refine ⟨c1, c2, ?_⟩
    rw [c3, Item.isValid_iff]
    constructor
    · rintro ⟨a, b, _, d⟩
      exact ⟨a, b, d⟩
    · rintro ⟨a, b, d⟩
      exact ⟨a, b, hp, d⟩
  have hres := batchCreate_result st items clock hlen hsize
  rw [if_neg (by omega)] at hres
  have hpos := batchErrors_pos_iff_rejected st.data items
  refine ⟨_, by rw [scanItems_eq, hsize]; rfl, ?_, ?_, ?_, ?_, ?_⟩
  · simpa using invalidKeysOf_eq_classify st.data items
  · simpa using existingKeysOf_eq_classify st.data items
  · simpa using validItems_eq_classify st.data items
  · rw [hres]
    constructor
    · intro h it hit
      by_contra hc
      rw [if_pos (hpos.2 ⟨it, hit, hc⟩)] at h
      cases h
    · intro h
      rw [if_neg]
      intro hp
      obtain ⟨it, hit, hc⟩ := hpos.1 hp
      exact hc (h it hit)
  · rw [hres]
    simp only [List.nil_append]
    constructor
    · intro h
      by_contra hc
      rw [if_neg (fun hp => hc (hpos.1 hp))] at h
      cases h
    · intro h
      rw [if_pos (hpos.2 h)]

/-- Witness of the amended C11: `threeClassBatch` on `oneKeyStore`; the key of
40 bytes is reported as invalid and the key `k` as already existing. -/
theorem batchCreate_report_witness :
    (batchCreate oneKeyStore threeClassBatch (fun _ => 0)).result =
      .error (.error
        "Invalid keys: aaaaaaaaaaaaaaaaaaaaaaaaaaaaaaaaaaaaaaaa. Already existing keys: k") ∧
    (∃ scan, scanItems oneKeyStore.data threeClassBatch
        ⟨[], [], [], dataSize oneKeyStore.data⟩ = .ok scan ∧
      scan.invalidKeys = ["aaaaaaaaaaaaaaaaaaaaaaaaaaaaaaaaaaaaaaaa"] ∧
      scan.alreadyExistsKeys = ["k"]) :=
  have h := (batchCreate_report oneKeyStore threeClassBatch (fun _ => 0) (by decide)
    (by decide) rfl (by decide)).2
  ⟨rfl, by
    obtain ⟨scan, h1, h2, h3, _⟩ := h
    exact ⟨scan, h1, by rw [h2]; rfl, by rw [h3]; rfl⟩⟩

/-- C12: when, on a batch of at most 50 items, the running total (serialized
size of the mapping plus the serialized value sizes of the valid items, in
input order) passes 1,073,741,824 bytes at some item, `batchCreate` fails with
`FileSizeLimitExceededError` and the store, its mapping included, is exactly
as before the call. -/
theorem batchCreate_size_limit (st : KeyValueStore) (items : List Item) (clock : Nat → Nat)
    (hlen : items.length ≤ 50)
    (htrip : sizeCheckTrips st.data (dataSize st.data) items = true) :
    (batchCreate st items clock).result = .error .fileSizeLimitExceeded ∧
    (batchCreate st items clock).store.data = st.data ∧
    (batchCreate st items clock).store = st := by
  rw [batchCreate_of_trips st items clock hlen htrip]
  exact ⟨rfl, rfl, rfl⟩

/-- Witness of C12: one small item on `hugeStore`, whose mapping is already
larger than the limit. -/
theorem batchCreate_size_limit_witness :
    (batchCreate hugeStore smallBatch (fun _ => 0)).result = .error .fileSizeLimitExceeded ∧
    (batchCreate hugeStore smallBatch (fun _ => 0)).store.data = hugeStore.data ∧
    (batchCreate hugeStore smallBatch (fun _ => 0)).store = hugeStore :=
  batchCreate_size_limit hugeStore smallBatch (fun _ => 0) (by decide) sizeCheckTrips_hugeStore

/-- C13: a batch of more than 50 items fails with the batch-limit `Error` and
leaves the store, its mapping included, exactly as it was; a batch of at most
50 items never fails with that error. -/
theorem batchCreate_batch_limit (st : KeyValueStore) (items : List Item) (clock : Nat → Nat) :
    (items.length > 50 →
      (batchCreate st items clock).result =
          .error (.error "Batch limit of 50 key-value pairs exceeded.") ∧
      (batchCreate st items clock).store = st) ∧
    (items.length ≤ 50 →
      (batchCreate st items clock).result ≠
          .error (.error "Batch limit of 50 key-value pairs exceeded.")) := by
  constructor
  · intro h
    simp [batchCreate, h]
  · intro hlen hres
    cases htrip : sizeCheckTrips st.data (dataSize st.data) items with
    | true =>
      rw [batchCreate_of_trips st items clock hlen htrip] at hres
      cases hres
    | false =>
      rw [batchCreate_result st items clock hlen htrip] at hres
      split at hres
      · cases hres
      · split at hres
        · rename_i _ hE
          have hm : aggregateMessage (invalidKeysOf st.data items) (existingKeysOf st.data items)
              = "Batch limit of 50 key-value pairs exceeded." := by
            injection hres with h1
            injection h1
          have hh := aggregateMessage_head _ _ hE
          rw [hm] at hh
          rcases hh with hh | hh <;> simp at hh
        · cases hres

/-- Witness of C13: 51 items on the empty store, and a batch of one item. -/
theorem batchCreate_batch_limit_witness :
    ((batchCreate emptyStore oversizedBatch (fun _ => 0)).result =
          .error (.error "Batch limit of 50 key-value pairs exceeded.") ∧
      (batchCreate emptyStore oversizedBatch (fun _ => 0)).store = emptyStore) ∧
    (batchCreate emptyStore smallBatch (fun _ => 0)).result ≠
          .error (.error "Batch limit of 50 key-value pairs exceeded.") :=
  ⟨(batchCreate_batch_limit emptyStore oversizedBatch (fun _ => 0)).1 (by decide),
   (batchCreate_batch_limit emptyStore smallBatch (fun _ => 0)).2 (by decide)⟩

/-- Counterexample to C14 as stated: on the empty store `commaKeyBatch` has the
one invalid key `aaa…, bbb…` and `twoLongKeysBatch` the two invalid keys
`aaa…` and `bbb…`; the lists differ, yet both calls raise the same error value. -/
theorem batchCreate_same_error_different_lists :
    (scanItems emptyStore.data commaKeyBatch ⟨[], [], [], dataSize emptyStore.data⟩).map
        Scan.invalidKeys =
      .ok ["aaaaaaaaaaaaaaaaaaaaaaaaaaaaaaaaaaaaaaaa, bbbbbbbbbbbbbbbbbbbbbbbbbbbbbbbbbbbbbbbb"] ∧
    (scanItems emptyStore.data twoLongKeysBatch ⟨[], [], [], dataSize emptyStore.data⟩).map
        Scan.invalidKeys =
      .ok ["aaaaaaaaaaaaaaaaaaaaaaaaaaaaaaaaaaaaaaaa",
           "bbbbbbbbbbbbbbbbbbbbbbbbbbbbbbbbbbbbbbbb"] ∧
    ["aaaaaaaaaaaaaaaaaaaaaaaaaaaaaaaaaaaaaaaa, bbbbbbbbbbbbbbbbbbbbbbbbbbbbbbbbbbbbbbbb"] ≠
      ["aaaaaaaaaaaaaaaaaaaaaaaaaaaaaaaaaaaaaaaa", "bbbbbbbbbbbbbbbbbbbbbbbbbbbbbbbbbbbbbbbb"] ∧
    (batchCreate emptyStore commaKeyBatch (fun _ => 0)).result =
      (batchCreate emptyStore twoLongKeysBatch (fun _ => 0)).result ∧
    (batchCreate emptyStore commaKeyBatch (fun _ => 0)).result = .error (.error
      "Invalid keys: aaaaaaaaaaaaaaaaaaaaaaaaaaaaaaaaaaaaaaaa, bbbbbbbbbbbbbbbbbbbbbbbbbbbbbbbbbbbbbbbb") :=
  ⟨rfl, rfl, by decide, rfl, rfl⟩

/-- C14 (amended): the aggregate error of `batchCreate` is a plain `Error`
whose message is built from the list of invalid keys and the list of already
existing keys, so the two lists determine the error value; and when no
reported key contains a comma or a full stop, the error value determines the
two lists: two calls, each with a successful persist, that return the same
result have the same list of invalid keys and the same list of already
existing keys. -/
theorem batchCreate_error_lists (st st' : KeyValueStore) (items items' : List Item)
    (clock clock' : Nat → Nat) (scan scan' : Scan)
    (hlen : items.length ≤ 50) (hlen' : items'.length ≤ 50)
    (hscan : scanItems st.data items ⟨[], [], [], dataSize st.data⟩ = .ok scan)
    (hscan' : scanItems st'.data items' ⟨[], [], [], dataSize st'.data⟩ = .ok scan')
    (hsave : dataSize (commitItems clock scan.validItems 0 st.data) ≤ fileSizeLimit)
    (hsave' : dataSize (commitItems clock' scan'.validItems 0 st'.data) ≤ fileSizeLimit)
    (hplain : ∀ k ∈ scan.invalidKeys ++ scan.alreadyExistsKeys, isPlainKey k)
    (hplain' : ∀ k ∈ scan'.invalidKeys ++ scan'.alreadyExistsKeys, isPlainKey k)
    (hres : (batchCreate st items clock).result = (batchCreate st' items' clock').result) :
    ((scan.invalidKeys ≠ [] ∨ scan.alreadyExistsKeys ≠ []) →
      (batchCreate st items clock).result =
        .error (.error (aggregateMessage scan.invalidKeys scan.alreadyExistsKeys))) ∧
    scan.invalidKeys = scan'.invalidKeys ∧
    scan.alreadyExistsKeys = scan'.alreadyExistsKeys := by
  obtain ⟨ht, hi, he, hv⟩ := scanItems_ok _ _ _ _ hscan
  obtain ⟨ht', hi', he', hv'⟩ := scanItems_ok _ _ _ _ hscan'
  have hr := batchCreate_result st items clock hlen ht
  have hr' := batchCreate_result st' items' clock' hlen' ht'
  rw [← hv] at hr
  rw [← hv'] at hr'
  rw [if_neg (by omega), ← hi, ← he] at hr
  rw [if_neg (by omega), ← hi', ← he'] at hr'
  constructor
  · intro hne
    rw [hr, if_pos ((batchErrors_length_pos_iff _ _).2 hne)]
  · rw [hr, hr'] at hres
    by_cases hp : (batchErrors ⟨scan.invalidKeys, scan.alreadyExistsKeys, [], 0⟩).length > 0
    · by_cases hp' :
          (batchErrors ⟨scan'.invalidKeys, scan'.alreadyExistsKeys, [], 0⟩).length > 0
      · rw [if_pos hp, if_pos hp'] at hres
        have hm : aggregateMessage scan.invalidKeys scan.alreadyExistsKeys =
            aggregateMessage scan'.invalidKeys scan'.alreadyExistsKeys := by
          injection hres with h1
          injection h1
        exact aggregateMessage_inj _ _ _ _
          (fun k hk => hplain k (List.mem_append_left _ hk))
          (fun k hk => hplain k (List.mem_append_right _ hk))
          (fun k hk => hplain' k (List.mem_append_left _ hk))
          (fun k hk => hplain' k (List.mem_append_right _ hk)) hm
      · rw [if_pos hp, if_neg hp'] at hres
        cases hres
    · by_cases hp' :
          (batchErrors ⟨scan'.invalidKeys, scan'.alreadyExistsKeys, [], 0⟩).length > 0
      · rw [if_neg hp, if_pos hp'] at hres
        cases hres
      · rw [batchErrors_length_pos_iff] at hp hp'
        push_neg at hp hp'
        rw [hp.1, hp.2, hp'.1, hp'.2]
        exact ⟨rfl, rfl⟩

/-- Witness of the amended C14: `threeClassBatch` on `oneKeyStore`, committed
at two different times; both calls return the same error and report the same
two lists, neither of which has a key with a comma or a full stop. -/
theorem batchCreate_error_lists_witness :
    (((["aaaaaaaaaaaaaaaaaaaaaaaaaaaaaaaaaaaaaaaa"] : List String) ≠ [] ∨
        (["k"] : List String) ≠ []) →
      (batchCreate oneKeyStore threeClassBatch (fun _ => 0)).result =
        .error (.error (aggregateMessage ["aaaaaaaaaaaaaaaaaaaaaaaaaaaaaaaaaaaaaaaa"] ["k"]))) ∧
    ["aaaaaaaaaaaaaaaaaaaaaaaaaaaaaaaaaaaaaaaa"] = ["aaaaaaaaaaaaaaaaaaaaaaaaaaaaaaaaaaaaaaaa"] ∧
    ["k"] = ["k"] :=
  batchCreate_error_lists oneKeyStore oneKeyStore threeClassBatch threeClassBatch
    (fun _ => 0) (fun _ => 5)
    ⟨["aaaaaaaaaaaaaaaaaaaaaaaaaaaaaaaaaaaaaaaa"], ["k"], [⟨"ok", .num 3, none⟩],
      dataSize oneKeyStore.data + 1⟩
    ⟨["aaaaaaaaaaaaaaaaaaaaaaaaaaaaaaaaaaaaaaaa"], ["k"], [⟨"ok", .num 3, none⟩],
      dataSize oneKeyStore.data + 1⟩
    (by decide) (by decide) rfl rfl (by decide) (by decide)
    (by
      intro k hk
      simp only [List.cons_append, List.nil_append, List.mem_cons, List.mem_singleton,
        List.not_mem_nil, or_false] at hk
      rcases hk with rfl | rfl <;> (unfold isPlainKey; decide))
    (by
      intro k hk
      simp only [List.cons_append, List.nil_append, List.mem_cons, List.mem_singleton,
        List.not_mem_nil, or_false] at hk
      rcases hk with rfl | rfl <;> (unfold isPlainKey; decide))
    rfl

/-- C16 (what the code does): an entry whose expiry timestamp is 0 outlives
every sweep: at every time `now`, also when 0 is earlier than `now`, the entry
is still in the mapping after `removeExpiredKeys`. -/
theorem sweep_keeps_zero_expiry (st : KeyValueStore) (k : String) (e : Entry) (now : Nat)
    (hg : st.data.get k = some e) (h0 : e.expiry = some 0) :
    (removeExpiredKeys st now).store.data.get k = some e := by
  rw [removeExpiredKeys_get]
  simp [expiredAt, hg, isExpired, h0]

/-- C16 at the failing input: the entry of `zeroExpiryStore` has the expiry 0,
which is earlier than the time 1 of the sweep; the sweep leaves it in the
mapping, removes nothing and does not touch the file. -/
theorem sweep_keeps_zero_expiry_witness :
    zeroExpiryStore.data.get "k" = some ⟨.num 1, some 0⟩ ∧
    (0 : Int) < ((1 : Nat) : Int) ∧
    (removeExpiredKeys zeroExpiryStore 1).store.data.get "k" = some ⟨.num 1, some 0⟩ ∧
    removeExpiredKeys zeroExpiryStore 1 = ⟨.ok (), zeroExpiryStore⟩ :=
  ⟨rfl, by decide, sweep_keeps_zero_expiry zeroExpiryStore "k" ⟨.num 1, some 0⟩ 1 rfl rfl, rfl⟩

/-- C17: the sweep is idempotent at a fixed time: a second `removeExpiredKeys`
at the same `now`, run on the store the first one leaves, removes nothing,
does not call `saveData` and leaves the store, mapping and file, exactly as the
first run left it. -/
theorem removeExpiredKeys_idempotent (st : KeyValueStore) (now : Nat) :
    removeExpiredKeys (removeExpiredKeys st now).store now =
        ⟨.ok (), (removeExpiredKeys st now).store⟩ ∧
    (removeExpiredKeys (removeExpiredKeys st now).store now).store.data =
        (removeExpiredKeys st now).store.data ∧
    (sweepKeys now (removeExpiredKeys st now).store.data.keys
        (removeExpiredKeys st now).store.data false).2 = false := by
  have h := removeExpiredKeys_of_none_expired (removeExpiredKeys st now).store now
    (fun k => removeExpiredKeys_none_expired st now k)
  refine ⟨h, by rw [h], ?_⟩
  rw [sweepKeys_of_none_expired now _ _ false
    (fun k _ => removeExpiredKeys_none_expired st now k)]

/-- C15: starting from the empty store, after any sequence of `create`, `read`,
`delete`, `batchCreate` and sweep calls, successful or failing, every key of
the mapping has at most 32 bytes and every stored value serialises to at most
16384 bytes. -/
theorem stored_entries_within_limits (ops : List Op) :
    ∀ p ∈ (run emptyStore ops).data,
      byteLength p.1 ≤ 32 ∧ byteLength (stringify p.2.value) ≤ 16384 :=
  withinLimits_run emptyStore ops (fun p hp => absurd hp (List.not_mem_nil p))

/-- An instance of C15: after the calls of `sampleOps` the mapping holds the one
entry committed by the batch, and it respects the limits. -/
theorem stored_entries_within_limits_witness :
    (run emptyStore sampleOps).data = [("ok", ⟨.num 3, none⟩)] ∧
    ∀ p ∈ (run emptyStore sampleOps).data,
      byteLength p.1 ≤ 32 ∧ byteLength (stringify p.2.value) ≤ 16384 :=
  ⟨rfl, stored_entries_within_limits sampleOps⟩

/-- C18 (what the code does): an entry whose expiry timestamp is 0 outlives
the reload: when the mapping is saved and the store is started again on that
file at any time `now`, also when 0 is earlier than `now`, the entry is in the
mapping again. -/
theorem reload_keeps_zero_expiry (data : Store) (file : Option String) (k : String) (e : Entry)
    (now : Nat) (hsize : dataSize data ≤ fileSizeLimit)
    (hlen : byteLength (stringifyPretty 0 data.toJSON) ≤ maxStringLength)
    (hg : data.get k = some e) (h0 : e.expiry = some 0) :
    (saveData ⟨data, file⟩).result = .ok () ∧
    (construct (saveData ⟨data, file⟩).store.file now).result = .ok () ∧
    (construct (saveData ⟨data, file⟩).store.file now).store.data.get k = some e := by
  have hs : ¬ dataSize data > fileSizeLimit := by omega
  have hfile : (saveData ⟨data, file⟩).store.file = some (stringifyPretty 0 data.toJSON) := by
    simp [saveData, hs]
  have hload : construct (saveData ⟨data, file⟩).store.file now =
      removeExpiredKeys ⟨data, some (stringifyPretty 0 data.toJSON)⟩ now := by
    rw [hfile]
    exact loadData_of_saved [] data now hlen
  refine ⟨by simp [saveData, hs], ?_, ?_⟩
  · rw [hload]
    exact removeExpiredKeys_result_ok _ _ hsize
  · rw [hload, removeExpiredKeys_get]
    simp [expiredAt, hg, isExpired, h0]

/-- C18 at the failing input: the entry of `zeroExpiryStore` has the expiry 0,
which is set and earlier than the time 1 of the reload, and is still in the
mapping after the file that `saveData` wrote is loaded again. -/
theorem reload_keeps_zero_expiry_witness :
    zeroExpiryStore.data.get "k" = some ⟨.num 1, some 0⟩ ∧
    (0 : Int) < ((1 : Nat) : Int) ∧
    (saveData ⟨zeroExpiryStore.data, none⟩).result = .ok () ∧
    (construct (saveData ⟨zeroExpiryStore.data, none⟩).store.file 1).result = .ok () ∧
    (construct (saveData ⟨zeroExpiryStore.data, none⟩).store.file 1).store.data.get "k"
      = some ⟨.num 1, some 0⟩ :=
  ⟨rfl, by decide,
    reload_keeps_zero_expiry zeroExpiryStore.data none "k" ⟨.num 1, some 0⟩ 1 (by decide)
      (by decide) rfl rfl⟩

/-- C20 at the failing input: the empty store does not hold the key `toString`
and both items of `toStringBatch` carry it and pass the key-length and
value-size checks, yet the first loop of `batchCreate` reports both
occurrences as already existing and stages neither, the call fails, and the
mapping does not hold the key afterwards. -/
theorem batchCreate_duplicate_prototype_name :
    toStringBatch = [⟨"toString", .num 1, none⟩, ⟨"toString", .num 2, none⟩] ∧
    "toString" ∉ emptyStore.data.keys ∧
    byteLength "toString" ≤ 32 ∧
    byteLength (stringify (.num 1)) ≤ 16384 ∧
    byteLength (stringify (.num 2)) ≤ 16384 ∧
    sizeCheckTrips emptyStore.data (dataSize emptyStore.data) toStringBatch = false ∧
    (scanItems emptyStore.data toStringBatch ⟨[], [], [], dataSize emptyStore.data⟩).map
        Scan.alreadyExistsKeys = .ok ["toString", "toString"] ∧
    (scanItems emptyStore.data toStringBatch ⟨[], [], [], dataSize emptyStore.data⟩).map
        (fun scan => scan.validItems.length) = .ok 0 ∧
    (batchCreate emptyStore toStringBatch (fun _ => 0)).result =
      .error (.error "Already existing keys: toString, toString") ∧
    (batchCreate emptyStore toStringBatch (fun _ => 0)).store.data = [] :=
  ⟨rfl, by decide, by decide, by decide, by decide, rfl, rfl, rfl, rfl, rfl⟩
